import Mathlib

/-!
# docker-slim: command reports and version check

A shallow embedding of `pkg/report/command_report.go` and
`internal/app/master/version/version.go`, with the properties of the
run-reporting and version-telemetry subsystem stated and proved over it.

Conventions of the embedding

* A Go `string` / `[]byte` is a byte sequence.  It is represented by the sequence
  of units that ranging over it yields (`GoChar`): a Unicode scalar value, or a
  byte that is not part of any well-formed UTF-8 sequence.
* Standard output is the list of chunks written by successive `fmt.Printf` calls.
* Effects (file system, network) are explicit state or explicit parameters.  The
  file system is a tree of directories and regular files without links or
  permissions; path names are resolved element by element.
* Values that come from packages outside the two embedded files (`v.Tag()`,
  `v.Current()`, the HTTP transport, the JSON codec used by `Check`) are
  parameters.  So are the types `float64` and `dockerfile.ImageInfo` of the
  report records, with their JSON conversions.
* An `int64` is an integer; no arithmetic is done on it, and the decoder checks
  its range.
* `encoding/json` is embedded as far as `saveInfo` uses it: the encoder with
  `SetEscapeHTML` and `SetIndent`, and the decoder on the texts the encoder
  writes.
-/

namespace DockerSlim

/-! ## Go strings -/

deriving instance DecidableEq for Except

/-- One unit of a Go string: a Unicode scalar value (a well-formed UTF-8
sequence), or a stray byte that is not part of one. -/
inductive GoChar where
  | rune (c : Char)
  | invalid (b : Fin 256)
  deriving DecidableEq, Repr

/-- A Go `string` (or `[]byte`). -/
abbrev GoString := List GoChar

/-- A Go string literal. -/
def lit (s : String) : GoString := s.data.map GoChar.rune

/-- Standard output: the chunks written so far, oldest first. -/
abbrev Stdout := List GoString

/-- The Go predicate `strings.Contains(s, sub)`. -/
def Contains (s sub : GoString) : Prop := sub <:+: s

/-! ## internal/app/master/version/version.go -/

namespace version

def versionCheckEndpoint : GoString := lit "https://versions.api.dockerslim.com/check"
def jsonContentType : GoString := lit "application/json"
def versionAuthKey : GoString := lit "1JZg1RXvS6mZ0ANgf7p9PoYWQ9q.1JZg3zytWMmBVH50c0RvtBvVpq8"

structure CheckVersionRequest where
  AppVersion : GoString
  deriving DecidableEq, Repr

structure CheckVersionInfo where
  Status : GoString
  Outdated : Bool
  Current : GoString
  deriving DecidableEq, Repr

/-- The first line `PrintCheckVersion` prints (`%s` of a string is the string). -/
def outdatedNotice (tag current : GoString) : GoString :=
  lit "docker-slim[version]: info=version status=OUTDATED local=" ++ tag ++
    lit " current=" ++ current ++ lit "\n"

/-- The second line `PrintCheckVersion` prints. -/
def upgradeInstructions : GoString :=
  lit "docker-slim[version]: info=message message='Your version of DockerSlim is out of date! Use the \"update\" command or download the new version from https://dockersl.im/downloads.html'\n"

/-- `PrintCheckVersion(info)`: `tag` is the value of `v.Tag()`, `out` the standard
output before the call; the result is the standard output after it. -/
def PrintCheckVersion (tag : GoString) (info : Option CheckVersionInfo) (out : Stdout) : Stdout :=
  match info with
  | some info =>
    if info.Status = lit "success" ∧ info.Outdated = true then
      (out ++ [outdatedNotice tag info.Current]) ++ [upgradeInstructions]
    else out
  | none => out

/-- `GetCheckVersionVerdict(info)`: `tag` is the value of `v.Tag()`. -/
def GetCheckVersionVerdict (tag : GoString) (info : Option CheckVersionInfo) : GoString :=
  match info with
  | some info =>
    if info.Status = lit "success" then
      if info.Outdated = true then
        lit "your installed version is OUTDATED (local=" ++ tag ++ lit " current=" ++
          info.Current ++ lit ")"
      else
        lit "your have the latest version"
    else
      lit "version status information is not available"
  | none => lit "version status information is not available"

/-- An `http.Request` as far as `Check` sets it up. -/
structure Request where
  Method : GoString
  URL : GoString
  Body : GoString
  Header : List (GoString × GoString)
  deriving DecidableEq, Repr

/-- `Header.Set(key, value)`: replaces the values associated with `key`. -/
def Request.setHeader (req : Request) (key value : GoString) : Request :=
  { req with Header := (req.Header.filter (fun kv => decide (kv.1 ≠ key))) ++ [(key, value)] }

/-- An `http.Response` as far as `Check` reads it. -/
structure Response where
  Status : GoString
  StatusCode : Int
  Body : GoString
  deriving DecidableEq, Repr

/-- What `client.Do(req)` returns: a response and no error, or an error
(possibly together with a response, which the caller may only close). -/
inductive DoResult where
  | ok (resp : Response)
  | failed (err : GoString) (resp : Option Response)
  deriving DecidableEq, Repr

/-- An `http.Client` as far as `Check` configures it. -/
structure Client where
  TimeoutSeconds : Nat
  deriving DecidableEq, Repr

/-- The collaborators of `Check` that live outside `version.go`. -/
structure Env where
  /-- The value of `v.Current()`. -/
  Current : GoString
  /-- The call `json.NewEncoder(&b)` then `SetEscapeHTML(escapeHTML)` then `Encode(&data)`:
  the bytes written to `b`, or the error. -/
  Encode : (escapeHTML : Bool) → CheckVersionRequest → Except GoString GoString
  /-- The call `http.NewRequest(method, url, body)` (headers empty). -/
  NewRequest : (method url body : GoString) → Except GoString Request
  /-- The call `client.Do(req)`. -/
  Do : Client → Request → DoResult
  /-- The call `json.NewDecoder(resp.Body).Decode(&checkInfo)`. -/
  Decode : GoString → Except GoString CheckVersionInfo

def StatusOK : Int := 200

/-- `Check()`: `none` is the nil result.  (The deferred draining and closing of the
response body and the debug log lines have no effect on the result.) -/
def Check (env : Env) : Option CheckVersionInfo :=
  let client : Client := { TimeoutSeconds := 13 }
  let data : CheckVersionRequest := { AppVersion := env.Current }
  match env.Encode false data with
  | .error _ => none
  | .ok b =>
    match env.NewRequest (lit "POST") versionCheckEndpoint b with
    | .error _ => none
    | .ok req =>
      let req := req.setHeader (lit "User-Agent") (lit "DockerSlimApp/" ++ env.Current)
      let req := req.setHeader (lit "Content-Type") jsonContentType
      let req := req.setHeader (lit "Authorization") (lit "Bearer " ++ versionAuthKey)
      match env.Do client req with
      | .failed _ _ => none
      | .ok resp =>
        if resp.StatusCode ≠ StatusOK then none
        else
          match env.Decode resp.Body with
          | .error _ => none
          | .ok checkInfo => some checkInfo

end version

/-! ## Paths: `path/filepath` on a Unix system -/

namespace filepath

/-- The path separator. -/
def Separator : GoChar := .rune '/'

/-- The elements of a path: the pieces between separators (possibly empty). -/
def elements : GoString → List GoString
  | [] => [[]]
  | c :: cs =>
    if c = Separator then [] :: elements cs
    else
      match elements cs with
      | [] => [[c]]
      | e :: es => (c :: e) :: es

/-- One step of `Clean`: the stack of kept elements (innermost first) after
reading the element `e`. -/
def cleanStep (rooted : Bool) (stack : List GoString) (e : GoString) : List GoString :=
  if e = [] ∨ e = lit "." then stack
  else if e = lit ".." then
    match stack with
    | [] => if rooted then [] else [lit ".."]
    | top :: rest => if top = lit ".." then e :: top :: rest else rest
  else e :: stack

/-- Joins path elements with the separator. -/
def join : List GoString → GoString
  | [] => []
  | [e] => e
  | e :: es => e ++ Separator :: join es

/-- `filepath.Clean(path)`: the shortest path name equivalent to `path` by purely
lexical processing (empty and `.` elements dropped, inner `..` elements
eliminated with the element before them, `..` at the root dropped). -/
def Clean (path : GoString) : GoString :=
  if path = [] then lit "."
  else
    let rooted : Bool := decide (path.head? = some Separator)
    let kept := ((elements path).foldl (cleanStep rooted) []).reverse
    if rooted then Separator :: join kept
    else if kept = [] then lit "."
    else join kept

/-- `filepath.Dir(path)`: all but the last element of `path`, cleaned. -/
def Dir (path : GoString) : GoString :=
  Clean (path.reverse.dropWhile (fun c => decide (c ≠ Separator))).reverse

/-- `filepath.Base(path)`: the last element of `path`, trailing separators
removed first. -/
def Base (path : GoString) : GoString :=
  if path = [] then lit "."
  else
    let stripped := (path.reverse.dropWhile (fun c => decide (c = Separator))).reverse
    let last := (stripped.reverse.takeWhile (fun c => decide (c ≠ Separator))).reverse
    if last = [] then [Separator] else last

end filepath

/-! ## The file system: `os` and `io/ioutil` -/

namespace os

/-- The error numbers the modelled calls can return. -/
inductive Errno where
  | ENOENT
  | ENOTDIR
  | EISDIR
  deriving DecidableEq, Repr

/-- A file-system object: a directory, or a regular file with its content. -/
inductive Node where
  | dir
  | file (data : GoString)
  deriving DecidableEq, Repr

/-- The location of an object: the names leading to it from the root directory. -/
abbrev Location := List GoString

/-- A file system: the working directory of the process and the objects below the
root (the root directory itself always exists); the first entry for a location
is the current one. -/
structure FS where
  cwd : Location
  entries : List (Location × Node)
  deriving DecidableEq, Repr

/-- Looks a location up in a list of entries. -/
def lookup : List (Location × Node) → Location → Option Node
  | [], _ => none
  | (q, n) :: rest, p => if q = p then some n else lookup rest p

/-- The object at a location, if there is one. -/
def FS.node (fs : FS) (p : Location) : Option Node :=
  if p = [] then some Node.dir else lookup fs.entries p

/-- Puts an object at a location. -/
def FS.put (fs : FS) (p : Location) (n : Node) : FS :=
  { fs with entries := (p, n) :: fs.entries }

/-- Path resolution: follows the elements `es` from the directory `cur`.  Every
directory passed through must exist; the location reached need not. -/
def walk (fs : FS) : Location → List GoString → Except Errno Location
  | cur, [] => .ok cur
  | cur, e :: es =>
    match fs.node cur with
    | none => .error .ENOENT
    | some (.file _) => .error .ENOTDIR
    | some .dir =>
      if e = [] ∨ e = lit "." then walk fs cur es
      else if e = lit ".." then walk fs cur.dropLast es
      else walk fs (cur ++ [e]) es

/-- Where resolution of `name` starts, and the elements to follow from there. -/
def start (fs : FS) (name : GoString) : Location × List GoString :=
  if name.head? = some filepath.Separator then ([], filepath.elements name.tail)
  else (fs.cwd, filepath.elements name)

/-- The location a path name denotes. -/
def resolve (fs : FS) (name : GoString) : Except Errno Location :=
  if name = [] then .error .ENOENT
  else walk fs (start fs name).1 (start fs name).2

/-- What `os.Stat` reports about an object. -/
structure FileInfo where
  IsDir : Bool
  deriving DecidableEq, Repr

/-- `os.Stat(name)`. -/
def Stat (fs : FS) (name : GoString) : Except Errno FileInfo :=
  match resolve fs name with
  | .error e => .error e
  | .ok p =>
    match fs.node p with
    | none => .error .ENOENT
    | some .dir => .ok { IsDir := true }
    | some (.file _) => .ok { IsDir := false }

/-- `os.IsNotExist(err)` for the error of a call. -/
def IsNotExist {α : Type} (r : Except Errno α) : Bool :=
  match r with
  | .error .ENOENT => true
  | _ => false

/-- Directory creation along the elements `es` from the directory `cur`: every
missing directory on the way is created. Returns the file system reached and
the error, if any. -/
def mkdirWalk : FS → Location → List GoString → FS × Option Errno
  | fs, cur, [] =>
    match fs.node cur with
    | none => (fs, some .ENOENT)
    | some (.file _) => (fs, some .ENOTDIR)
    | some .dir => (fs, none)
  | fs, cur, e :: es =>
    match fs.node cur with
    | none => (fs, some .ENOENT)
    | some (.file _) => (fs, some .ENOTDIR)
    | some .dir =>
      if e = [] ∨ e = lit "." then mkdirWalk fs cur es
      else if e = lit ".." then mkdirWalk fs cur.dropLast es
      else
        match fs.node (cur ++ [e]) with
        | none => mkdirWalk (fs.put (cur ++ [e]) .dir) (cur ++ [e]) es
        | some _ => mkdirWalk fs (cur ++ [e]) es

/-- `os.MkdirAll(path, perm)`: creates the directory `path` along with any
necessary parents; does nothing when `path` is already a directory. -/
def MkdirAll (fs : FS) (path : GoString) : FS × Option Errno :=
  if path = [] then (fs, some .ENOENT)
  else mkdirWalk fs (start fs path).1 (start fs path).2

/-- `ioutil.WriteFile(filename, data, perm)`: writes `data` to the file, creating
it if it does not exist and truncating it otherwise. -/
def WriteFile (fs : FS) (filename data : GoString) : FS × Option Errno :=
  if filename = [] then (fs, some .ENOENT)
  else
    let es := (start fs filename).2
    match walk fs (start fs filename).1 es.dropLast with
    | .error e => (fs, some e)
    | .ok d =>
      match fs.node d with
      | none => (fs, some .ENOENT)
      | some (.file _) => (fs, some .ENOTDIR)
      | some .dir =>
        match es.getLast? with
        | none => (fs, some .EISDIR)
        | some e =>
          if e = [] ∨ e = lit "." ∨ e = lit ".." then (fs, some .EISDIR)
          else
            if fs.node (d ++ [e]) = some .dir then (fs, some .EISDIR)
            else (fs.put (d ++ [e]) (.file data), none)

/-- `ioutil.ReadFile(filename)`. -/
def ReadFile (fs : FS) (filename : GoString) : Except Errno GoString :=
  match resolve fs filename with
  | .error e => .error e
  | .ok p =>
    match fs.node p with
    | none => .error .ENOENT
    | some .dir => .error .EISDIR
    | some (.file data) => .ok data

/-- A file-system call made by the program. -/
inductive Call where
  | stat (name : GoString)
  | mkdirAll (path : GoString) (perm : Nat)
  | writeFile (filename data : GoString) (perm : Nat)
  deriving DecidableEq, Repr

/-- The second file system has the working directory and every directory of the first. -/
def Extends (fs fs' : FS) : Prop :=
  fs'.cwd = fs.cwd ∧ ∀ p, fs.node p = some .dir → fs'.node p = some .dir

/-- A call that does not write a file. -/
def notWrite : Call → Prop
  | .writeFile _ _ _ => False
  | _ => True

end os

/-! ## JSON encoding: `encoding/json` -/

namespace json

/-- A JSON value; a number is kept as its literal text, an object as its
members in order. -/
inductive JSON where
  | null
  | bool (b : Bool)
  | number (text : GoString)
  | string (s : GoString)
  | array (items : List JSON)
  | object (members : List (GoString × JSON))

/-- The lower-case hexadecimal digit of a number below 16. -/
def hexDigit (n : Nat) : Char :=
  match n with
  | 0 => '0' | 1 => '1' | 2 => '2' | 3 => '3' | 4 => '4' | 5 => '5' | 6 => '6' | 7 => '7'
  | 8 => '8' | 9 => '9' | 10 => 'a' | 11 => 'b' | 12 => 'c' | 13 => 'd' | 14 => 'e'
  | _ => 'f'

/-- How the encoder writes one unit of a string inside a JSON string literal.
Quotes, backslashes and control characters are escaped, U+2028 and U+2029 are
escaped, a byte that is not valid UTF-8 is replaced by the escape of U+FFFD,
and `<`, `>`, `&` are escaped only when `escapeHTML` is set. -/
def quoteChar (escapeHTML : Bool) : GoChar → GoString
  | .invalid _ => lit "\\ufffd"
  | .rune c =>
    if c = '"' then lit "\\\""
    else if c = '\\' then lit "\\\\"
    else if c = '\n' then lit "\\n"
    else if c = '\r' then lit "\\r"
    else if c = '\t' then lit "\\t"
    else if c.toNat < 0x20 ∨ (escapeHTML = true ∧ (c = '<' ∨ c = '>' ∨ c = '&')) then
      lit "\\u00" ++ [.rune (hexDigit (c.toNat / 16)), .rune (hexDigit (c.toNat % 16))]
    else if c = Char.ofNat 0x2028 then lit "\\u2028"
    else if c = Char.ofNat 0x2029 then lit "\\u2029"
    else [.rune c]

/-- The content of a JSON string literal for `s`, between the quotes. -/
def quoteBody (escapeHTML : Bool) : GoString → GoString
  | [] => []
  | c :: cs => quoteChar escapeHTML c ++ quoteBody escapeHTML cs

/-- The JSON string literal for `s`. -/
def quote (escapeHTML : Bool) (s : GoString) : GoString :=
  .rune '"' :: (quoteBody escapeHTML s ++ [.rune '"'])

/-- A line break followed by the prefix and `depth` copies of the indent. -/
def newline (pfx indent : GoString) : Nat → GoString
  | 0 => .rune '\n' :: pfx
  | depth + 1 => newline pfx indent depth ++ indent

mutual
/-- The text of a value nested `depth` levels deep, as `Encoder` writes it with
`SetIndent(pfx, indent)`: every array element and object member on a line of
its own, `": "` after a key, empty arrays and objects closed at once. -/
def render (escapeHTML : Bool) (pfx indent : GoString) (depth : Nat) : JSON → GoString
  | .null => lit "null"
  | .bool true => lit "true"
  | .bool false => lit "false"
  | .number text => text
  | .string s => quote escapeHTML s
  | .array [] => lit "[]"
  | .array (x :: xs) =>
    .rune '[' :: (newline pfx indent (depth + 1) ++ (render escapeHTML pfx indent (depth + 1) x ++
      (renderItems escapeHTML pfx indent (depth + 1) xs ++ (newline pfx indent depth ++ [.rune ']']))))
  | .object [] => [.rune '\x7b', .rune '\x7d']
  | .object ((k, v) :: ms) =>
    .rune '\x7b' :: (newline pfx indent (depth + 1) ++ (quote escapeHTML k ++ (lit ": " ++
      (render escapeHTML pfx indent (depth + 1) v ++
      (renderMembers escapeHTML pfx indent (depth + 1) ms ++
        (newline pfx indent depth ++ [.rune '\x7d']))))))
/-- The array elements after the first, each after a comma on a new line. -/
def renderItems (escapeHTML : Bool) (pfx indent : GoString) (depth : Nat) : List JSON → GoString
  | [] => []
  | x :: xs =>
    .rune ',' :: (newline pfx indent depth ++ (render escapeHTML pfx indent depth x ++
      renderItems escapeHTML pfx indent depth xs))
/-- The object members after the first, each after a comma on a new line. -/
def renderMembers (escapeHTML : Bool) (pfx indent : GoString) (depth : Nat) :
    List (GoString × JSON) → GoString
  | [] => []
  | (k, v) :: ms =>
    .rune ',' :: (newline pfx indent depth ++ (quote escapeHTML k ++ (lit ": " ++
      (render escapeHTML pfx indent depth v ++ renderMembers escapeHTML pfx indent depth ms))))
end

/-- The decimal digit of a number below 10. -/
def digitChar (n : Nat) : Char :=
  match n with
  | 0 => '0' | 1 => '1' | 2 => '2' | 3 => '3' | 4 => '4' | 5 => '5' | 6 => '6' | 7 => '7'
  | 8 => '8' | _ => '9'

/-- The decimal digits of `n`, most significant first (`fuel` bounds their number). -/
def natDigits : Nat → Nat → GoString
  | 0, _ => []
  | fuel + 1, n =>
    if n < 10 then [.rune (digitChar n)]
    else natDigits fuel (n / 10) ++ [.rune (digitChar (n % 10))]

/-- The decimal text of an integer (`strconv.FormatInt(i, 10)`). -/
def formatInt : Int → GoString
  | .ofNat n => natDigits (n + 1) n
  | .negSucc n => .rune '-' :: natDigits (n + 2) (n + 1)

/-- The error `Marshal` returns for a value JSON cannot represent. -/
inductive MarshalError where
  | UnsupportedValueError
  deriving DecidableEq, Repr

/-- A type `encoding/json` can encode: the JSON value of each of its values, or
the error. -/
class Marshaler (α : Type) where
  MarshalJSON : α → Except MarshalError JSON

/-- `json.NewEncoder(w)`, `SetEscapeHTML`, `SetIndent`, then `Encode(v)`: the bytes
written to `w`, or the error. Each value is terminated by a line break. -/
def Encode {α : Type} [Marshaler α] (escapeHTML : Bool) (pfx indent : GoString) (v : α) :
    Except MarshalError GoString :=
  match Marshaler.MarshalJSON v with
  | .error e => .error e
  | .ok j => .ok (render escapeHTML pfx indent 0 j ++ [.rune '\n'])

/-! ### Decoding -/

/-- The value of a hexadecimal digit. -/
def hexVal (c : GoChar) : Option Nat :=
  match c with
  | .invalid _ => none
  | .rune c =>
    if '0'.toNat ≤ c.toNat ∧ c.toNat ≤ '9'.toNat then some (c.toNat - '0'.toNat)
    else if 'a'.toNat ≤ c.toNat ∧ c.toNat ≤ 'f'.toNat then some (c.toNat - 'a'.toNat + 10)
    else if 'A'.toNat ≤ c.toNat ∧ c.toNat ≤ 'F'.toNat then some (c.toNat - 'A'.toNat + 10)
    else none

/-- The value of four hexadecimal digits (`getu4`). -/
def hex4 (a b c d : GoChar) : Option Nat :=
  match hexVal a, hexVal b, hexVal c, hexVal d with
  | some a, some b, some c, some d => some (((a * 16 + b) * 16 + c) * 16 + d)
  | _, _, _, _ => none

/-- The character a single-letter escape stands for. -/
def unescape (c : GoChar) : Option Char :=
  if c = .rune '"' then some '"'
  else if c = .rune '\\' then some '\\'
  else if c = .rune '/' then some '/'
  else if c = .rune '\'' then some '\''
  else if c = .rune 'b' then some (Char.ofNat 8)
  else if c = .rune 'f' then some (Char.ofNat 12)
  else if c = .rune 'n' then some '\n'
  else if c = .rune 'r' then some '\r'
  else if c = .rune 't' then some '\t'
  else none

/-- Puts a decoded unit in front of the decoded remainder. -/
def consUnit (c : Char) (r : Option (GoString × GoString)) : Option (GoString × GoString) :=
  match r with
  | none => none
  | some (s, rest) => some (.rune c :: s, rest)

/-- The second half of a surrogate pair written as an escape at the start of the
input: its value and the input after it. -/
def lowSurrogate (s : GoString) : Option (Nat × GoString) :=
  match s with
  | b :: u :: h1 :: h2 :: h3 :: h4 :: rest =>
    if b = .rune '\\' ∧ u = .rune 'u' then
      match hex4 h1 h2 h3 h4 with
      | some n => if 0xDC00 ≤ n ∧ n < 0xE000 then some (n, rest) else none
      | none => none
    else none
  | _ => none

/-- The decoder on the inside of a string literal (`unquote`), for at most
`fuel` units: the input starts after the opening quote; the result is the
string and the input after the closing quote. Escapes are replaced by what
they stand for, an unpaired surrogate escape and a byte that is not valid
UTF-8 by U+FFFD; an unescaped control character fails the literal. -/
def unquoteBody : Nat → GoString → Option (GoString × GoString)
  | 0, _ => none
  | _ + 1, [] => none
  | fuel + 1, c :: cs =>
    if c = .rune '"' then some ([], cs)
    else if c = .rune '\\' then
      match cs with
      | [] => none
      | e :: cs1 =>
        if e = .rune 'u' then
          match cs1 with
          | h1 :: h2 :: h3 :: h4 :: rest =>
            match hex4 h1 h2 h3 h4 with
            | none => none
            | some n =>
              if 0xD800 ≤ n ∧ n < 0xDC00 then
                match lowSurrogate rest with
                | some (m, rest2) =>
                  consUnit (Char.ofNat ((n - 0xD800) * 0x400 + (m - 0xDC00) + 0x10000))
                    (unquoteBody fuel rest2)
                | none => consUnit (Char.ofNat 0xFFFD) (unquoteBody fuel rest)
              else if 0xDC00 ≤ n ∧ n < 0xE000 then
                consUnit (Char.ofNat 0xFFFD) (unquoteBody fuel rest)
              else consUnit (Char.ofNat n) (unquoteBody fuel rest)
          | _ => none
        else
          match unescape e with
          | none => none
          | some x => consUnit x (unquoteBody fuel cs1)
    else
      match c with
      | .invalid _ => consUnit (Char.ofNat 0xFFFD) (unquoteBody fuel cs)
      | .rune r =>
        if r.toNat < 0x20 then none
        else consUnit r (unquoteBody fuel cs)

/-- The decoder on the inside of a string literal. -/
def unquote (s : GoString) : Option (GoString × GoString) := unquoteBody s.length s

/-- A string that is valid UTF-8: it has no stray byte. -/
def ValidUTF8 (s : GoString) : Prop := ∀ c ∈ s, ∃ r, c = GoChar.rune r

/-- The string with each byte that is not valid UTF-8 replaced by U+FFFD: what
the decoder reads from the literal the encoder writes for the string. -/
def sanitize : GoString → GoString
  | [] => []
  | .invalid _ :: cs => .rune (Char.ofNat 0xFFFD) :: sanitize cs
  | .rune r :: cs => .rune r :: sanitize cs

/-- A white-space character of JSON. -/
def isSpace (c : GoChar) : Bool :=
  decide (c = .rune ' ' ∨ c = .rune '\t' ∨ c = .rune '\r' ∨ c = .rune '\n')

/-- The input after leading white space. -/
def skipSpace : GoString → GoString
  | [] => []
  | c :: cs => if isSpace c = true then skipSpace cs else c :: cs

/-- A character that can occur in a number literal. -/
def isNumberChar (c : GoChar) : Bool :=
  match c with
  | .invalid _ => false
  | .rune r =>
    decide (('0'.toNat ≤ r.toNat ∧ r.toNat ≤ '9'.toNat) ∨ r = '-' ∨ r = '+' ∨ r = '.'
      ∨ r = 'e' ∨ r = 'E')

/-- The input after the given leading text, if it starts with it. -/
def after : GoString → GoString → Option GoString
  | [], s => some s
  | _ :: _, [] => none
  | p :: ps, c :: cs => if p = c then after ps cs else none

mutual
/-- The parser of a JSON value, nested at most `fuel` deep: the value at the
start of the input (after white space) and the input after it.  A number is
the longest run of number characters; the parser reads the texts the encoder
writes as the library does, and does not reject every text the library
rejects. -/
def parseValue : Nat → GoString → Option (JSON × GoString)
  | 0, _ => none
  | fuel + 1, s =>
    match skipSpace s with
    | [] => none
    | c :: cs =>
      if c = .rune '\x7b' then
        match skipSpace cs with
        | [] => none
        | d :: ds =>
          if d = .rune '\x7d' then some (.object [], ds)
          else
            match parseMembers fuel (d :: ds) with
            | none => none
            | some (ms, rest) => some (.object ms, rest)
      else if c = .rune '[' then
        match skipSpace cs with
        | [] => none
        | d :: ds =>
          if d = .rune ']' then some (.array [], ds)
          else
            match parseItems fuel (d :: ds) with
            | none => none
            | some (xs, rest) => some (.array xs, rest)
      else if c = .rune '"' then
        match unquote cs with
        | none => none
        | some (str, rest) => some (.string str, rest)
      else
        match after (lit "true") (c :: cs) with
        | some rest => some (.bool true, rest)
        | none =>
          match after (lit "false") (c :: cs) with
          | some rest => some (.bool false, rest)
          | none =>
            match after (lit "null") (c :: cs) with
            | some rest => some (.null, rest)
            | none =>
              if (c :: cs).takeWhile isNumberChar = [] then none
              else some (.number ((c :: cs).takeWhile isNumberChar),
                         (c :: cs).dropWhile isNumberChar)
/-- The parser of the elements of a non-empty array, up to the closing bracket. -/
def parseItems : Nat → GoString → Option (List JSON × GoString)
  | 0, _ => none
  | fuel + 1, s =>
    match parseValue fuel s with
    | none => none
    | some (x, rest) =>
      match skipSpace rest with
      | [] => none
      | c :: cs =>
        if c = .rune ',' then
          match parseItems fuel cs with
          | none => none
          | some (xs, rest) => some (x :: xs, rest)
        else if c = .rune ']' then some ([x], cs)
        else none
/-- The parser of the members of a non-empty object, up to the closing brace. -/
def parseMembers : Nat → GoString → Option (List (GoString × JSON) × GoString)
  | 0, _ => none
  | fuel + 1, s =>
    match skipSpace s with
    | [] => none
    | q :: qs =>
      if q = .rune '"' then
        match unquote qs with
        | none => none
        | some (k, rest) =>
          match skipSpace rest with
          | [] => none
          | c :: cs =>
            if c = .rune ':' then
              match parseValue fuel cs with
              | none => none
              | some (v, rest) =>
                match skipSpace rest with
                | [] => none
                | d :: ds =>
                  if d = .rune ',' then
                    match parseMembers fuel ds with
                    | none => none
                    | some (ms, rest) => some ((k, v) :: ms, rest)
                  else if d = .rune '\x7d' then some ([(k, v)], ds)
                  else none
            else none
      else none
end

/-- The parser of the JSON value at the start of a text. -/
def parse (text : GoString) : Option JSON :=
  match parseValue (text.length + 1) text with
  | none => none
  | some (j, _) => some j

mutual
/-- The number of nodes of a value, elements and members counted once more. -/
def size : JSON → Nat
  | .array xs => sizeItems xs + 1
  | .object ms => sizeMembers ms + 1
  | _ => 1
def sizeItems : List JSON → Nat
  | [] => 0
  | x :: xs => size x + sizeItems xs + 1
def sizeMembers : List (GoString × JSON) → Nat
  | [] => 0
  | (_, v) :: ms => size v + sizeMembers ms + 1
end

mutual
/-- A value whose numbers are non-empty runs of number characters. -/
def WellFormed : JSON → Prop
  | .null => True
  | .bool _ => True
  | .number text => text ≠ [] ∧ ∀ c ∈ text, isNumberChar c = true
  | .string _ => True
  | .array xs => WellFormedItems xs
  | .object ms => WellFormedMembers ms
def WellFormedItems : List JSON → Prop
  | [] => True
  | x :: xs => WellFormed x ∧ WellFormedItems xs
def WellFormedMembers : List (GoString × JSON) → Prop
  | [] => True
  | (_, v) :: ms => WellFormed v ∧ WellFormedMembers ms
end

mutual
/-- The value with every string and every key sanitized: what the decoder reads
from the text the encoder writes for the value. -/
def sanitizeValue : JSON → JSON
  | .null => .null
  | .bool b => .bool b
  | .number text => .number text
  | .string s => .string (sanitize s)
  | .array xs => .array (sanitizeItems xs)
  | .object ms => .object (sanitizeMembers ms)
def sanitizeItems : List JSON → List JSON
  | [] => []
  | x :: xs => sanitizeValue x :: sanitizeItems xs
def sanitizeMembers : List (GoString × JSON) → List (GoString × JSON)
  | [] => []
  | (k, v) :: ms => (sanitize k, sanitizeValue v) :: sanitizeMembers ms
end


/-- The input does not continue a number literal. -/
def EndsNumber (rest : GoString) : Prop := ∀ c, rest.head? = some c → isNumberChar c = false

/-- The value of a decimal digit. -/
def digitVal (c : GoChar) : Option Nat :=
  match c with
  | .invalid _ => none
  | .rune r =>
    if '0'.toNat ≤ r.toNat ∧ r.toNat ≤ '9'.toNat then some (r.toNat - '0'.toNat) else none

/-- The value of a run of decimal digits read after the value `acc`. -/
def parseDigits : Nat → GoString → Option Nat
  | acc, [] => some acc
  | acc, c :: cs =>
    match digitVal c with
    | none => none
    | some d => parseDigits (acc * 10 + d) cs

/-- The value of a non-empty run of decimal digits. -/
def parseNat (s : GoString) : Option Nat :=
  if s = [] then none else parseDigits 0 s

/-- The value of an integer literal: an optional minus sign and decimal digits. -/
def parseInteger (text : GoString) : Option Int :=
  match text with
  | [] => none
  | c :: cs =>
    if c = .rune '-' then
      match parseNat cs with
      | none => none
      | some n => some (-(n : Int))
    else
      match parseNat (c :: cs) with
      | none => none
      | some n => some (n : Int)

def minInt64 : Int := -9223372036854775808
def maxInt64 : Int := 9223372036854775807

/-- The integer is a value of `int64`. -/
def InInt64 (i : Int) : Prop := minInt64 ≤ i ∧ i ≤ maxInt64

instance (i : Int) : Decidable (InInt64 i) :=
  inferInstanceAs (Decidable (minInt64 ≤ i ∧ i ≤ maxInt64))

/-- `strconv.ParseInt(text, 10, 64)` on a number literal. -/
def parseInt (text : GoString) : Option Int :=
  match parseInteger text with
  | none => none
  | some i => if minInt64 ≤ i ∧ i ≤ maxInt64 then some i else none

/-- The type `float64`, as far as the codec is concerned. -/
class Float64 (F : Type) where
  /-- The zero value. -/
  zero : F
  /-- The number literal of a finite value (`none` for NaN and the infinities,
  which the encoder rejects). -/
  format : F → Option GoString
  /-- The value of a number literal (`strconv.ParseFloat`). -/
  parse : GoString → Option F

/-- The conversions of `float64` agree: the literal of a finite value is a
non-empty run of number characters, and it reads back as the value. -/
def Float64.Lawful (F : Type) [Float64 F] : Prop :=
  ∀ (x : F) (text : GoString), Float64.format x = some text →
    text ≠ [] ∧ (∀ c ∈ text, isNumberChar c = true) ∧ Float64.parse text = some x

/-- A fragment of `float64` for concrete examples: the integers (which the
encoder writes without exponent while their magnitude is small) and NaN. -/
inductive SampleFloat where
  | ofInt (i : Int)
  | NaN
  deriving DecidableEq, Repr

instance : Float64 SampleFloat where
  zero := .ofInt 0
  format
    | .ofInt i => some (formatInt i)
    | .NaN => none
  parse text :=
    match parseInteger text with
    | none => none
    | some i => some (.ofInt i)

/-- A type `encoding/json` can decode into: the value a JSON value decodes to
(from the zero value), or none on an error. -/
class Unmarshaler (α : Type) where
  UnmarshalJSON : JSON → Option α

/-- The codec agrees on a value: its JSON value is well-formed, is not `null`,
and what the decoder reads from its text decodes to the value. -/
def CodecAgrees {α : Type} [Marshaler α] [Unmarshaler α] (x : α) : Prop :=
  ∀ j : JSON, Marshaler.MarshalJSON x = .ok j →
    WellFormed j ∧ j ≠ .null ∧ Unmarshaler.UnmarshalJSON (sanitizeValue j) = some x

/-- The type of image infos for concrete examples without any. -/
instance : Marshaler Empty where
  MarshalJSON e := nomatch e

instance : Unmarshaler Empty where
  UnmarshalJSON _ := none

/-- `json.NewDecoder(r).Decode(&v)` for `v` of type `α` holding the zero value:
the value read from the text, or none on an error. -/
def Decode {α : Type} [Unmarshaler α] (text : GoString) : Option α :=
  match parse text with
  | none => none
  | some j => Unmarshaler.UnmarshalJSON j

/-- Decoding continues with the next field when the field before it decoded. -/
@[noinline] def andThen {α β : Type} (x : Option α) (f : α → Option β) : Option β :=
  match x with
  | none => none
  | some a => f a

/-- The value of the last member with the given key (a later member with the
same key overwrites an earlier one; keys are compared exactly). -/
def member : List (GoString × JSON) → GoString → Option JSON
  | [], _ => none
  | (k, v) :: ms, key =>
    match member ms key with
    | some x => some x
    | none => if k = key then some v else none

/-- Decoding into a `string` field: the field keeps the zero value when the key
is absent or its value is `null`; a value of another kind is an error. -/
def getString (ms : List (GoString × JSON)) (key : String) : Option GoString :=
  match member ms (lit key) with
  | none => some []
  | some .null => some []
  | some (.string s) => some s
  | some _ => none

/-- Decoding into an `int64` field. -/
def getInt (ms : List (GoString × JSON)) (key : String) : Option Int :=
  match member ms (lit key) with
  | none => some 0
  | some .null => some 0
  | some (.number text) => parseInt text
  | some _ => none

/-- Decoding into a `bool` field. -/
def getBool (ms : List (GoString × JSON)) (key : String) : Option Bool :=
  match member ms (lit key) with
  | none => some false
  | some .null => some false
  | some (.bool b) => some b
  | some _ => none

/-- Decoding into a `float64` field. -/
def getFloat {F : Type} [Float64 F] (ms : List (GoString × JSON)) (key : String) : Option F :=
  match member ms (lit key) with
  | none => some Float64.zero
  | some .null => some Float64.zero
  | some (.number text) => Float64.parse text
  | some _ => none

/-- Decoding the elements of an array into strings. -/
def stringItems : List JSON → Option (List GoString)
  | [] => some []
  | x :: xs =>
    match x with
    | .string s => andThen (stringItems xs) fun l => some (s :: l)
    | .null => andThen (stringItems xs) fun l => some ([] :: l)
    | _ => none

/-- Decoding into a `[]string` field: nil when the key is absent or `null`. -/
def getStrings (ms : List (GoString × JSON)) (key : String) : Option (Option (List GoString)) :=
  match member ms (lit key) with
  | none => some none
  | some .null => some none
  | some (.array xs) =>
    match stringItems xs with
    | none => none
    | some l => some (some l)
  | some _ => none

/-- Decoding into a struct: `null` leaves the zero value, an object is decoded
by its members, a value of another kind is an error. -/
def unmarshalStruct {α : Type} (zero : α) (decode : List (GoString × JSON) → Option α) :
    JSON → Option α
  | .null => some zero
  | .object ms => decode ms
  | _ => none

/-- Decoding the elements of an array into pointers: nil for `null`. -/
def pointerItems {α : Type} [Unmarshaler α] : List JSON → Option (List (Option α))
  | [] => some []
  | x :: xs =>
    match x with
    | .null => andThen (pointerItems xs) fun l => some (none :: l)
    | x =>
      andThen (Unmarshaler.UnmarshalJSON x) fun a =>
      andThen (pointerItems xs) fun l => some (some a :: l)

/-- Decoding into a slice-of-pointers field: nil when the key is absent or `null`. -/
def getPointers {α : Type} [Unmarshaler α] (ms : List (GoString × JSON)) (key : String) :
    Option (Option (List (Option α))) :=
  match member ms (lit key) with
  | none => some none
  | some .null => some none
  | some (.array xs) =>
    match pointerItems xs with
    | none => none
    | some l => some (some l)
  | some _ => none

/-- Decoding into a struct field: the zero value when the key is absent or
`null`, the decoded members of an object otherwise. -/
def getStruct {α : Type} (zero : α) (decode : List (GoString × JSON) → Option α)
    (ms : List (GoString × JSON)) (key : String) : Option α :=
  match member ms (lit key) with
  | none => some zero
  | some .null => some zero
  | some (.object fields) => decode fields
  | some _ => none

/-! ### Struct fields -/

/-- A `string` field. -/
def field (key : String) (s : GoString) : List (GoString × JSON) := [(lit key, .string s)]

/-- A `string` field tagged `omitempty`. -/
def fieldOmitEmpty (key : String) (s : GoString) : List (GoString × JSON) :=
  if s = [] then [] else [(lit key, .string s)]

/-- An `int64` field. -/
def fieldInt (key : String) (i : Int) : List (GoString × JSON) := [(lit key, .number (formatInt i))]

/-- A `bool` field. -/
def fieldBool (key : String) (b : Bool) : List (GoString × JSON) := [(lit key, .bool b)]

/-- The value of a `[]string`: `null` for the nil slice. -/
def strings : Option (List GoString) → JSON
  | none => .null
  | some l => .array (l.map .string)

/-- A `[]string` tagged `omitempty` as the decoder reads it from what the encoder
writes: nil when it has no element (the field is then left out), its strings
sanitized otherwise. -/
def sanitizeOmitEmpty : Option (List GoString) → Option (List GoString)
  | some (x :: xs) => some ((x :: xs).map sanitize)
  | _ => none

/-- A `[]string` field tagged `omitempty`: left out when the slice has no
element, be it nil or empty. -/
def fieldStringsOmitEmpty (key : String) : Option (List GoString) → List (GoString × JSON)
  | some (x :: xs) => [(lit key, .array ((x :: xs).map .string))]
  | _ => []

end json

/-! ## `float64`: `strconv` and the float encoder of `encoding/json` -/

namespace strconv

open json

/-- A `float64` (IEEE 754 binary64): the sign bit, the 11 exponent bits and the 52
fraction bits. -/
structure Binary64 where
  sign : Bool
  exponent : Fin 2048
  fraction : Fin (2 ^ 52)
  deriving DecidableEq, Repr

/-- The significand as an integer: the fraction bits, with the implicit leading
bit unless the number is subnormal or zero. -/
def Binary64.mantissa (x : Binary64) : Nat :=
  if x.exponent.val = 0 then x.fraction.val else 2 ^ 52 + x.fraction.val

/-- The binary exponent of the last place of the significand, counted from that
of the smallest subnormal, 2^-1074. -/
def Binary64.shift (x : Binary64) : Nat := x.exponent.val - 1

/-- The magnitude in units of 2^-1074. -/
def Binary64.units (x : Binary64) : Nat := x.mantissa * 2 ^ x.shift

/-- The quotient `n / den` rounded to the nearest integer, a tie to the even one. -/
def divRoundEven (n den : Nat) : Nat :=
  if 2 * (n % den) < den then n / den
  else if den < 2 * (n % den) then n / den + 1
  else if n / den % 2 = 0 then n / den
  else n / den + 1

/-- The position of the leading bit of `t`: the largest `k` with `2^k ≤ t`, zero for
zero (`fuel` bounds it). -/
def leadingBit : Nat → Nat → Nat
  | 0, _ => 0
  | fuel + 1, t => if t < 2 then 0 else leadingBit fuel (t / 2) + 1

/-- The `float64` with the given sign that is nearest to `n / d` units of 2^-1074, a
tie going to the even significand; none when the magnitude rounds beyond the
largest finite value. -/
def roundEven (neg : Bool) (n d : Nat) : Option Binary64 :=
  let e := if n / d < 2 ^ 52 then 0 else leadingBit (n / d) (n / d) - 52
  let m := divRoundEven n (d * 2 ^ e)
  let e := if m = 2 ^ 53 then e + 1 else e
  let m := if m = 2 ^ 53 then 2 ^ 52 else m
  if m < 2 ^ 52 then some ⟨neg, 0, ⟨m % 2 ^ 52, Nat.mod_lt _ (by decide)⟩⟩
  else if 2046 ≤ e then none
  else some ⟨neg, ⟨(e + 1) % 2048, Nat.mod_lt _ (by decide)⟩,
    ⟨(m - 2 ^ 52) % 2 ^ 52, Nat.mod_lt _ (by decide)⟩⟩

/-- The decimal `c × 10^k` as a fraction `n / d` of units of 2^-1074. -/
def toUnits (c : Nat) (k : Int) : Nat × Nat :=
  match k with
  | .ofNat j => (c * 10 ^ j * 2 ^ 1074, 1)
  | .negSucc j => (c * 2 ^ 1074, 10 ^ (j + 1))

/-- A decimal digit. -/
def isDigit (c : GoChar) : Bool := (digitVal c).isSome

/-- The exponent part of a decimal floating-point literal: empty, or `e` or `E`,
an optional sign and decimal digits. -/
def parseExponent (s : GoString) : Option Int :=
  match s with
  | [] => some 0
  | c :: cs =>
    if c = .rune 'e' ∨ c = .rune 'E' then
      match cs with
      | [] => none
      | d :: ds =>
        if d = .rune '-' then
          match parseNat ds with
          | none => none
          | some n => some (-(n : Int))
        else if d = .rune '+' then
          match parseNat ds with
          | none => none
          | some n => some (n : Int)
        else
          match parseNat (d :: ds) with
          | none => none
          | some n => some (n : Int)
    else none

/-- The decimal literal after its sign: the digits before and after the point,
then the exponent part. -/
def parseDecimal (s : GoString) : Option (Nat × Int) :=
  let ip := s.takeWhile isDigit
  let s1 := s.dropWhile isDigit
  let fp := match s1 with
    | c :: cs => if c = .rune '.' then cs.takeWhile isDigit else []
    | [] => []
  let s2 := match s1 with
    | c :: cs => if c = .rune '.' then cs.dropWhile isDigit else s1
    | [] => []
  if ip ++ fp = [] then none
  else
    match parseDigits 0 (ip ++ fp), parseExponent s2 with
    | some mant, some exp => some (mant, exp - (fp.length : Int))
    | _, _ => none

/-- `strconv.ParseFloat(s, 64)` on a decimal literal: the nearest `float64`, or none
for a syntax error or a value out of range. -/
def ParseFloat (s : GoString) : Option Binary64 :=
  match s with
  | [] => none
  | c :: cs =>
    if c = .rune '-' then
      match parseDecimal cs with
      | none => none
      | some (mant, exp) => roundEven true (toUnits mant exp).1 (toUnits mant exp).2
    else if c = .rune '+' then
      match parseDecimal cs with
      | none => none
      | some (mant, exp) => roundEven false (toUnits mant exp).1 (toUnits mant exp).2
    else
      match parseDecimal (c :: cs) with
      | none => none
      | some (mant, exp) => roundEven false (toUnits mant exp).1 (toUnits mant exp).2

/-- Whether `n / d` units of 2^-1074 lies in the rounding interval of the finite
value `x`, of significand `m` and last place `u`: from `(m - 1/2) u` to
`(m + 1/2) u`, the ends included when `m` is even; above a power of two
(`m = 2^52`, not the smallest) the values below are twice as dense, and the
interval starts at `(m - 1/4) u` (`roundShortest`). -/
def inInterval (x : Binary64) (n d : Nat) : Bool :=
  let m := x.mantissa
  let u := d * 2 ^ x.shift
  let upper :=
    if m % 2 = 0 then decide (2 * n ≤ 2 * (m * u) + u)
    else decide (2 * n < 2 * (m * u) + u)
  let lower :=
    if m = 2 ^ 52 ∧ x.shift ≠ 0 then decide (4 * (m * u) ≤ 4 * n + u)
    else if m % 2 = 0 then decide (2 * (m * u) ≤ 2 * n + u)
    else decide (2 * (m * u) < 2 * n + u)
  upper && lower

/-- The decimal digits of a number. -/
def digitsOf (c : Nat) : GoString := natDigits (c + 1) c

/-- The number of zeros between the decimal point and the first significant
digit of `a / b`, which is below 1. -/
def leadingZeros : Nat → Nat → Nat → Nat
  | 0, _, _ => 0
  | fuel + 1, a, b => if b ≤ a * 10 then 0 else leadingZeros fuel (a * 10) b + 1

/-- The position of the decimal point of `a / b`: the number of digits of its
integer part, or minus the number of zeros after the point. -/
def decimalPoint (a b : Nat) : Int :=
  if b ≤ a then ((digitsOf (a / b)).length : Int) else -(leadingZeros 400 a b : Int)

/-- The largest `c` with `c × 10^k ≤ a / b`, and how the rest compares with half a
unit of the last digit. -/
def floorScaled (a b : Nat) (k : Int) : Nat × Ordering :=
  match k with
  | .ofNat j => (a / (b * 10 ^ j), compare (2 * (a % (b * 10 ^ j))) (b * 10 ^ j))
  | .negSucc j => (a * 10 ^ (j + 1) / b, compare (2 * (a * 10 ^ (j + 1) % b)) b)

/-- The decimal without trailing zeros in its digits. -/
def stripZeros : Nat → Nat → Int → Nat × Int
  | 0, c, k => (c, k)
  | fuel + 1, c, k =>
    if c ≠ 0 ∧ c % 10 = 0 then stripZeros fuel (c / 10) (k + 1) else (c, k)

/-- The shortest decimal `c × 10^k` with at least `n` digits (and at most
`n + fuel - 1`) that lies in the rounding interval of `x`, whose decimal
point is at `p`: the value of `x` cut after its first digits, or that plus
one in the last digit, the nearer one if both do. -/
def shortest : Nat → Nat → Binary64 → Int → Option (Nat × Int)
  | 0, _, _, _ => none
  | fuel + 1, n, x, p =>
    let down := (floorScaled x.units (2 ^ 1074) (p - n)).1
    let half := (floorScaled x.units (2 ^ 1074) (p - n)).2
    let up := stripZeros 20 (down + 1) (p - n)
    let okdown := inInterval x (toUnits down (p - n)).1 (toUnits down (p - n)).2
    let okup := inInterval x (toUnits up.1 up.2).1 (toUnits up.1 up.2).2
    if okdown && okup then
      if half = .lt then some (down, p - n)
      else if half = .gt then some up
      else if down % 2 = 0 then some (down, p - n)
      else some up
    else if okdown then some (down, p - n)
    else if okup then some up
    else shortest fuel (n + 1) x p

/-- The exact decimal value of a finite `x`. -/
def exactDecimal (x : Binary64) : Nat × Int :=
  if 1074 ≤ x.shift then (x.mantissa * 2 ^ (x.shift - 1074), 0)
  else (x.mantissa * 5 ^ (1074 - x.shift), -((1074 - x.shift : Nat) : Int))

/-- The digits `strconv` formats a finite `x` with at precision -1: the shortest
decimal that reads back as `x` (seventeen digits are always enough; the exact
value stands behind them). -/
def shortestDecimal (x : Binary64) : Nat × Int :=
  if x.mantissa = 0 then (0, 0)
  else
    match shortest 17 1 x (decimalPoint x.units (2 ^ 1074)) with
    | some r => r
    | none => exactDecimal x

/-- A run of zeros. -/
def zeros (n : Nat) : GoString := List.replicate n (.rune '0')

/-- The decimal `c × 10^k` in the format `'f'` at precision -1: no exponent. -/
def formatF (c : Nat) (k : Int) : GoString :=
  match k with
  | .ofNat j => digitsOf c ++ zeros j
  | .negSucc j =>
    if j + 1 < (digitsOf c).length then
      (digitsOf c).take ((digitsOf c).length - (j + 1)) ++
        .rune '.' :: (digitsOf c).drop ((digitsOf c).length - (j + 1))
    else .rune '0' :: .rune '.' :: (zeros (j + 1 - (digitsOf c).length) ++ digitsOf c)

/-- The exponent as the encoder leaves it: `strconv` writes a sign and at least
two digits, and the encoder drops the zero of a negative exponent of one
digit ("e-07" becomes "e-7"). -/
def exponentText (e : Int) : GoString :=
  match e with
  | .ofNat n => .rune '+' :: (if n < 10 then .rune '0' :: digitsOf n else digitsOf n)
  | .negSucc n => .rune '-' :: digitsOf (n + 1)

/-- The decimal `c × 10^k` in the format `'e'` at precision -1, the exponent as
the encoder leaves it. -/
def formatE (c : Nat) (k : Int) : GoString :=
  match digitsOf c with
  | [] => []
  | d :: ds =>
    d :: ((if ds = [] then [] else .rune '.' :: ds) ++
      .rune 'e' :: exponentText (k + (ds.length : Int)))

/-- The 63 bits after the sign, as a number: it orders the magnitudes. -/
def Binary64.magnitude (x : Binary64) : Nat := x.exponent.val * 2 ^ 52 + x.fraction.val

/-- The `float64` constant `1e-6`. -/
def bits1em6 : Nat := 0x3EB0C6F7A0B5ED8D

/-- The `float64` constant `1e21`. -/
def bits1e21 : Nat := 0x444B1AE4D6E2EF50

/-- The number literal the encoder writes for a `float64` (`floatEncoder.encode`):
none for NaN and the infinities; otherwise the shortest decimal, with an
exponent when the magnitude is below 1e-6 or at least 1e21 (and not zero). -/
def encodeFloat (x : Binary64) : Option GoString :=
  if x.exponent.val = 2047 then none
  else
    let body :=
      if x.magnitude ≠ 0 ∧ (x.magnitude < bits1em6 ∨ bits1e21 ≤ x.magnitude) then
        formatE (shortestDecimal x).1 (shortestDecimal x).2
      else formatF (shortestDecimal x).1 (shortestDecimal x).2
    some (if x.sign then .rune '-' :: body else body)

/-- The `float64` of a sign, a significand below 2^53 and the exponent of its last
place, counted from 2^-1074. -/
def pack (neg : Bool) (m E : Nat) : Binary64 :=
  if m < 2 ^ 52 then ⟨neg, 0, ⟨m % 2 ^ 52, Nat.mod_lt _ (by decide)⟩⟩
  else ⟨neg, ⟨(E + 1) % 2048, Nat.mod_lt _ (by decide)⟩,
    ⟨(m - 2 ^ 52) % 2 ^ 52, Nat.mod_lt _ (by decide)⟩⟩

/-- The type `float64` as the codec sees it: the encoder writes the literal of
`floatEncoder`, the decoder reads a literal with `strconv.ParseFloat`. -/
instance : Float64 Binary64 where
  zero := ⟨false, ⟨0, by decide⟩, ⟨0, by decide⟩⟩
  format := encodeFloat
  parse := ParseFloat

end strconv

/-! ## pkg/report/command_report.go -/

namespace report

open json

def CmdStateUnknown : GoString := lit "unknown"
def CmdStateError : GoString := lit "error"
def CmdStateStarted : GoString := lit "started"
def CmdStateCompleted : GoString := lit "completed"
def CmdStateExited : GoString := lit "exited"
def CmdStateDone : GoString := lit "done"

/-- The command name data type. -/
abbrev CmdType := GoString

def CmdTypeBuild : CmdType := lit "build"
def CmdTypeProfile : CmdType := lit "profile"
def CmdTypeInfo : CmdType := lit "info"

/-- The common command report data. -/
structure Command where
  reportLocation : GoString
  Type_ : CmdType
  State : GoString
  Error : GoString
  deriving DecidableEq, Repr

/-- Basic image metadata.  A slice is `none` when nil. -/
structure ImageMetadata where
  ID : GoString
  Name : GoString
  Size : Int
  SizeHuman : GoString
  CreateTime : GoString
  AllNames : Option (List GoString)
  Author : GoString
  DockerVersion : GoString
  Architecture : GoString
  User : GoString
  ExposedPorts : Option (List GoString)
  deriving DecidableEq, Repr

/-- Basic system metadata. -/
structure SystemMetadata where
  Type_ : GoString
  Release : GoString
  OS : GoString
  deriving DecidableEq, Repr

/-- The 'build' command report data; `F` is `float64` and `ImageInfo` is
`dockerfile.ImageInfo`. -/
structure BuildCommand (F ImageInfo : Type) where
  Command : Command
  ImageReference : GoString
  System : SystemMetadata
  SourceImage : ImageMetadata
  MinifiedImageSize : Int
  MinifiedImageSizeHuman : GoString
  MinifiedImage : GoString
  MinifiedImageHasData : Bool
  MinifiedBy : F
  ArtifactLocation : GoString
  ContainerReportName : GoString
  SeccompProfileName : GoString
  AppArmorProfileName : GoString
  ImageStack : Option (List (Option ImageInfo))
  deriving DecidableEq

/-- The 'profile' command report data. -/
structure ProfileCommand (F : Type) where
  Command : Command
  OriginalImage : GoString
  OriginalImageSize : Int
  OriginalImageSizeHuman : GoString
  MinifiedImageSize : Int
  MinifiedImageSizeHuman : GoString
  MinifiedImage : GoString
  MinifiedImageHasData : Bool
  MinifiedBy : F
  ArtifactLocation : GoString
  ContainerReportName : GoString
  SeccompProfileName : GoString
  AppArmorProfileName : GoString
  deriving DecidableEq

/-- The 'info' command report data. -/
structure InfoCommand (F : Type) where
  Command : Command
  OriginalImage : GoString
  OriginalImageSize : Int
  OriginalImageSizeHuman : GoString
  MinifiedImageSize : Int
  MinifiedImageSizeHuman : GoString
  MinifiedImage : GoString
  MinifiedImageHasData : Bool
  MinifiedBy : F
  ArtifactLocation : GoString
  ContainerReportName : GoString
  SeccompProfileName : GoString
  AppArmorProfileName : GoString
  deriving DecidableEq

/-- The zero value of `ImageMetadata`. -/
def ImageMetadata.zero : ImageMetadata :=
  { ID := [], Name := [], Size := 0, SizeHuman := [], CreateTime := [], AllNames := none,
    Author := [], DockerVersion := [], Architecture := [], User := [], ExposedPorts := none }

/-- `NewBuildCommand(reportLocation)`. -/
def NewBuildCommand {F ImageInfo : Type} [Float64 F] (reportLocation : GoString) :
    BuildCommand F ImageInfo :=
  { Command := { reportLocation := reportLocation, Type_ := CmdTypeBuild,
                 State := CmdStateUnknown, Error := [] },
    ImageReference := [], System := { Type_ := [], Release := [], OS := [] },
    SourceImage := ImageMetadata.zero, MinifiedImageSize := 0, MinifiedImageSizeHuman := [],
    MinifiedImage := [], MinifiedImageHasData := false, MinifiedBy := Float64.zero,
    ArtifactLocation := [], ContainerReportName := [], SeccompProfileName := [],
    AppArmorProfileName := [], ImageStack := none }

/-- `NewProfileCommand(reportLocation)`. -/
def NewProfileCommand {F : Type} [Float64 F] (reportLocation : GoString) : ProfileCommand F :=
  { Command := { reportLocation := reportLocation, Type_ := CmdTypeProfile,
                 State := CmdStateUnknown, Error := [] },
    OriginalImage := [], OriginalImageSize := 0, OriginalImageSizeHuman := [],
    MinifiedImageSize := 0, MinifiedImageSizeHuman := [],
    MinifiedImage := [], MinifiedImageHasData := false, MinifiedBy := Float64.zero,
    ArtifactLocation := [], ContainerReportName := [], SeccompProfileName := [],
    AppArmorProfileName := [] }

/-- `NewInfoCommand(reportLocation)`. -/
def NewInfoCommand {F : Type} [Float64 F] (reportLocation : GoString) : InfoCommand F :=
  { Command := { reportLocation := reportLocation, Type_ := CmdTypeInfo,
                 State := CmdStateUnknown, Error := [] },
    OriginalImage := [], OriginalImageSize := 0, OriginalImageSizeHuman := [],
    MinifiedImageSize := 0, MinifiedImageSizeHuman := [],
    MinifiedImage := [], MinifiedImageHasData := false, MinifiedBy := Float64.zero,
    ArtifactLocation := [], ContainerReportName := [], SeccompProfileName := [],
    AppArmorProfileName := [] }

/-- The JSON members of the exported fields of `Command`, by their tags
(`reportLocation` is unexported and has none). -/
def Command.members (p : Command) : List (GoString × JSON) :=
  field "type" p.Type_ ++ field "state" p.State ++ fieldOmitEmpty "error" p.Error

def SystemMetadata.members (p : SystemMetadata) : List (GoString × JSON) :=
  field "type" p.Type_ ++ field "release" p.Release ++ field "os" p.OS

def ImageMetadata.members (p : ImageMetadata) : List (GoString × JSON) :=
  field "id" p.ID ++ field "name" p.Name ++ fieldInt "size" p.Size ++
  field "size_human" p.SizeHuman ++ field "create_time" p.CreateTime ++
  [(lit "all_names", strings p.AllNames)] ++ fieldOmitEmpty "Author" p.Author ++
  field "docker_version" p.DockerVersion ++ field "architecture" p.Architecture ++
  fieldOmitEmpty "user" p.User ++ fieldStringsOmitEmpty "exposed_ports" p.ExposedPorts

/-- A `float64` field. -/
def fieldFloat {F : Type} [Float64 F] (key : String) (x : F) :
    Except MarshalError (List (GoString × JSON)) :=
  match Float64.format x with
  | none => .error .UnsupportedValueError
  | some text => .ok [(lit key, .number text)]

/-- The value of a `*ImageInfo`: `null` for the nil pointer. -/
def pointer {α : Type} [Marshaler α] : Option α → Except MarshalError JSON
  | none => .ok .null
  | some x => Marshaler.MarshalJSON x

/-- The values of the elements of a slice, in order, up to the first error. -/
def elements {α : Type} [Marshaler α] : List (Option α) → Except MarshalError (List JSON)
  | [] => .ok []
  | x :: xs =>
    match pointer x with
    | .error e => .error e
    | .ok j =>
      match elements xs with
      | .error e => .error e
      | .ok js => .ok (j :: js)

/-- The value of a `[]*ImageInfo`: `null` for the nil slice. -/
def pointers {α : Type} [Marshaler α] : Option (List (Option α)) → Except MarshalError JSON
  | none => .ok .null
  | some l =>
    match elements l with
    | .error e => .error e
    | .ok js => .ok (.array js)

instance : Marshaler Command where
  MarshalJSON p := .ok (.object p.members)

/-- The JSON members of a `BuildCommand`, given those of its `float64` field and
the value of its image stack: the fields of the embedded `Command` come
first, as members of the same object. -/
def BuildCommand.members {F ImageInfo : Type} (p : BuildCommand F ImageInfo)
    (minifiedBy : List (GoString × JSON)) (imageStack : JSON) : List (GoString × JSON) :=
  p.Command.members ++
    (field "image_reference" p.ImageReference ++
    [(lit "system", .object p.System.members)] ++
    [(lit "source_image", .object p.SourceImage.members)] ++
    fieldInt "minified_image_size" p.MinifiedImageSize ++
    field "minified_image_size_human" p.MinifiedImageSizeHuman ++
    field "minified_image" p.MinifiedImage ++
    fieldBool "minified_image_has_data" p.MinifiedImageHasData ++
    minifiedBy ++
    field "artifact_location" p.ArtifactLocation ++
    field "container_report_name" p.ContainerReportName ++
    field "seccomp_profile_name" p.SeccompProfileName ++
    field "apparmor_profile_name" p.AppArmorProfileName ++
    [(lit "image_stack", imageStack)])

/-- The JSON members of a `ProfileCommand`, given those of its `float64` field. -/
def ProfileCommand.members {F : Type} (p : ProfileCommand F)
    (minifiedBy : List (GoString × JSON)) : List (GoString × JSON) :=
  p.Command.members ++
    (field "original_image" p.OriginalImage ++
    fieldInt "original_image_size" p.OriginalImageSize ++
    field "original_image_size_human" p.OriginalImageSizeHuman ++
    fieldInt "minified_image_size" p.MinifiedImageSize ++
    field "minified_image_size_human" p.MinifiedImageSizeHuman ++
    field "minified_image" p.MinifiedImage ++
    fieldBool "minified_image_has_data" p.MinifiedImageHasData ++
    minifiedBy ++
    field "artifact_location" p.ArtifactLocation ++
    field "container_report_name" p.ContainerReportName ++
    field "seccomp_profile_name" p.SeccompProfileName ++
    field "apparmor_profile_name" p.AppArmorProfileName)

/-- The JSON members of an `InfoCommand`, given those of its `float64` field. -/
def InfoCommand.members {F : Type} (p : InfoCommand F)
    (minifiedBy : List (GoString × JSON)) : List (GoString × JSON) :=
  p.Command.members ++
    (field "original_image" p.OriginalImage ++
    fieldInt "original_image_size" p.OriginalImageSize ++
    field "original_image_size_human" p.OriginalImageSizeHuman ++
    fieldInt "minified_image_size" p.MinifiedImageSize ++
    field "minified_image_size_human" p.MinifiedImageSizeHuman ++
    field "minified_image" p.MinifiedImage ++
    fieldBool "minified_image_has_data" p.MinifiedImageHasData ++
    minifiedBy ++
    field "artifact_location" p.ArtifactLocation ++
    field "container_report_name" p.ContainerReportName ++
    field "seccomp_profile_name" p.SeccompProfileName ++
    field "apparmor_profile_name" p.AppArmorProfileName)

instance {F ImageInfo : Type} [Float64 F] [Marshaler ImageInfo] :
    Marshaler (BuildCommand F ImageInfo) where
  MarshalJSON p :=
    match fieldFloat "minified_by" p.MinifiedBy with
    | .error e => .error e
    | .ok minifiedBy =>
      match pointers p.ImageStack with
      | .error e => .error e
      | .ok imageStack => .ok (.object (p.members minifiedBy imageStack))

instance {F : Type} [Float64 F] : Marshaler (ProfileCommand F) where
  MarshalJSON p :=
    match fieldFloat "minified_by" p.MinifiedBy with
    | .error e => .error e
    | .ok minifiedBy => .ok (.object (p.members minifiedBy))

instance {F : Type} [Float64 F] : Marshaler (InfoCommand F) where
  MarshalJSON p :=
    match fieldFloat "minified_by" p.MinifiedBy with
    | .error e => .error e
    | .ok minifiedBy => .ok (.object (p.members minifiedBy))

/-! ### Decoding the records -/

/-- The zero value of `Command`. -/
def Command.zero : Command :=
  { reportLocation := [], Type_ := [], State := [], Error := [] }

/-- The zero value of `SystemMetadata`. -/
def SystemMetadata.zero : SystemMetadata :=
  { Type_ := [], Release := [], OS := [] }

/-- Decoding the members of an object into a `Command`: `reportLocation` is
unexported and is never set. -/
def Command.decode (ms : List (GoString × JSON)) : Option Command :=
  andThen (getString ms "type") fun type =>
  andThen (getString ms "state") fun state =>
  andThen (getString ms "error") fun error =>
  some { reportLocation := [], Type_ := type, State := state, Error := error }

def SystemMetadata.decode (ms : List (GoString × JSON)) : Option SystemMetadata :=
  andThen (getString ms "type") fun type =>
  andThen (getString ms "release") fun release =>
  andThen (getString ms "os") fun os =>
  some { Type_ := type, Release := release, OS := os }

def ImageMetadata.decode (ms : List (GoString × JSON)) : Option ImageMetadata :=
  andThen (getString ms "id") fun id =>
  andThen (getString ms "name") fun name =>
  andThen (getInt ms "size") fun size =>
  andThen (getString ms "size_human") fun sizeHuman =>
  andThen (getString ms "create_time") fun createTime =>
  andThen (getStrings ms "all_names") fun allNames =>
  andThen (getString ms "Author") fun author =>
  andThen (getString ms "docker_version") fun dockerVersion =>
  andThen (getString ms "architecture") fun architecture =>
  andThen (getString ms "user") fun user =>
  andThen (getStrings ms "exposed_ports") fun exposedPorts =>
  some { ID := id, Name := name, Size := size, SizeHuman := sizeHuman, CreateTime := createTime,
         AllNames := allNames, Author := author, DockerVersion := dockerVersion,
         Architecture := architecture, User := user, ExposedPorts := exposedPorts }

def BuildCommand.decode {F ImageInfo : Type} [Float64 F] [Unmarshaler ImageInfo]
    (ms : List (GoString × JSON)) : Option (BuildCommand F ImageInfo) :=
  andThen (Command.decode ms) fun command =>
  andThen (getString ms "image_reference") fun imageReference =>
  andThen (getStruct SystemMetadata.zero SystemMetadata.decode ms "system") fun system =>
  andThen (getStruct ImageMetadata.zero ImageMetadata.decode ms "source_image") fun sourceImage =>
  andThen (getInt ms "minified_image_size") fun minifiedImageSize =>
  andThen (getString ms "minified_image_size_human") fun minifiedImageSizeHuman =>
  andThen (getString ms "minified_image") fun minifiedImage =>
  andThen (getBool ms "minified_image_has_data") fun minifiedImageHasData =>
  andThen (getFloat ms "minified_by") fun minifiedBy =>
  andThen (getString ms "artifact_location") fun artifactLocation =>
  andThen (getString ms "container_report_name") fun containerReportName =>
  andThen (getString ms "seccomp_profile_name") fun seccompProfileName =>
  andThen (getString ms "apparmor_profile_name") fun appArmorProfileName =>
  andThen (getPointers ms "image_stack") fun imageStack =>
  some { Command := command, ImageReference := imageReference, System := system,
         SourceImage := sourceImage, MinifiedImageSize := minifiedImageSize,
         MinifiedImageSizeHuman := minifiedImageSizeHuman, MinifiedImage := minifiedImage,
         MinifiedImageHasData := minifiedImageHasData, MinifiedBy := minifiedBy,
         ArtifactLocation := artifactLocation, ContainerReportName := containerReportName,
         SeccompProfileName := seccompProfileName, AppArmorProfileName := appArmorProfileName,
         ImageStack := imageStack }

def ProfileCommand.decode {F : Type} [Float64 F]
    (ms : List (GoString × JSON)) : Option (ProfileCommand F) :=
  andThen (Command.decode ms) fun command =>
  andThen (getString ms "original_image") fun originalImage =>
  andThen (getInt ms "original_image_size") fun originalImageSize =>
  andThen (getString ms "original_image_size_human") fun originalImageSizeHuman =>
  andThen (getInt ms "minified_image_size") fun minifiedImageSize =>
  andThen (getString ms "minified_image_size_human") fun minifiedImageSizeHuman =>
  andThen (getString ms "minified_image") fun minifiedImage =>
  andThen (getBool ms "minified_image_has_data") fun minifiedImageHasData =>
  andThen (getFloat ms "minified_by") fun minifiedBy =>
  andThen (getString ms "artifact_location") fun artifactLocation =>
  andThen (getString ms "container_report_name") fun containerReportName =>
  andThen (getString ms "seccomp_profile_name") fun seccompProfileName =>
  andThen (getString ms "apparmor_profile_name") fun appArmorProfileName =>
  some { Command := command, OriginalImage := originalImage,
         OriginalImageSize := originalImageSize,
         OriginalImageSizeHuman := originalImageSizeHuman,
         MinifiedImageSize := minifiedImageSize,
         MinifiedImageSizeHuman := minifiedImageSizeHuman, MinifiedImage := minifiedImage,
         MinifiedImageHasData := minifiedImageHasData, MinifiedBy := minifiedBy,
         ArtifactLocation := artifactLocation, ContainerReportName := containerReportName,
         SeccompProfileName := seccompProfileName, AppArmorProfileName := appArmorProfileName }

def InfoCommand.decode {F : Type} [Float64 F]
    (ms : List (GoString × JSON)) : Option (InfoCommand F) :=
  andThen (Command.decode ms) fun command =>
  andThen (getString ms "original_image") fun originalImage =>
  andThen (getInt ms "original_image_size") fun originalImageSize =>
  andThen (getString ms "original_image_size_human") fun originalImageSizeHuman =>
  andThen (getInt ms "minified_image_size") fun minifiedImageSize =>
  andThen (getString ms "minified_image_size_human") fun minifiedImageSizeHuman =>
  andThen (getString ms "minified_image") fun minifiedImage =>
  andThen (getBool ms "minified_image_has_data") fun minifiedImageHasData =>
  andThen (getFloat ms "minified_by") fun minifiedBy =>
  andThen (getString ms "artifact_location") fun artifactLocation =>
  andThen (getString ms "container_report_name") fun containerReportName =>
  andThen (getString ms "seccomp_profile_name") fun seccompProfileName =>
  andThen (getString ms "apparmor_profile_name") fun appArmorProfileName =>
  some { Command := command, OriginalImage := originalImage,
         OriginalImageSize := originalImageSize,
         OriginalImageSizeHuman := originalImageSizeHuman,
         MinifiedImageSize := minifiedImageSize,
         MinifiedImageSizeHuman := minifiedImageSizeHuman, MinifiedImage := minifiedImage,
         MinifiedImageHasData := minifiedImageHasData, MinifiedBy := minifiedBy,
         ArtifactLocation := artifactLocation, ContainerReportName := containerReportName,
         SeccompProfileName := seccompProfileName, AppArmorProfileName := appArmorProfileName }

/-- The zero value of `BuildCommand`. -/
def BuildCommand.zero {F ImageInfo : Type} [Float64 F] : BuildCommand F ImageInfo :=
  { Command := Command.zero, ImageReference := [], System := SystemMetadata.zero,
    SourceImage := ImageMetadata.zero, MinifiedImageSize := 0, MinifiedImageSizeHuman := [],
    MinifiedImage := [], MinifiedImageHasData := false, MinifiedBy := Float64.zero,
    ArtifactLocation := [], ContainerReportName := [], SeccompProfileName := [],
    AppArmorProfileName := [], ImageStack := none }

/-- The zero value of `ProfileCommand`. -/
def ProfileCommand.zero {F : Type} [Float64 F] : ProfileCommand F :=
  { Command := Command.zero, OriginalImage := [], OriginalImageSize := 0,
    OriginalImageSizeHuman := [], MinifiedImageSize := 0, MinifiedImageSizeHuman := [],
    MinifiedImage := [], MinifiedImageHasData := false, MinifiedBy := Float64.zero,
    ArtifactLocation := [], ContainerReportName := [], SeccompProfileName := [],
    AppArmorProfileName := [] }

/-- The zero value of `InfoCommand`. -/
def InfoCommand.zero {F : Type} [Float64 F] : InfoCommand F :=
  { Command := Command.zero, OriginalImage := [], OriginalImageSize := 0,
    OriginalImageSizeHuman := [], MinifiedImageSize := 0, MinifiedImageSizeHuman := [],
    MinifiedImage := [], MinifiedImageHasData := false, MinifiedBy := Float64.zero,
    ArtifactLocation := [], ContainerReportName := [], SeccompProfileName := [],
    AppArmorProfileName := [] }

instance : Unmarshaler Command where
  UnmarshalJSON := unmarshalStruct Command.zero Command.decode

instance {F ImageInfo : Type} [Float64 F] [Unmarshaler ImageInfo] :
    Unmarshaler (BuildCommand F ImageInfo) where
  UnmarshalJSON := unmarshalStruct BuildCommand.zero BuildCommand.decode

instance {F : Type} [Float64 F] : Unmarshaler (ProfileCommand F) where
  UnmarshalJSON := unmarshalStruct ProfileCommand.zero ProfileCommand.decode

instance {F : Type} [Float64 F] : Unmarshaler (InfoCommand F) where
  UnmarshalJSON := unmarshalStruct InfoCommand.zero InfoCommand.decode

/-! ### Records as the codec reads them back -/

/-- The integers of the record are values of `int64`. -/
def ImageMetadata.Valid (p : ImageMetadata) : Prop := InInt64 p.Size

/-- The integers of the record are values of `int64`, and the codec of the image
infos agrees on the entries of its image stack. -/
def BuildCommand.Valid {F ImageInfo : Type} [Marshaler ImageInfo] [Unmarshaler ImageInfo]
    (p : BuildCommand F ImageInfo) : Prop :=
  p.SourceImage.Valid ∧ InInt64 p.MinifiedImageSize
    ∧ (∀ l, p.ImageStack = some l → ∀ a, some a ∈ l → CodecAgrees a)

/-- The integers of the record are values of `int64`. -/
def ProfileCommand.Valid {F : Type} (p : ProfileCommand F) : Prop :=
  InInt64 p.OriginalImageSize ∧ InInt64 p.MinifiedImageSize

/-- The integers of the record are values of `int64`. -/
def InfoCommand.Valid {F : Type} (p : InfoCommand F) : Prop :=
  InInt64 p.OriginalImageSize ∧ InInt64 p.MinifiedImageSize

/-- The strings of the record are valid UTF-8. -/
def Command.Plain (p : Command) : Prop :=
  ValidUTF8 p.Type_ ∧ ValidUTF8 p.State ∧ ValidUTF8 p.Error

/-- The strings of the record are valid UTF-8. -/
def SystemMetadata.Plain (p : SystemMetadata) : Prop :=
  ValidUTF8 p.Type_ ∧ ValidUTF8 p.Release ∧ ValidUTF8 p.OS

/-- The strings of the record are valid UTF-8, and its slice tagged `omitempty`
is not an empty slice other than nil. -/
def ImageMetadata.Plain (p : ImageMetadata) : Prop :=
  ValidUTF8 p.ID ∧ ValidUTF8 p.Name ∧ ValidUTF8 p.SizeHuman
    ∧ ValidUTF8 p.CreateTime ∧ (∀ l, p.AllNames = some l → ∀ s ∈ l, ValidUTF8 s)
    ∧ ValidUTF8 p.Author ∧ ValidUTF8 p.DockerVersion ∧ ValidUTF8 p.Architecture
    ∧ ValidUTF8 p.User ∧ (∀ l, p.ExposedPorts = some l → ∀ s ∈ l, ValidUTF8 s)
    ∧ p.ExposedPorts ≠ some []

/-- The strings of the record are valid UTF-8, and its slice tagged `omitempty`
is not an empty slice other than nil. -/
def BuildCommand.Plain {F ImageInfo : Type} (p : BuildCommand F ImageInfo) : Prop :=
  p.Command.Plain ∧ ValidUTF8 p.ImageReference ∧ p.System.Plain ∧ p.SourceImage.Plain
    ∧ ValidUTF8 p.MinifiedImageSizeHuman
    ∧ ValidUTF8 p.MinifiedImage ∧ ValidUTF8 p.ArtifactLocation
    ∧ ValidUTF8 p.ContainerReportName ∧ ValidUTF8 p.SeccompProfileName
    ∧ ValidUTF8 p.AppArmorProfileName

/-- The strings of the record are valid UTF-8. -/
def ProfileCommand.Plain {F : Type} (p : ProfileCommand F) : Prop :=
  p.Command.Plain ∧ ValidUTF8 p.OriginalImage
    ∧ ValidUTF8 p.OriginalImageSizeHuman
    ∧ ValidUTF8 p.MinifiedImageSizeHuman ∧ ValidUTF8 p.MinifiedImage
    ∧ ValidUTF8 p.ArtifactLocation ∧ ValidUTF8 p.ContainerReportName
    ∧ ValidUTF8 p.SeccompProfileName ∧ ValidUTF8 p.AppArmorProfileName

/-- The strings of the record are valid UTF-8. -/
def InfoCommand.Plain {F : Type} (p : InfoCommand F) : Prop :=
  p.Command.Plain ∧ ValidUTF8 p.OriginalImage
    ∧ ValidUTF8 p.OriginalImageSizeHuman
    ∧ ValidUTF8 p.MinifiedImageSizeHuman ∧ ValidUTF8 p.MinifiedImage
    ∧ ValidUTF8 p.ArtifactLocation ∧ ValidUTF8 p.ContainerReportName
    ∧ ValidUTF8 p.SeccompProfileName ∧ ValidUTF8 p.AppArmorProfileName

/-- The base record as the decoder reads it from what the encoder writes: every
string sanitized; the report location, which is not written, is empty. -/
def Command.readBack (p : Command) : Command :=
  { reportLocation := [], Type_ := sanitize p.Type_, State := sanitize p.State,
    Error := sanitize p.Error }

/-- The system metadata as the decoder reads it from what the encoder writes. -/
def SystemMetadata.readBack (p : SystemMetadata) : SystemMetadata :=
  { Type_ := sanitize p.Type_, Release := sanitize p.Release, OS := sanitize p.OS }

/-- The image metadata as the decoder reads it from what the encoder writes:
every string sanitized, and the slice tagged `omitempty` nil when it has no
element. -/
def ImageMetadata.readBack (p : ImageMetadata) : ImageMetadata :=
  { ID := sanitize p.ID, Name := sanitize p.Name, Size := p.Size,
    SizeHuman := sanitize p.SizeHuman, CreateTime := sanitize p.CreateTime,
    AllNames := p.AllNames.map fun l => l.map sanitize,
    Author := sanitize p.Author, DockerVersion := sanitize p.DockerVersion,
    Architecture := sanitize p.Architecture, User := sanitize p.User,
    ExposedPorts := sanitizeOmitEmpty p.ExposedPorts }

/-- The 'build' record as the decoder reads it from what the encoder writes. -/
def BuildCommand.readBack {F ImageInfo : Type} (p : BuildCommand F ImageInfo) :
    BuildCommand F ImageInfo :=
  { Command := p.Command.readBack, ImageReference := sanitize p.ImageReference,
    System := p.System.readBack, SourceImage := p.SourceImage.readBack,
    MinifiedImageSize := p.MinifiedImageSize,
    MinifiedImageSizeHuman := sanitize p.MinifiedImageSizeHuman,
    MinifiedImage := sanitize p.MinifiedImage,
    MinifiedImageHasData := p.MinifiedImageHasData, MinifiedBy := p.MinifiedBy,
    ArtifactLocation := sanitize p.ArtifactLocation,
    ContainerReportName := sanitize p.ContainerReportName,
    SeccompProfileName := sanitize p.SeccompProfileName,
    AppArmorProfileName := sanitize p.AppArmorProfileName, ImageStack := p.ImageStack }

/-- The 'profile' record as the decoder reads it from what the encoder writes. -/
def ProfileCommand.readBack {F : Type} (p : ProfileCommand F) : ProfileCommand F :=
  { Command := p.Command.readBack, OriginalImage := sanitize p.OriginalImage,
    OriginalImageSize := p.OriginalImageSize,
    OriginalImageSizeHuman := sanitize p.OriginalImageSizeHuman,
    MinifiedImageSize := p.MinifiedImageSize,
    MinifiedImageSizeHuman := sanitize p.MinifiedImageSizeHuman,
    MinifiedImage := sanitize p.MinifiedImage,
    MinifiedImageHasData := p.MinifiedImageHasData, MinifiedBy := p.MinifiedBy,
    ArtifactLocation := sanitize p.ArtifactLocation,
    ContainerReportName := sanitize p.ContainerReportName,
    SeccompProfileName := sanitize p.SeccompProfileName,
    AppArmorProfileName := sanitize p.AppArmorProfileName }

/-- The 'info' record as the decoder reads it from what the encoder writes. -/
def InfoCommand.readBack {F : Type} (p : InfoCommand F) : InfoCommand F :=
  { Command := p.Command.readBack, OriginalImage := sanitize p.OriginalImage,
    OriginalImageSize := p.OriginalImageSize,
    OriginalImageSizeHuman := sanitize p.OriginalImageSizeHuman,
    MinifiedImageSize := p.MinifiedImageSize,
    MinifiedImageSizeHuman := sanitize p.MinifiedImageSizeHuman,
    MinifiedImage := sanitize p.MinifiedImage,
    MinifiedImageHasData := p.MinifiedImageHasData, MinifiedBy := p.MinifiedBy,
    ArtifactLocation := sanitize p.ArtifactLocation,
    ContainerReportName := sanitize p.ContainerReportName,
    SeccompProfileName := sanitize p.SeccompProfileName,
    AppArmorProfileName := sanitize p.AppArmorProfileName }

/-- The state of the run outside the record: the file system, the file-system
calls made so far and what was written to standard output. -/
structure World where
  fs : os.FS
  calls : List os.Call
  stdout : Stdout
  deriving DecidableEq, Repr

/-- How a call ends: it returns to its caller, or the run is terminated. -/
inductive Exit where
  | returned
  | terminated
  deriving DecidableEq, Repr

/-- Modelled from the spec: `errutil.FailOn` (package `pkg/util/errutil`, not among
the sources): a failure is fatal and terminates the run; without an error the call
returns. -/
def FailOn (failed : Bool) : Exit :=
  if failed then .terminated else .returned

/-- The call `fmt.Printf` with the formatted text `text`. -/
def World.Printf (w : World) (text : GoString) : World :=
  { w with stdout := w.stdout ++ [text] }

/-- The call `os.Stat(name)`. -/
def World.Stat (w : World) (name : GoString) : Except os.Errno os.FileInfo × World :=
  (os.Stat w.fs name, { w with calls := w.calls ++ [.stat name] })

/-- The call `os.MkdirAll(path, perm)`. -/
def World.MkdirAll (w : World) (path : GoString) (perm : Nat) : Option os.Errno × World :=
  ((os.MkdirAll w.fs path).2,
    { w with fs := (os.MkdirAll w.fs path).1, calls := w.calls ++ [.mkdirAll path perm] })

/-- The call `ioutil.WriteFile(filename, data, perm)`. -/
def World.WriteFile (w : World) (filename data : GoString) (perm : Nat) :
    Option os.Errno × World :=
  ((os.WriteFile w.fs filename data).2,
    { w with fs := (os.WriteFile w.fs filename data).1,
             calls := w.calls ++ [.writeFile filename data perm] })

/-- The block of `saveInfo` guarded by `dirName != "."`: creates the directory when
`os.Stat` reports that it does not exist, and fails the run when it still
cannot be found afterwards. -/
def ensureDir (dirName : GoString) (w : World) : Exit × World :=
  if dirName ≠ lit "." then
    let (err, w) := w.Stat dirName
    if os.IsNotExist err then
      let (_, w) := w.MkdirAll dirName 0o777
      let (err, w) := w.Stat dirName
      (FailOn (decide (err.toOption = none)), w)
    else (.returned, w)
  else (.returned, w)

/-- `(p *Command) saveInfo(info)`: how the call ends, the receiver after the call
and the state of the run after the call. -/
def saveInfo {α : Type} [Marshaler α] (p : Command) (info : α) (w : World) :
    Exit × Command × World :=
  if p.reportLocation ≠ [] then
    let dirName := filepath.Dir p.reportLocation
    let baseName := filepath.Base p.reportLocation
    if baseName = lit "." then
      (.returned, p,
        w.Printf (lit "no build command report location: " ++ p.reportLocation ++ lit "\n"))
    else
      match ensureDir dirName w with
      | (.terminated, w) => (.terminated, p, w)
      | (.returned, w) =>
        match Encode false (lit "") (lit "  ") info with
        | .error _ => (FailOn true, p, w)
        | .ok reportData =>
          let (err, w) := w.WriteFile p.reportLocation reportData 0o644
          (FailOn err.isSome, p, w)
  else (.returned, p, w)

/-- `(p *Command) Save()`. -/
def Command.Save (p : Command) (w : World) : Exit × Command × World :=
  saveInfo p p w

/-- `(p *BuildCommand) Save()`: `saveInfo` is called on the embedded `Command`,
with the whole record as the value to encode. -/
def BuildCommand.Save {F ImageInfo : Type} [Float64 F] [Marshaler ImageInfo]
    (p : BuildCommand F ImageInfo) (w : World) : Exit × BuildCommand F ImageInfo × World :=
  let r := saveInfo p.Command p w
  (r.1, { p with Command := r.2.1 }, r.2.2)

/-- `(p *ProfileCommand) Save()`. -/
def ProfileCommand.Save {F : Type} [Float64 F] (p : ProfileCommand F) (w : World) :
    Exit × ProfileCommand F × World :=
  let r := saveInfo p.Command p w
  (r.1, { p with Command := r.2.1 }, r.2.2)

/-- `(p *InfoCommand) Save()`. -/
def InfoCommand.Save {F : Type} [Float64 F] (p : InfoCommand F) (w : World) :
    Exit × InfoCommand F × World :=
  let r := saveInfo p.Command p w
  (r.1, { p with Command := r.2.1 }, r.2.2)

/-- A report record: the base record or one of its three variants. -/
inductive Report (F ImageInfo : Type) where
  | command (p : Command)
  | build (p : BuildCommand F ImageInfo)
  | profile (p : ProfileCommand F)
  | info (p : InfoCommand F)
  deriving DecidableEq

/-- The base record of a report record. -/
def Report.base {F ImageInfo : Type} : Report F ImageInfo → Command
  | .command p => p
  | .build p => p.Command
  | .profile p => p.Command
  | .info p => p.Command

/-- The record with its report location replaced. -/
def Report.withLocation {F ImageInfo : Type} (loc : GoString) :
    Report F ImageInfo → Report F ImageInfo
  | .command p => .command { p with reportLocation := loc }
  | .build p => .build { p with Command := { p.Command with reportLocation := loc } }
  | .profile p => .profile { p with Command := { p.Command with reportLocation := loc } }
  | .info p => .info { p with Command := { p.Command with reportLocation := loc } }

/-- The method `Save` of a report record. -/
def Report.Save {F ImageInfo : Type} [Float64 F] [Marshaler ImageInfo]
    (r : Report F ImageInfo) (w : World) : Exit × Report F ImageInfo × World :=
  match r with
  | .command p => ((p.Save w).1, .command (p.Save w).2.1, (p.Save w).2.2)
  | .build p => ((p.Save w).1, .build (p.Save w).2.1, (p.Save w).2.2)
  | .profile p => ((p.Save w).1, .profile (p.Save w).2.1, (p.Save w).2.2)
  | .info p => ((p.Save w).1, .info (p.Save w).2.1, (p.Save w).2.2)

/-- The JSON value of a report record. -/
def Report.MarshalJSON {F ImageInfo : Type} [Float64 F] [Marshaler ImageInfo] :
    Report F ImageInfo → Except MarshalError JSON
  | .command p => Marshaler.MarshalJSON p
  | .build p => Marshaler.MarshalJSON p
  | .profile p => Marshaler.MarshalJSON p
  | .info p => Marshaler.MarshalJSON p

/-- The bytes `Save` serializes a report record to: the encoder of `saveInfo`
(HTML escaping off, no prefix, two-space indent) applied to the record. -/
def Report.serialize {F ImageInfo : Type} [Float64 F] [Marshaler ImageInfo] :
    Report F ImageInfo → Except MarshalError GoString
  | .command p => Encode false (lit "") (lit "  ") p
  | .build p => Encode false (lit "") (lit "  ") p
  | .profile p => Encode false (lit "") (lit "  ") p
  | .info p => Encode false (lit "") (lit "  ") p

/-- The integers of a report record are values of `int64`, and the codec of the
image infos agrees on the entries of its image stack. -/
def Report.Valid {F ImageInfo : Type} [Marshaler ImageInfo] [Unmarshaler ImageInfo] :
    Report F ImageInfo → Prop
  | .command _ => True
  | .build p => p.Valid
  | .profile p => p.Valid
  | .info p => p.Valid

/-- The strings of a report record are valid UTF-8, and its slice tagged
`omitempty` is not an empty slice other than nil: the record holds nothing
that the codec changes. -/
def Report.Plain {F ImageInfo : Type} : Report F ImageInfo → Prop
  | .command p => p.Plain
  | .build p => p.Plain
  | .profile p => p.Plain
  | .info p => p.Plain

/-- The report record as the decoder reads it from what the encoder writes. -/
def Report.readBack {F ImageInfo : Type} : Report F ImageInfo → Report F ImageInfo
  | .command p => .command p.readBack
  | .build p => .build p.readBack
  | .profile p => .profile p.readBack
  | .info p => .info p.readBack

/-- The type of a report record. -/
inductive Kind where
  | command
  | build
  | profile
  | info
  deriving DecidableEq, Repr

/-- The type of a report record. -/
def Report.kind {F ImageInfo : Type} : Report F ImageInfo → Kind
  | .command _ => .command
  | .build _ => .build
  | .profile _ => .profile
  | .info _ => .info

/-- Decoding a text into a fresh report record of the given type. -/
def Report.Decode {F ImageInfo : Type} [Float64 F] [Unmarshaler ImageInfo]
    (kind : Kind) (text : GoString) : Option (Report F ImageInfo) :=
  match kind with
  | .command => (json.Decode text : Option Command).map .command
  | .build => (json.Decode text : Option (BuildCommand F ImageInfo)).map .build
  | .profile => (json.Decode text : Option (ProfileCommand F)).map .profile
  | .info => (json.Decode text : Option (InfoCommand F)).map .info

/-- The keys of the members of a JSON object, in order. -/
def keys : JSON → List GoString
  | .object members => members.map Prod.fst
  | _ => []

/-! ### Sample inputs -/

/-- A run that has made no call yet, on a file system holding only the root
directory, which is also the working directory. -/
def sampleWorld : World :=
  { fs := { cwd := [], entries := [] }, calls := [], stdout := [] }

/-- A fresh 'info' report to be saved under a nested directory. -/
def sampleInfoReport : Report SampleFloat Empty :=
  .info (NewInfoCommand (lit "out/reports/info.json"))

/-- The JSON text of `sampleInfoReport`. -/
def sampleInfoJSON : GoString :=
  lit "\x7b\n  \"type\": \"info\",\n  \"state\": \"unknown\",\n  \"original_image\": \"\",\n  \"original_image_size\": 0,\n  \"original_image_size_human\": \"\",\n  \"minified_image_size\": 0,\n  \"minified_image_size_human\": \"\",\n  \"minified_image\": \"\",\n  \"minified_image_has_data\": false,\n  \"minified_by\": 0,\n  \"artifact_location\": \"\",\n  \"container_report_name\": \"\",\n  \"seccomp_profile_name\": \"\",\n  \"apparmor_profile_name\": \"\"\n\x7d\n"

/-- A fragment of `dockerfile.ImageInfo` for concrete examples. -/
structure SampleImageInfo where
  IsTopImage : Bool
  deriving DecidableEq, Repr

instance : Marshaler SampleImageInfo where
  MarshalJSON x := .ok (.object (fieldBool "is_top_image" x.IsTopImage))

instance : Unmarshaler SampleImageInfo where
  UnmarshalJSON :=
    unmarshalStruct { IsTopImage := false } fun ms =>
      andThen (getBool ms "is_top_image") fun isTopImage => some { IsTopImage := isTopImage }

/-- A 'build' report with an image stack, to be saved under a nested directory;
its `MinifiedBy` is the `float64` 21.29. -/
def sampleBuildReport : Report strconv.Binary64 SampleImageInfo :=
  .build
    { Command := { reportLocation := lit "out/reports/build.json", Type_ := CmdTypeBuild,
                   State := CmdStateDone, Error := [] },
      ImageReference := lit "nginx:latest",
      System := { Type_ := lit "Linux", Release := lit "5.4.0", OS := lit "Ubuntu & co" },
      SourceImage :=
        { ID := lit "sha256:4bb46517cac3", Name := lit "nginx:latest", Size := 132000000,
          SizeHuman := lit "132 MB", CreateTime := lit "2020-08-14T00:36:48Z",
          AllNames := some [lit "nginx:latest", lit "nginx:1.19"], Author := [],
          DockerVersion := lit "18.09.7", Architecture := lit "amd64", User := [],
          ExposedPorts := some [lit "80/tcp"] },
      MinifiedImageSize := 6200000, MinifiedImageSizeHuman := lit "6.2 MB",
      MinifiedImage := lit "nginx.slim", MinifiedImageHasData := true,
      MinifiedBy := ⟨false, ⟨1027, by decide⟩, ⟨1489002626799370, by decide⟩⟩,
      ArtifactLocation := lit "/tmp/artifacts",
      ContainerReportName := lit "creport.json", SeccompProfileName := lit "nginx-seccomp.json",
      AppArmorProfileName := lit "nginx-apparmor-profile",
      ImageStack := some [some { IsTopImage := true }, none] }

/-- The JSON text of `sampleBuildReport`. -/
def sampleBuildJSON : GoString :=
  lit "\x7b\n  \"type\": \"build\",\n  \"state\": \"done\",\n" ++
  lit "  \"image_reference\": \"nginx:latest\",\n  \"system\": \x7b\n" ++
  lit "    \"type\": \"Linux\",\n    \"release\": \"5.4.0\",\n" ++
  lit "    \"os\": \"Ubuntu & co\"\n  \x7d,\n  \"source_image\": \x7b\n" ++
  lit "    \"id\": \"sha256:4bb46517cac3\",\n    \"name\": \"nginx:latest\",\n" ++
  lit "    \"size\": 132000000,\n    \"size_human\": \"132 MB\",\n" ++
  lit "    \"create_time\": \"2020-08-14T00:36:48Z\",\n    \"all_names\": [\n" ++
  lit "      \"nginx:latest\",\n      \"nginx:1.19\"\n    ],\n" ++
  lit "    \"docker_version\": \"18.09.7\",\n    \"architecture\": \"amd64\",\n" ++
  lit "    \"exposed_ports\": [\n      \"80/tcp\"\n    ]\n  \x7d,\n" ++
  lit "  \"minified_image_size\": 6200000,\n" ++
  lit "  \"minified_image_size_human\": \"6.2 MB\",\n" ++
  lit "  \"minified_image\": \"nginx.slim\",\n  \"minified_image_has_data\": true,\n" ++
  lit "  \"minified_by\": 21.29,\n  \"artifact_location\": \"/tmp/artifacts\",\n" ++
  lit "  \"container_report_name\": \"creport.json\",\n" ++
  lit "  \"seccomp_profile_name\": \"nginx-seccomp.json\",\n" ++
  lit "  \"apparmor_profile_name\": \"nginx-apparmor-profile\",\n  \"image_stack\": [\n" ++
  lit "    \x7b\n      \"is_top_image\": true\n    \x7d,\n    null\n  ]\n\x7d\n"

/-- A base record whose error text is the one-byte string 0xFF, which is not
valid UTF-8. -/
def invalidCommand : Command :=
  { reportLocation := [], Type_ := CmdTypeBuild, State := CmdStateError,
    Error := [.invalid 255] }

/-- The JSON text of `invalidCommand`. -/
def invalidJSON : GoString :=
  lit "\x7b\n  \"type\": \"build\",\n  \"state\": \"error\",\n  \"error\": \"\\ufffd\"\n\x7d\n"

/-- A fresh 'build' record whose exposed ports are a slice that is empty but not
nil. -/
def emptyPortsReport : Report strconv.Binary64 Empty :=
  .build { (NewBuildCommand [] : BuildCommand strconv.Binary64 Empty) with
    SourceImage := { ImageMetadata.zero with ExposedPorts := some [] } }

/-- A fresh 'build' record; its exposed ports are the nil slice. -/
def nilPortsReport : Report strconv.Binary64 Empty :=
  .build (NewBuildCommand [])

/-- The JSON text of `emptyPortsReport`, and of `nilPortsReport`. -/
def emptyPortsJSON : GoString :=
  lit "\x7b\n  \"type\": \"build\",\n  \"state\": \"unknown\",\n" ++
  lit "  \"image_reference\": \"\",\n  \"system\": \x7b\n" ++
  lit "    \"type\": \"\",\n    \"release\": \"\",\n    \"os\": \"\"\n  \x7d,\n" ++
  lit "  \"source_image\": \x7b\n    \"id\": \"\",\n    \"name\": \"\",\n" ++
  lit "    \"size\": 0,\n    \"size_human\": \"\",\n    \"create_time\": \"\",\n" ++
  lit "    \"all_names\": null,\n    \"docker_version\": \"\",\n" ++
  lit "    \"architecture\": \"\"\n  \x7d,\n  \"minified_image_size\": 0,\n" ++
  lit "  \"minified_image_size_human\": \"\",\n  \"minified_image\": \"\",\n" ++
  lit "  \"minified_image_has_data\": false,\n  \"minified_by\": 0,\n" ++
  lit "  \"artifact_location\": \"\",\n  \"container_report_name\": \"\",\n" ++
  lit "  \"seccomp_profile_name\": \"\",\n  \"apparmor_profile_name\": \"\",\n" ++
  lit "  \"image_stack\": null\n\x7d\n"

/-- A base report whose location ends in a separator. -/
def trailingSeparatorReport : Report SampleFloat Empty :=
  .command { reportLocation := lit "a/b/", Type_ := CmdTypeBuild, State := CmdStateDone,
             Error := [] }

/-- A base report whose location has a line break and no file name: the
directory "a\nb", then ".". -/
def lineBreakReport : Report SampleFloat Empty :=
  .command { reportLocation := lit "a\nb/.", Type_ := CmdTypeBuild, State := CmdStateDone,
             Error := [] }

/-- The JSON text of `trailingSeparatorReport`. -/
def trailingSeparatorJSON : GoString :=
  lit "\x7b\n  \"type\": \"build\",\n  \"state\": \"done\"\n\x7d\n"

end report

/-! ## Properties of the version check -/

namespace version

/-- C6: for an absent result, or one whose status is not "success" (whatever its
outdated flag and current version), the verdict is exactly the fixed text
"version status information is not available". -/
theorem verdict_not_available (tag : GoString) (info : Option CheckVersionInfo)
    (h : ∀ i, info = some i → i.Status ≠ lit "success") :
    GetCheckVersionVerdict tag info = lit "version status information is not available" := by
  cases info with
  | none => rfl
  | some i =>
    have hi := h i rfl
    simp [GetCheckVersionVerdict, hi]

theorem verdict_not_available_witness :
    GetCheckVersionVerdict (lit "1.26") (some ⟨lit "error", true, lit "1.27"⟩)
      = lit "version status information is not available" :=
  verdict_not_available (lit "1.26") (some ⟨lit "error", true, lit "1.27"⟩)
    (by intro i hi; cases hi; decide)

/-- C7 (evaluation of the code): for a result with status "success" and
outdated = false the verdict is the text "your have the latest version",
which is not the text "you have the latest version". -/
theorem verdict_latest_text (tag current : GoString) :
    GetCheckVersionVerdict tag (some ⟨lit "success", false, current⟩)
        = lit "your have the latest version"
      ∧ GetCheckVersionVerdict tag (some ⟨lit "success", false, current⟩)
        ≠ lit "you have the latest version" := by
  have h : GetCheckVersionVerdict tag (some ⟨lit "success", false, current⟩)
      = lit "your have the latest version" := by
    simp [GetCheckVersionVerdict]
  rw [h]
  exact ⟨rfl, by decide⟩

/-- C8: for a result with status "success" and outdated = true, the verdict
contains both the local version tag and the result's `current` value. -/
theorem verdict_outdated_contains (tag : GoString) (info : CheckVersionInfo)
    (hs : info.Status = lit "success") (ho : info.Outdated = true) :
    Contains (GetCheckVersionVerdict tag (some info)) tag
      ∧ Contains (GetCheckVersionVerdict tag (some info)) info.Current := by
  have h : GetCheckVersionVerdict tag (some info)
      = lit "your installed version is OUTDATED (local=" ++ tag ++ lit " current=" ++
          info.Current ++ lit ")" := by
    simp [GetCheckVersionVerdict, hs, ho]
  rw [h]
  constructor
  · exact ⟨lit "your installed version is OUTDATED (local=",
      lit " current=" ++ info.Current ++ lit ")", by simp [List.append_assoc]⟩
  · exact ⟨lit "your installed version is OUTDATED (local=" ++ tag ++ lit " current=",
      lit ")", by simp [List.append_assoc]⟩

theorem verdict_outdated_contains_witness :
    Contains (GetCheckVersionVerdict (lit "1.26") (some ⟨lit "success", true, lit "9.9.9"⟩))
        (lit "1.26")
      ∧ Contains (GetCheckVersionVerdict (lit "1.26") (some ⟨lit "success", true, lit "9.9.9"⟩))
        (lit "9.9.9") :=
  verdict_outdated_contains (lit "1.26") ⟨lit "success", true, lit "9.9.9"⟩ rfl rfl

/-- C9: `PrintCheckVersion` writes to standard output if and only if the result
is present with status "success" and outdated = true; it then writes the
outdated notice (local and current version) followed by the fixed
upgrade-instructions line, and in every other case it writes nothing. -/
theorem print_iff_outdated (tag : GoString) (info : Option CheckVersionInfo) (out : Stdout) :
    (PrintCheckVersion tag info out ≠ out ↔
        ∃ i, info = some i ∧ i.Status = lit "success" ∧ i.Outdated = true)
      ∧ (∀ i, info = some i → i.Status = lit "success" → i.Outdated = true →
          PrintCheckVersion tag info out
            = out ++ [lit "docker-slim[version]: info=version status=OUTDATED local=" ++ tag ++
                lit " current=" ++ i.Current ++ lit "\n",
              lit "docker-slim[version]: info=message message='Your version of DockerSlim is out of date! Use the \"update\" command or download the new version from https://dockersl.im/downloads.html'\n"])
      ∧ ((¬ ∃ i, info = some i ∧ i.Status = lit "success" ∧ i.Outdated = true) →
          PrintCheckVersion tag info out = out) := by
  refine ⟨?_, ?_, ?_⟩
  · cases info with
    | none => simp [PrintCheckVersion]
    | some i =>
      by_cases hc : i.Status = lit "success" ∧ i.Outdated = true
      · simp [PrintCheckVersion, hc]
      · simp only [PrintCheckVersion, if_neg hc]
        simp only [ne_eq, not_true_eq_false, false_iff]
        rintro ⟨j, hj, h1, h2⟩
        cases hj
        exact hc ⟨h1, h2⟩
  · intro i hi hs ho
    subst hi
    simp [PrintCheckVersion, hs, ho, outdatedNotice, upgradeInstructions]
  · intro hne
    cases info with
    | none => rfl
    | some i =>
      have hc : ¬ (i.Status = lit "success" ∧ i.Outdated = true) :=
        fun h => hne ⟨i, rfl, h.1, h.2⟩
      simp only [PrintCheckVersion, if_neg hc]

/-- C10: `Check` returns a result exactly when the request was encoded and built,
the transport returned a response without error, the response status is 200
and the body decodes; the result is then the decoded value.  In every other
case it returns the nil result.  There is no error result. -/
theorem check_some_iff (env : Env) :
    (∀ info, Check env = some info ↔
        ∃ b req0 resp,
          env.Encode false { AppVersion := env.Current } = .ok b
          ∧ env.NewRequest (lit "POST") versionCheckEndpoint b = .ok req0
          ∧ env.Do { TimeoutSeconds := 13 }
              (((req0.setHeader (lit "User-Agent") (lit "DockerSlimApp/" ++ env.Current)).setHeader
                (lit "Content-Type") jsonContentType).setHeader
                (lit "Authorization") (lit "Bearer " ++ versionAuthKey)) = .ok resp
          ∧ resp.StatusCode = 200
          ∧ env.Decode resp.Body = .ok info)
      ∧ (Check env = none ↔
        ¬ ∃ info b req0 resp,
          env.Encode false { AppVersion := env.Current } = .ok b
          ∧ env.NewRequest (lit "POST") versionCheckEndpoint b = .ok req0
          ∧ env.Do { TimeoutSeconds := 13 }
              (((req0.setHeader (lit "User-Agent") (lit "DockerSlimApp/" ++ env.Current)).setHeader
                (lit "Content-Type") jsonContentType).setHeader
                (lit "Authorization") (lit "Bearer " ++ versionAuthKey)) = .ok resp
          ∧ resp.StatusCode = 200
          ∧ env.Decode resp.Body = .ok info) := by
  have key : ∀ info, Check env = some info ↔
        ∃ b req0 resp,
          env.Encode false { AppVersion := env.Current } = .ok b
          ∧ env.NewRequest (lit "POST") versionCheckEndpoint b = .ok req0
          ∧ env.Do { TimeoutSeconds := 13 }
              (((req0.setHeader (lit "User-Agent") (lit "DockerSlimApp/" ++ env.Current)).setHeader
                (lit "Content-Type") jsonContentType).setHeader
                (lit "Authorization") (lit "Bearer " ++ versionAuthKey)) = .ok resp
          ∧ resp.StatusCode = 200
          ∧ env.Decode resp.Body = .ok info := by
    intro info
    cases hE : env.Encode false { AppVersion := env.Current } with
    | error e => simp [Check, hE]
    | ok b =>
      cases hN : env.NewRequest (lit "POST") versionCheckEndpoint b with
      | error e => simp [Check, hE, hN]
      | ok req0 =>
        cases hD : env.Do { TimeoutSeconds := 13 }
              (((req0.setHeader (lit "User-Agent") (lit "DockerSlimApp/" ++ env.Current)).setHeader
                (lit "Content-Type") jsonContentType).setHeader
                (lit "Authorization") (lit "Bearer " ++ versionAuthKey)) with
        | failed e r => simp [Check, hE, hN, hD]
        | ok resp =>
          by_cases hS : resp.StatusCode = 200
          · cases hJ : env.Decode resp.Body with
            | error e => simp [Check, hE, hN, hD, hS, StatusOK, hJ]
            | ok ci => simp [Check, hE, hN, hD, hS, StatusOK, hJ]
          · simp [Check, hE, hN, hD, hS, StatusOK]
  refine ⟨key, ?_⟩
  constructor
  · intro hnone ⟨info, h⟩
    have := (key info).2 h
    rw [hnone] at this
    cases this
  · intro hne
    cases hC : Check env with
    | none => rfl
    | some info => exact absurd ⟨info, (key info).1 hC⟩ hne

end version

/-! ## Properties of the file-system model -/

namespace os

theorem Extends.refl (fs : FS) : Extends fs fs := ⟨rfl, fun _ h => h⟩

theorem Extends.trans {a b c : FS} (h1 : Extends a b) (h2 : Extends b c) : Extends a c :=
  ⟨h2.1.trans h1.1, fun p h => h2.2 p (h1.2 p h)⟩

theorem node_put (fs : FS) (p q : Location) (n : Node) :
    (fs.put p n).node q = if q = [] then some .dir else if p = q then some n else fs.node q := by
  by_cases hq : q = []
  · simp [FS.node, hq]
  · by_cases hp : p = q
    · simp [FS.node, FS.put, lookup, hq, hp]
    · simp [FS.node, FS.put, lookup, hq, hp]

theorem extends_put (fs : FS) (p : Location) (n : Node) (h : fs.node p ≠ some .dir) :
    Extends fs (fs.put p n) := by
  refine ⟨rfl, ?_⟩
  intro q hq
  rw [node_put]
  by_cases hq0 : q = []
  · simp [hq0]
  · by_cases hp : p = q
    · subst hp; exact absurd hq h
    · simp [hq0, hp, hq]

theorem walk_mono {fs fs' : FS} (h : Extends fs fs') :
    ∀ (es : List GoString) (cur q : Location), walk fs cur es = .ok q → walk fs' cur es = .ok q := by
  intro es
  induction es with
  | nil => intro cur q hw; simpa [walk] using hw
  | cons e es ih =>
    intro cur q hw
    unfold walk at hw ⊢
    cases hn : fs.node cur with
    | none => simp [hn] at hw
    | some n =>
      cases n with
      | file d => simp [hn] at hw
      | dir =>
        rw [hn] at hw
        rw [h.2 cur hn]
        simp only at hw ⊢
        split at hw
        · rename_i hc; rw [if_pos hc]; exact ih _ _ hw
        · rename_i hc
          rw [if_neg hc]
          split at hw
          · rename_i hc2; rw [if_pos hc2]; exact ih _ _ hw
          · rename_i hc2; rw [if_neg hc2]; exact ih _ _ hw

theorem walk_cons_dir {fs : FS} {cur q : Location} {e : GoString} {es : List GoString}
    (h : walk fs cur (e :: es) = .ok q) : fs.node cur = some .dir := by
  unfold walk at h
  cases hn : fs.node cur with
  | none => simp [hn] at h
  | some n =>
    cases n with
    | file d => simp [hn] at h
    | dir => rfl

theorem walk_cons (fs : FS) (cur : Location) (e : GoString) (es : List GoString) :
    walk fs cur (e :: es) =
      match fs.node cur with
      | none => .error .ENOENT
      | some (.file _) => .error .ENOTDIR
      | some .dir =>
        if e = [] ∨ e = lit "." then walk fs cur es
        else if e = lit ".." then walk fs cur.dropLast es
        else walk fs (cur ++ [e]) es := by
  rw [walk]

theorem walk_append (fs : FS) :
    ∀ (es1 es2 : List GoString) (cur : Location),
      walk fs cur (es1 ++ es2) =
        match walk fs cur es1 with
        | .error e => .error e
        | .ok c => walk fs c es2 := by
  intro es1
  induction es1 with
  | nil => intro es2 cur; simp [walk]
  | cons e es ih =>
    intro es2 cur
    simp only [List.cons_append, walk_cons]
    cases hn : fs.node cur with
    | none => simp
    | some n =>
      cases n with
      | file d => simp
      | dir =>
        simp only
        split
        · exact ih _ _
        · split
          · exact ih _ _
          · exact ih _ _

theorem mkdirWalk_spec :
    ∀ (es : List GoString) (fs fs' : FS) (cur : Location),
      mkdirWalk fs cur es = (fs', none) →
      Extends fs fs' ∧ ∃ q, walk fs' cur es = .ok q ∧ fs'.node q = some .dir := by
  intro es
  induction es with
  | nil =>
    intro fs fs' cur h
    unfold mkdirWalk at h
    cases hn : fs.node cur with
    | none => simp [hn] at h
    | some n =>
      cases n with
      | file d => simp [hn] at h
      | dir =>
        simp [hn] at h
        subst h
        exact ⟨Extends.refl _, cur, by simp [walk], hn⟩
  | cons e es ih =>
    intro fs fs' cur h
    unfold mkdirWalk at h
    cases hn : fs.node cur with
    | none => simp [hn] at h
    | some n =>
      cases n with
      | file d => simp [hn] at h
      | dir =>
        rw [hn] at h
        simp only at h
        by_cases hc : e = [] ∨ e = lit "."
        · rw [if_pos hc] at h
          obtain ⟨hx, q, hq, hd⟩ := ih _ _ _ h
          refine ⟨hx, q, ?_, hd⟩
          unfold walk
          rw [hx.2 cur hn]
          simp only [if_pos hc]
          exact hq
        · rw [if_neg hc] at h
          by_cases hc2 : e = lit ".."
          · rw [if_pos hc2] at h
            obtain ⟨hx, q, hq, hd⟩ := ih _ _ _ h
            refine ⟨hx, q, ?_, hd⟩
            unfold walk
            rw [hx.2 cur hn]
            simp only [if_neg hc, if_pos hc2]
            exact hq
          · rw [if_neg hc2] at h
            cases hm : fs.node (cur ++ [e]) with
            | none =>
              rw [hm] at h
              simp only at h
              obtain ⟨hx, q, hq, hd⟩ := ih _ _ _ h
              have hx0 : Extends fs (fs.put (cur ++ [e]) .dir) :=
                extends_put fs _ _ (by rw [hm]; simp)
              have hx' := hx0.trans hx
              refine ⟨hx', q, ?_, hd⟩
              unfold walk
              rw [hx'.2 cur hn]
              simp only [if_neg hc, if_neg hc2]
              exact hq
            | some n =>
              rw [hm] at h
              simp only at h
              obtain ⟨hx, q, hq, hd⟩ := ih _ _ _ h
              refine ⟨hx, q, ?_, hd⟩
              unfold walk
              rw [hx.2 cur hn]
              simp only [if_neg hc, if_neg hc2]
              exact hq

theorem start_extends {fs fs' : FS} (h : Extends fs fs') (name : GoString) :
    start fs' name = start fs name := by
  unfold start
  rw [h.1]

theorem MkdirAll_spec (fs : FS) (path : GoString) (h : (MkdirAll fs path).2 = none) :
    Extends fs (MkdirAll fs path).1 ∧ Stat (MkdirAll fs path).1 path = .ok ⟨true⟩ := by
  unfold MkdirAll at h ⊢
  by_cases hp : path = []
  · simp [hp] at h
  · simp only [if_neg hp] at h ⊢
    have hm : mkdirWalk fs (start fs path).1 (start fs path).2
        = ((mkdirWalk fs (start fs path).1 (start fs path).2).1, none) := by
      rw [← h]
    obtain ⟨hx, q, hq, hd⟩ := mkdirWalk_spec _ _ _ _ hm
    refine ⟨hx, ?_⟩
    unfold Stat resolve
    rw [if_neg hp, start_extends hx, hq]
    simp only [hd]

theorem Stat_mono {fs fs' : FS} (h : Extends fs fs') (name : GoString)
    (hs : Stat fs name = .ok ⟨true⟩) : Stat fs' name = .ok ⟨true⟩ := by
  unfold Stat resolve at hs ⊢
  by_cases hp : name = []
  · simp [hp] at hs
  · rw [if_neg hp] at hs ⊢
    rw [start_extends h]
    cases hw : walk fs (start fs name).1 (start fs name).2 with
    | error e => simp [hw] at hs
    | ok q =>
      rw [walk_mono h _ _ _ hw]
      rw [hw] at hs
      simp only at hs ⊢
      cases hn : fs.node q with
      | none => simp [hn] at hs
      | some n =>
        cases n with
        | file d => simp [hn] at hs
        | dir => rw [h.2 q hn]

theorem WriteFile_spec (fs : FS) (name data : GoString) (h : (WriteFile fs name data).2 = none) :
    Extends fs (WriteFile fs name data).1 ∧ ReadFile (WriteFile fs name data).1 name = .ok data := by
  unfold WriteFile at h ⊢
  by_cases hp : name = []
  · simp [hp] at h
  · simp only [if_neg hp] at h ⊢
    cases hw : walk fs (start fs name).1 (start fs name).2.dropLast with
    | error e => simp [hw] at h
    | ok d =>
      rw [hw] at h
      simp only [hw] at h ⊢
      cases hn : fs.node d with
      | none => simp [hn] at h
      | some n =>
        cases n with
        | file x => simp [hn] at h
        | dir =>
          rw [hn] at h
          simp only [hn] at h ⊢
          cases hl : (start fs name).2.getLast? with
          | none => simp [hl] at h
          | some e =>
            rw [hl] at h
            simp only [hl] at h ⊢
            by_cases hc : e = [] ∨ e = lit "." ∨ e = lit ".."
            · simp [hc] at h
            · rw [if_neg hc] at h
              simp only [if_neg hc] at h ⊢
              have hnd : fs.node (d ++ [e]) ≠ some .dir := by
                intro hd
                simp [hd] at h
              rw [if_neg hnd]
              simp only
              have hx := extends_put fs (d ++ [e]) (.file data) hnd
              refine ⟨hx, ?_⟩
              have hes : (start fs name).2 = (start fs name).2.dropLast ++ [e] := by
                have := List.dropLast_append_getLast? e hl
                exact this.symm
              have hc1 : ¬ (e = [] ∨ e = lit ".") := fun hh => hc (by tauto)
              have hc2 : ¬ (e = lit "..") := fun hh => hc (by tauto)
              unfold ReadFile resolve
              rw [if_neg hp, start_extends hx, hes, walk_append, walk_mono hx _ _ _ hw]
              simp only [walk_cons, hx.2 d hn, if_neg hc1, if_neg hc2, walk]
              rw [node_put]
              simp

theorem WriteFile_failed (fs : FS) (name data : GoString)
    (h : (WriteFile fs name data).2 ≠ none) : (WriteFile fs name data).1 = fs := by
  unfold WriteFile at h ⊢
  by_cases hp : name = []
  · simp [hp]
  · simp only [if_neg hp] at h ⊢
    cases hw : walk fs (start fs name).1 (start fs name).2.dropLast with
    | error e => simp
    | ok d =>
      rw [hw] at h
      simp only at h ⊢
      cases hn : fs.node d with
      | none => simp
      | some n =>
        cases n with
        | file x => simp
        | dir =>
          rw [hn] at h
          simp only at h ⊢
          cases hl : (start fs name).2.getLast? with
          | none => simp
          | some e =>
            rw [hl] at h
            simp only at h ⊢
            by_cases hc : e = [] ∨ e = lit "." ∨ e = lit ".."
            · simp [hc]
            · rw [if_neg hc] at h ⊢
              by_cases hd : fs.node (d ++ [e]) = some .dir
              · simp [hd]
              · simp [hd] at h

theorem WriteFile_extends (fs : FS) (name data : GoString) :
    Extends fs (WriteFile fs name data).1 := by
  by_cases h : (WriteFile fs name data).2 = none
  · exact (WriteFile_spec fs name data h).1
  · rw [WriteFile_failed fs name data h]
    exact Extends.refl fs

theorem elements_ne_nil (s : GoString) : filepath.elements s ≠ [] := by
  cases s with
  | nil => simp [filepath.elements]
  | cons c cs =>
    unfold filepath.elements
    split
    · simp
    · split <;> simp

theorem elements_append (a b : GoString) :
    filepath.elements (a ++ filepath.Separator :: b)
      = filepath.elements a ++ filepath.elements b := by
  induction a with
  | nil => simp [filepath.elements]
  | cons c a ih =>
    by_cases hc : c = filepath.Separator
    · simp [filepath.elements, hc, ih]
    · rw [List.cons_append, filepath.elements, if_neg hc, ih, filepath.elements, if_neg hc]
      cases he : filepath.elements a with
      | nil => exact absurd he (elements_ne_nil a)
      | cons x xs => simp

theorem Stat_ancestor (fs : FS) (d rest : GoString) (fi : FileInfo) (hd : d ≠ [])
    (h : Stat fs (d ++ filepath.Separator :: rest) = .ok fi) : Stat fs d = .ok ⟨true⟩ := by
  obtain ⟨c, d', rfl⟩ : ∃ c d', d = c :: d' := by
    cases d with
    | nil => exact absurd rfl hd
    | cons c d' => exact ⟨c, d', rfl⟩
  unfold Stat resolve at h ⊢
  simp only [List.cons_append, List.cons_ne_nil, if_false, reduceCtorEq] at h ⊢
  have key : ∀ (st : Location) (es : List GoString),
      (∃ q, walk fs st (es ++ filepath.elements rest) = .ok q) →
      ∃ q, walk fs st es = .ok q ∧ fs.node q = some .dir := by
    intro st es ⟨q, hq⟩
    rw [walk_append] at hq
    cases hw : walk fs st es with
    | error e => simp [hw] at hq
    | ok q1 =>
      rw [hw] at hq
      simp only at hq
      obtain ⟨e, es', hes⟩ : ∃ e es', filepath.elements rest = e :: es' := by
        cases he : filepath.elements rest with
        | nil => exact absurd he (elements_ne_nil rest)
        | cons e es' => exact ⟨e, es', rfl⟩
      rw [hes] at hq
      exact ⟨q1, rfl, walk_cons_dir hq⟩
  have hres : ∃ q, walk fs (start fs (c :: (d' ++ filepath.Separator :: rest))).1
      (start fs (c :: (d' ++ filepath.Separator :: rest))).2 = .ok q := by
    cases hw : walk fs (start fs (c :: (d' ++ filepath.Separator :: rest))).1
      (start fs (c :: (d' ++ filepath.Separator :: rest))).2 with
    | error e => simp [hw] at h
    | ok q => exact ⟨q, rfl⟩
  have hst : (start fs (c :: (d' ++ filepath.Separator :: rest))).1 = (start fs (c :: d')).1
      ∧ (start fs (c :: (d' ++ filepath.Separator :: rest))).2
        = (start fs (c :: d')).2 ++ filepath.elements rest := by
    unfold start
    by_cases hc : c = filepath.Separator
    · simp [hc, elements_append]
    · have := elements_append (c :: d') rest
      rw [List.cons_append] at this
      simp [hc, this]
  rw [hst.1, hst.2] at hres
  obtain ⟨q, hq, hdq⟩ := key _ _ hres
  rw [hq]
  simp only [hdq]

end os

/-! ## Properties of the JSON codec -/

namespace json

theorem hexVal_hexDigit (n : Nat) (h : n < 16) : hexVal (.rune (hexDigit n)) = some n := by
  interval_cases n <;> decide

theorem unquoteBody_escape (fuel : Nat) (e : GoChar) (x : Char) (tail : GoString)
    (he : e ≠ .rune 'u') (hx : unescape e = some x) :
    unquoteBody (fuel + 1) (.rune '\\' :: e :: tail) = consUnit x (unquoteBody fuel tail) := by
  simp [unquoteBody, he, hx]

theorem unquoteBody_u (fuel n : Nat) (h1 h2 h3 h4 : GoChar) (tail : GoString)
    (hn : hex4 h1 h2 h3 h4 = some n) (hlo : ¬ (0xD800 ≤ n ∧ n < 0xDC00))
    (hhi : ¬ (0xDC00 ≤ n ∧ n < 0xE000)) :
    unquoteBody (fuel + 1) (.rune '\\' :: .rune 'u' :: h1 :: h2 :: h3 :: h4 :: tail)
      = consUnit (Char.ofNat n) (unquoteBody fuel tail) := by
  simp only [unquoteBody, reduceCtorEq, if_false, if_true, hn, if_neg hlo, if_neg hhi]
  simp

theorem unquoteBody_plain (fuel : Nat) (r : Char) (tail : GoString)
    (h1 : r ≠ '"') (h2 : r ≠ '\\') (h3 : ¬ r.toNat < 0x20) :
    unquoteBody (fuel + 1) (.rune r :: tail) = consUnit r (unquoteBody fuel tail) := by
  simp [unquoteBody, h1, h2, h3]

theorem unquoteBody_quoteBody (s rest : GoString) :
    ∀ fuel, s.length < fuel →
      unquoteBody fuel (quoteBody false s ++ .rune '"' :: rest) = some (sanitize s, rest) := by
  induction s with
  | nil =>
    intro fuel hf
    cases fuel with
    | zero => omega
    | succ fuel => simp [quoteBody, unquoteBody, sanitize]
  | cons c s ih =>
    intro fuel hf
    cases fuel with
    | zero => omega
    | succ fuel =>
      have ih' := ih fuel (by simp at hf; omega)
      cases c with
      | invalid b =>
        show unquoteBody (fuel + 1) (.rune '\\' :: .rune 'u' :: .rune 'f' :: .rune 'f' ::
          .rune 'f' :: .rune 'd' :: (quoteBody false s ++ .rune '"' :: rest)) = _
        rw [unquoteBody_u fuel 0xFFFD _ _ _ _ _ (by decide) (by omega) (by omega), ih']
        rfl
      | rune r =>
        simp only [quoteBody, quoteChar]
        by_cases c1 : r = '"'
        · subst c1
          rw [if_pos rfl]
          show unquoteBody (fuel + 1) (.rune '\\' :: .rune '"' :: (quoteBody false s ++ .rune '"' :: rest)) = _
          rw [unquoteBody_escape fuel _ '"' _ (by decide) (by decide), ih']; rfl
        rw [if_neg c1]
        by_cases c2 : r = '\\'
        · subst c2
          rw [if_pos rfl]
          show unquoteBody (fuel + 1) (.rune '\\' :: .rune '\\' :: (quoteBody false s ++ .rune '"' :: rest)) = _
          rw [unquoteBody_escape fuel _ '\\' _ (by decide) (by decide), ih']; rfl
        rw [if_neg c2]
        by_cases c3 : r = '\n'
        · subst c3
          rw [if_pos rfl]
          show unquoteBody (fuel + 1) (.rune '\\' :: .rune 'n' :: (quoteBody false s ++ .rune '"' :: rest)) = _
          rw [unquoteBody_escape fuel _ '\n' _ (by decide) (by decide), ih']; rfl
        rw [if_neg c3]
        by_cases c4 : r = '\r'
        · subst c4
          rw [if_pos rfl]
          show unquoteBody (fuel + 1) (.rune '\\' :: .rune 'r' :: (quoteBody false s ++ .rune '"' :: rest)) = _
          rw [unquoteBody_escape fuel _ '\r' _ (by decide) (by decide), ih']; rfl
        rw [if_neg c4]
        by_cases c5 : r = '\t'
        · subst c5
          rw [if_pos rfl]
          show unquoteBody (fuel + 1) (.rune '\\' :: .rune 't' :: (quoteBody false s ++ .rune '"' :: rest)) = _
          rw [unquoteBody_escape fuel _ '\t' _ (by decide) (by decide), ih']; rfl
        rw [if_neg c5]
        by_cases c6 : r.toNat < 0x20
        · rw [if_pos (Or.inl c6)]
          show unquoteBody (fuel + 1) (.rune '\\' :: .rune 'u' :: .rune '0' :: .rune '0' ::
            .rune (hexDigit (r.toNat / 16)) :: .rune (hexDigit (r.toNat % 16)) :: (quoteBody false s ++ .rune '"' :: rest)) = _
          have hn : hex4 (.rune '0') (.rune '0') (.rune (hexDigit (r.toNat / 16)))
              (.rune (hexDigit (r.toNat % 16))) = some r.toNat := by
            have e0 : hexVal (.rune '0') = some 0 := by decide
            simp only [hex4, e0, hexVal_hexDigit (r.toNat / 16) (by omega),
              hexVal_hexDigit (r.toNat % 16) (by omega)]
            congr 1
            omega
          rw [unquoteBody_u fuel r.toNat _ _ _ _ _ hn (by omega) (by omega), ih',
            Char.ofNat_toNat]
          rfl
        have c6' : ¬ (r.toNat < 0x20 ∨ (false = true ∧ (r = '<' ∨ r = '>' ∨ r = '&'))) := by
          simp [c6]
        rw [if_neg c6']
        by_cases c7 : r = Char.ofNat 0x2028
        · subst c7
          rw [if_pos rfl]
          show unquoteBody (fuel + 1) (.rune '\\' :: .rune 'u' :: .rune '2' :: .rune '0' ::
            .rune '2' :: .rune '8' :: (quoteBody false s ++ .rune '"' :: rest)) = _
          rw [unquoteBody_u fuel 0x2028 _ _ _ _ _ (by decide) (by omega) (by omega), ih']
          rfl
        rw [if_neg c7]
        by_cases c8 : r = Char.ofNat 0x2029
        · subst c8
          rw [if_pos rfl]
          show unquoteBody (fuel + 1) (.rune '\\' :: .rune 'u' :: .rune '2' :: .rune '0' ::
            .rune '2' :: .rune '9' :: (quoteBody false s ++ .rune '"' :: rest)) = _
          rw [unquoteBody_u fuel 0x2029 _ _ _ _ _ (by decide) (by omega) (by omega), ih']
          rfl
        rw [if_neg c8]
        show unquoteBody (fuel + 1) (.rune r :: (quoteBody false s ++ .rune '"' :: rest)) = _
        rw [unquoteBody_plain fuel r _ c1 c2 c6, ih']
        rfl

theorem skipSpace_cons_of_not (c : GoChar) (cs : GoString) (h : isSpace c = false) :
    skipSpace (c :: cs) = c :: cs := by
  simp [skipSpace, h]

theorem skipSpace_idem (s : GoString) : skipSpace (skipSpace s) = skipSpace s := by
  induction s with
  | nil => rfl
  | cons c cs ih =>
    by_cases h : isSpace c = true
    · simp [skipSpace, h, ih]
    · simp [skipSpace, h]

theorem skipSpace_append_spaces (w s : GoString) (hw : ∀ c ∈ w, isSpace c = true) :
    skipSpace (w ++ s) = skipSpace s := by
  induction w with
  | nil => rfl
  | cons c cs ih =>
    have hc := hw c (List.mem_cons_self _ _)
    simp only [List.cons_append, skipSpace, hc, if_true]
    exact ih (fun x hx => hw x (List.mem_cons_of_mem _ hx))

theorem newline_spaces (d : Nat) : ∀ c ∈ newline [] (lit "  ") d, isSpace c = true := by
  induction d with
  | zero => intro c hc; simp [newline] at hc; subst hc; decide
  | succ d ih =>
    intro c hc
    simp only [newline, List.mem_append] at hc
    rcases hc with hc | hc
    · exact ih c hc
    · simp [lit] at hc
      subst hc; decide

theorem skipSpace_newline (d : Nat) (s : GoString) :
    skipSpace (newline [] (lit "  ") d ++ s) = skipSpace s :=
  skipSpace_append_spaces _ _ (newline_spaces d)

theorem parseValue_succ (fuel : Nat) (s : GoString) :
    parseValue (fuel + 1) s = parseValue (fuel + 1) (skipSpace s) := by
  rw [parseValue, parseValue, skipSpace_idem]

theorem parseValue_skip (fuel : Nat) (s : GoString) :
    parseValue fuel s = parseValue fuel (skipSpace s) := by
  cases fuel with
  | zero => rw [parseValue, parseValue]
  | succ fuel => exact parseValue_succ fuel s

theorem parseValue_newline (fuel d : Nat) (s : GoString) :
    parseValue fuel (newline [] (lit "  ") d ++ s) = parseValue fuel s := by
  rw [parseValue_skip, skipSpace_newline, ← parseValue_skip]

theorem parseItems_newline (fuel d : Nat) (s : GoString) :
    parseItems fuel (newline [] (lit "  ") d ++ s) = parseItems fuel s := by
  cases fuel with
  | zero => rw [parseItems, parseItems]
  | succ fuel => rw [parseItems, parseItems, parseValue_newline]

theorem parseMembers_newline (fuel d : Nat) (s : GoString) :
    parseMembers fuel (newline [] (lit "  ") d ++ s) = parseMembers fuel s := by
  cases fuel with
  | zero => rw [parseMembers, parseMembers]
  | succ fuel => rw [parseMembers, parseMembers, skipSpace_newline]

theorem after_append (p s : GoString) : after p (p ++ s) = some s := by
  induction p with
  | nil => cases s <;> rfl
  | cons c cs ih => simp [after, ih]

theorem quoteChar_length (c : GoChar) : 1 ≤ (quoteChar false c).length := by
  cases c with
  | invalid b => simp [quoteChar, lit]
  | rune r =>
    simp only [quoteChar]
    split_ifs <;> simp [lit]

theorem quoteBody_length (s : GoString) : s.length ≤ (quoteBody false s).length := by
  induction s with
  | nil => simp
  | cons c cs ih =>
    have := quoteChar_length c
    simp only [quoteBody, List.length_cons, List.length_append]
    omega

theorem unquote_quoteBody (s rest : GoString) :
    unquote (quoteBody false s ++ .rune '"' :: rest) = some (sanitize s, rest) := by
  unfold unquote
  apply unquoteBody_quoteBody s rest
  have := quoteBody_length s
  simp only [List.length_append, List.length_cons]
  omega

theorem takeWhile_number (text rest : GoString) (ht : ∀ c ∈ text, isNumberChar c = true)
    (hr : EndsNumber rest) :
    (text ++ rest).takeWhile isNumberChar = text
      ∧ (text ++ rest).dropWhile isNumberChar = rest := by
  induction text with
  | nil =>
    cases rest with
    | nil => simp
    | cons c cs =>
      have := hr c rfl
      simp [List.takeWhile, List.dropWhile, this]
  | cons c cs ih =>
    have hc := ht c (List.mem_cons_self _ _)
    have := ih (fun x hx => ht x (List.mem_cons_of_mem _ hx))
    simp [List.takeWhile, List.dropWhile, hc, this]


theorem isNumberChar_not_space (c : GoChar) (h : isNumberChar c = true) : isSpace c = false := by
  cases c with
  | invalid b => simp [isNumberChar] at h
  | rune r =>
    by_contra hs
    simp only [Bool.not_eq_false] at hs
    simp only [isSpace, decide_eq_true_eq, GoChar.rune.injEq] at hs
    rcases hs with hs | hs | hs | hs <;> subst hs <;> revert h <;> decide

theorem isNumberChar_ne (c : GoChar) (r : Char) (h : isNumberChar c = true)
    (hr : isNumberChar (.rune r) = false) : c ≠ .rune r := by
  intro hc
  subst hc
  rw [h] at hr
  cases hr

/-- The first character of the text of a value is not white space and not a
closing bracket or brace. -/
theorem render_head (v : JSON) (d : Nat) (hv : WellFormed v) :
    ∃ c cs, render false [] (lit "  ") d v = c :: cs ∧ isSpace c = false
      ∧ c ≠ .rune ']' ∧ c ≠ .rune '\x7d' := by
  cases v with
  | null => exact ⟨.rune 'n', lit "ull", rfl, by decide, by decide, by decide⟩
  | bool b =>
    cases b
    · exact ⟨.rune 'f', lit "alse", rfl, by decide, by decide, by decide⟩
    · exact ⟨.rune 't', lit "rue", rfl, by decide, by decide, by decide⟩
  | number text =>
    cases text with
    | nil => exact absurd rfl hv.1
    | cons c cs =>
      have hc := hv.2 c (List.mem_cons_self _ _)
      exact ⟨c, cs, rfl, isNumberChar_not_space c hc,
        isNumberChar_ne c _ hc (by decide), isNumberChar_ne c _ hc (by decide)⟩
  | string str => exact ⟨.rune '"', _, rfl, by decide, by decide, by decide⟩
  | array xs =>
    cases xs with
    | nil => exact ⟨.rune '[', lit "]", rfl, by decide, by decide, by decide⟩
    | cons x xs => exact ⟨.rune '[', _, by rw [render], by decide, by decide, by decide⟩
  | object ms =>
    cases ms with
    | nil => exact ⟨.rune '\x7b', [.rune '\x7d'], rfl, by decide, by decide, by decide⟩
    | cons m ms =>
      obtain ⟨k, v⟩ := m
      exact ⟨.rune '\x7b', _, by rw [render], by decide, by decide, by decide⟩

theorem parseValue_null (fuel : Nat) (rest : GoString) :
    parseValue (fuel + 1) (lit "null" ++ rest) = some (.null, rest) := by
  have h : lit "null" ++ rest = .rune 'n' :: (lit "ull" ++ rest) := rfl
  rw [parseValue, h, skipSpace_cons_of_not _ _ (by decide)]
  simp only [GoChar.rune.injEq, Char.reduceEq, if_false, reduceCtorEq]
  have h1 : after (lit "true") (.rune 'n' :: (lit "ull" ++ rest)) = none := by
    simp [after, lit]
  have h2 : after (lit "false") (.rune 'n' :: (lit "ull" ++ rest)) = none := by
    simp [after, lit]
  have h3 : after (lit "null") (.rune 'n' :: (lit "ull" ++ rest)) = some rest :=
    after_append (lit "null") rest
  simp only [h1, h2, h3]

theorem parseValue_true (fuel : Nat) (rest : GoString) :
    parseValue (fuel + 1) (lit "true" ++ rest) = some (.bool true, rest) := by
  have h : lit "true" ++ rest = .rune 't' :: (lit "rue" ++ rest) := rfl
  rw [parseValue, h, skipSpace_cons_of_not _ _ (by decide)]
  simp only [GoChar.rune.injEq, Char.reduceEq, if_false, reduceCtorEq]
  have h1 : after (lit "true") (.rune 't' :: (lit "rue" ++ rest)) = some rest :=
    after_append (lit "true") rest
  simp only [h1]

theorem parseValue_false (fuel : Nat) (rest : GoString) :
    parseValue (fuel + 1) (lit "false" ++ rest) = some (.bool false, rest) := by
  have h : lit "false" ++ rest = .rune 'f' :: (lit "alse" ++ rest) := rfl
  rw [parseValue, h, skipSpace_cons_of_not _ _ (by decide)]
  simp only [GoChar.rune.injEq, Char.reduceEq, if_false, reduceCtorEq]
  have h1 : after (lit "true") (.rune 'f' :: (lit "alse" ++ rest)) = none := by
    simp [after, lit]
  have h2 : after (lit "false") (.rune 'f' :: (lit "alse" ++ rest)) = some rest :=
    after_append (lit "false") rest
  simp only [h1, h2]

theorem parseValue_string (fuel : Nat) (str rest : GoString) :
    parseValue (fuel + 1) (quote false str ++ rest) = some (.string (sanitize str), rest) := by
  have h : quote false str ++ rest = .rune '"' :: (quoteBody false str ++ .rune '"' :: rest) := by
    simp [quote]
  rw [parseValue, h, skipSpace_cons_of_not _ _ (by decide)]
  simp only [GoChar.rune.injEq, Char.reduceEq, if_false, if_true, reduceCtorEq,
    unquote_quoteBody str rest]

theorem parseValue_number (fuel : Nat) (text rest : GoString) (h0 : text ≠ [])
    (ht : ∀ c ∈ text, isNumberChar c = true) (hr : EndsNumber rest) :
    parseValue (fuel + 1) (text ++ rest) = some (.number text, rest) := by
  obtain ⟨c, cs, rfl⟩ : ∃ c cs, text = c :: cs := by
    cases text with
    | nil => exact absurd rfl h0
    | cons c cs => exact ⟨c, cs, rfl⟩
  have hc := ht c (List.mem_cons_self _ _)
  have hT := takeWhile_number (c :: cs) rest ht hr
  rw [List.cons_append] at hT ⊢
  rw [parseValue, skipSpace_cons_of_not _ _ (isNumberChar_not_space c hc)]
  simp only [isNumberChar_ne c _ hc (by decide : isNumberChar (.rune '\x7b') = false),
    isNumberChar_ne c _ hc (by decide : isNumberChar (.rune '[') = false),
    isNumberChar_ne c _ hc (by decide : isNumberChar (.rune '"') = false), if_false]
  have h1 : after (lit "true") (c :: (cs ++ rest)) = none := by
    have := isNumberChar_ne c 't' hc (by decide)
    simp [after, lit, this.symm]
  have h2 : after (lit "false") (c :: (cs ++ rest)) = none := by
    have := isNumberChar_ne c 'f' hc (by decide)
    simp [after, lit, this.symm]
  have h3 : after (lit "null") (c :: (cs ++ rest)) = none := by
    have := isNumberChar_ne c 'n' hc (by decide)
    simp [after, lit, this.symm]
  simp only [h1, h2, h3, hT.1, hT.2]
  simp


theorem parseValue_emptyArray (fuel : Nat) (rest : GoString) :
    parseValue (fuel + 1) (lit "[]" ++ rest) = some (.array [], rest) := by
  have h : lit "[]" ++ rest = .rune '[' :: .rune ']' :: rest := rfl
  rw [parseValue, h, skipSpace_cons_of_not _ _ (by decide)]
  simp only [GoChar.rune.injEq, Char.reduceEq, if_false, if_true, reduceCtorEq]
  rw [skipSpace_cons_of_not _ _ (by decide)]
  simp

theorem parseValue_emptyObject (fuel : Nat) (rest : GoString) :
    parseValue (fuel + 1) (.rune '\x7b' :: .rune '\x7d' :: rest) = some (.object [], rest) := by
  rw [parseValue, skipSpace_cons_of_not _ _ (by decide)]
  simp only [GoChar.rune.injEq, Char.reduceEq, if_false, if_true, reduceCtorEq]
  rw [skipSpace_cons_of_not _ _ (by decide)]
  simp

theorem parseValue_array (fuel d : Nat) (c : GoChar) (cs : GoString)
    (hsp : isSpace c = false) (hc : c ≠ .rune ']') :
    parseValue (fuel + 1) (.rune '[' :: (newline [] (lit "  ") d ++ c :: cs))
      = match parseItems fuel (c :: cs) with
        | none => none
        | some (xs, rest) => some (.array xs, rest) := by
  rw [parseValue, skipSpace_cons_of_not _ _ (by decide)]
  simp only [GoChar.rune.injEq, Char.reduceEq, if_false, if_true, reduceCtorEq]
  rw [skipSpace_newline, skipSpace_cons_of_not _ _ hsp]
  simp only [if_neg hc]

theorem parseValue_object (fuel d : Nat) (c : GoChar) (cs : GoString)
    (hsp : isSpace c = false) (hc : c ≠ .rune '\x7d') :
    parseValue (fuel + 1) (.rune '\x7b' :: (newline [] (lit "  ") d ++ c :: cs))
      = match parseMembers fuel (c :: cs) with
        | none => none
        | some (ms, rest) => some (.object ms, rest) := by
  rw [parseValue, skipSpace_cons_of_not _ _ (by decide)]
  simp only [GoChar.rune.injEq, Char.reduceEq, if_false, if_true, reduceCtorEq]
  rw [skipSpace_newline, skipSpace_cons_of_not _ _ hsp]
  simp only [if_neg hc]

theorem parseItems_last (fuel d : Nat) (s rest : GoString) (x : JSON)
    (h : parseValue fuel s = some (x, newline [] (lit "  ") d ++ .rune ']' :: rest)) :
    parseItems (fuel + 1) s = some ([x], rest) := by
  rw [parseItems, h]
  simp only
  rw [skipSpace_newline, skipSpace_cons_of_not _ _ (by decide)]
  simp

theorem parseItems_more (fuel : Nat) (s s2 rest : GoString) (x : JSON) (xs : List JSON)
    (h : parseValue fuel s = some (x, .rune ',' :: s2))
    (h2 : parseItems fuel s2 = some (xs, rest)) :
    parseItems (fuel + 1) s = some (x :: xs, rest) := by
  rw [parseItems, h]
  simp only
  rw [skipSpace_cons_of_not _ _ (by decide)]
  simp [h2]

theorem parseMembers_last (fuel d : Nat) (k s rest : GoString) (v : JSON)
    (h : parseValue fuel s = some (v, newline [] (lit "  ") d ++ .rune '\x7d' :: rest)) :
    parseMembers (fuel + 1) (quote false k ++ (lit ": " ++ s))
      = some ([(sanitize k, v)], rest) := by
  have hq : quote false k ++ (lit ": " ++ s)
      = .rune '"' :: (quoteBody false k ++ .rune '"' :: (.rune ':' :: .rune ' ' :: s)) := by
    simp [quote, lit]
  rw [parseMembers, hq, skipSpace_cons_of_not _ _ (by decide)]
  simp only [if_true, unquote_quoteBody k _]
  rw [skipSpace_cons_of_not _ _ (by decide)]
  simp only [if_true]
  have hv : parseValue fuel (.rune ' ' :: s) = parseValue fuel s := by
    rw [parseValue_skip]
    conv_rhs => rw [parseValue_skip]
    simp [skipSpace, isSpace]
  rw [hv, h]
  simp only
  rw [skipSpace_newline, skipSpace_cons_of_not _ _ (by decide)]
  simp

theorem parseMembers_more (fuel : Nat) (k s s2 rest : GoString) (v : JSON)
    (ms : List (GoString × JSON))
    (h : parseValue fuel s = some (v, .rune ',' :: s2))
    (h2 : parseMembers fuel s2 = some (ms, rest)) :
    parseMembers (fuel + 1) (quote false k ++ (lit ": " ++ s))
      = some ((sanitize k, v) :: ms, rest) := by
  have hq : quote false k ++ (lit ": " ++ s)
      = .rune '"' :: (quoteBody false k ++ .rune '"' :: (.rune ':' :: .rune ' ' :: s)) := by
    simp [quote, lit]
  rw [parseMembers, hq, skipSpace_cons_of_not _ _ (by decide)]
  simp only [if_true, unquote_quoteBody k _]
  rw [skipSpace_cons_of_not _ _ (by decide)]
  simp only [if_true]
  have hv : parseValue fuel (.rune ' ' :: s) = parseValue fuel s := by
    rw [parseValue_skip]
    conv_rhs => rw [parseValue_skip]
    simp [skipSpace, isSpace]
  rw [hv, h]
  simp only
  rw [skipSpace_cons_of_not _ _ (by decide)]
  simp [h2]


theorem newline_head (d : Nat) :
    ∃ t, newline [] (lit "  ") d = .rune '\n' :: t := by
  induction d with
  | zero => exact ⟨[], rfl⟩
  | succ d ih =>
    obtain ⟨t, ht⟩ := ih
    exact ⟨t ++ lit "  ", by rw [newline, ht]; rfl⟩

theorem endsNumber_newline (d : Nat) (s : GoString) :
    EndsNumber (newline [] (lit "  ") d ++ s) := by
  obtain ⟨t, ht⟩ := newline_head d
  intro c hc
  rw [ht] at hc
  simp at hc
  subst hc
  decide

theorem endsNumber_comma (s : GoString) : EndsNumber (.rune ',' :: s) := by
  intro c hc
  simp at hc
  subst hc
  decide

theorem size_pos (v : JSON) : 1 ≤ size v := by
  cases v <;> simp [size]

/-- The parser reads the text the encoder writes for a well-formed value, given
fuel for its size, as the value with its strings sanitized: for values, for
the elements of an array and for the members of an object. -/
theorem parse_render_aux (n : Nat) :
    (∀ v d rest, size v ≤ n → WellFormed v → EndsNumber rest →
        parseValue n (render false [] (lit "  ") d v ++ rest) = some (sanitizeValue v, rest))
    ∧ (∀ x xs d e rest, sizeItems (x :: xs) ≤ n → WellFormedItems (x :: xs) →
        parseItems n (render false [] (lit "  ") d x ++ (renderItems false [] (lit "  ") d xs ++
          (newline [] (lit "  ") e ++ .rune ']' :: rest)))
          = some (sanitizeItems (x :: xs), rest))
    ∧ (∀ k v ms d e rest, sizeMembers ((k, v) :: ms) ≤ n → WellFormedMembers ((k, v) :: ms) →
        parseMembers n (quote false k ++ (lit ": " ++ (render false [] (lit "  ") d v ++
          (renderMembers false [] (lit "  ") d ms ++
            (newline [] (lit "  ") e ++ .rune '\x7d' :: rest)))))
          = some (sanitizeMembers ((k, v) :: ms), rest)) := by
  induction n with
  | zero =>
    refine ⟨?_, ?_, ?_⟩
    · intro v d rest hs
      have := size_pos v
      omega
    · intro x xs d e rest hs
      simp [sizeItems] at hs
    · intro k v ms d e rest hs
      simp [sizeMembers] at hs
  | succ n ih =>
    obtain ⟨ihV, ihI, ihM⟩ := ih
    refine ⟨?_, ?_, ?_⟩
    · intro v d rest hs hw hr
      cases v with
      | null => exact parseValue_null n rest
      | bool b =>
        cases b
        · exact parseValue_false n rest
        · exact parseValue_true n rest
      | number text => exact parseValue_number n text rest hw.1 hw.2 hr
      | string str => exact parseValue_string n str rest
      | array xs =>
        cases xs with
        | nil => exact parseValue_emptyArray n rest
        | cons x xs =>
          have hw' : WellFormedItems (x :: xs) := hw
          have hsz : sizeItems (x :: xs) ≤ n := by
            simp only [size] at hs
            omega
          have hI := ihI x xs (d + 1) d rest hsz hw'
          obtain ⟨c, cs, hc, hsp, hne, _⟩ := render_head x (d + 1) hw'.1
          have hE : render false [] (lit "  ") d (.array (x :: xs)) ++ rest
              = .rune '[' :: (newline [] (lit "  ") (d + 1) ++ c :: (cs ++
                (renderItems false [] (lit "  ") (d + 1) xs ++
                  (newline [] (lit "  ") d ++ .rune ']' :: rest)))) := by
            rw [render, hc]
            simp
          rw [hE, parseValue_array n (d + 1) c _ hsp hne]
          rw [hc] at hI
          simp only [List.cons_append] at hI
          rw [hI, sanitizeValue]
      | object ms =>
        cases ms with
        | nil => exact parseValue_emptyObject n rest
        | cons m ms =>
          obtain ⟨k, v⟩ := m
          have hw' : WellFormedMembers ((k, v) :: ms) := hw
          have hsz : sizeMembers ((k, v) :: ms) ≤ n := by
            simp only [size] at hs
            omega
          have hM := ihM k v ms (d + 1) d rest hsz hw'
          have hE : render false [] (lit "  ") d (.object ((k, v) :: ms)) ++ rest
              = .rune '\x7b' :: (newline [] (lit "  ") (d + 1) ++ .rune '"' ::
                ((quoteBody false k ++ [.rune '"']) ++ (lit ": " ++
                  (render false [] (lit "  ") (d + 1) v ++
                    (renderMembers false [] (lit "  ") (d + 1) ms ++
                      (newline [] (lit "  ") d ++ .rune '\x7d' :: rest)))))) := by
            rw [render]
            simp [quote]
          rw [hE, parseValue_object n (d + 1) _ _ (by decide) (by decide)]
          have hq : quote false k = .rune '"' :: (quoteBody false k ++ [.rune '"']) := rfl
          rw [hq] at hM
          simp only [List.cons_append] at hM
          rw [hM, sanitizeValue]
    · intro x xs d e rest hs hw
      have hsx : size x ≤ n := by
        simp only [sizeItems] at hs
        omega
      cases xs with
      | nil =>
        rw [sanitizeItems, sanitizeItems]
        apply parseItems_last n e
        have := ihV x d (newline [] (lit "  ") e ++ .rune ']' :: rest) hsx hw.1
          (endsNumber_newline e _)
        simpa [renderItems] using this
      | cons y ys =>
        have hsy : sizeItems (y :: ys) ≤ n := by
          simp only [sizeItems] at hs ⊢
          omega
        have hE : renderItems false [] (lit "  ") d (y :: ys) ++
            (newline [] (lit "  ") e ++ .rune ']' :: rest)
            = .rune ',' :: (newline [] (lit "  ") d ++ (render false [] (lit "  ") d y ++
              (renderItems false [] (lit "  ") d ys ++
                (newline [] (lit "  ") e ++ .rune ']' :: rest)))) := by
          rw [renderItems]
          simp
        rw [hE, sanitizeItems]
        apply parseItems_more n _ _ rest (sanitizeValue x) (sanitizeItems (y :: ys))
          (ihV x d _ hsx hw.1 (endsNumber_comma _))
        rw [parseItems_newline]
        exact ihI y ys d e rest hsy hw.2
    · intro k v ms d e rest hs hw
      have hsv : size v ≤ n := by
        simp only [sizeMembers] at hs
        omega
      cases ms with
      | nil =>
        rw [sanitizeMembers, sanitizeMembers]
        apply parseMembers_last n e k _ rest (sanitizeValue v)
        have := ihV v d (newline [] (lit "  ") e ++ .rune '\x7d' :: rest) hsv hw.1
          (endsNumber_newline e _)
        simpa [renderMembers] using this
      | cons m ms =>
        obtain ⟨k2, v2⟩ := m
        have hsm : sizeMembers ((k2, v2) :: ms) ≤ n := by
          simp only [sizeMembers] at hs ⊢
          omega
        have hE : renderMembers false [] (lit "  ") d ((k2, v2) :: ms) ++
            (newline [] (lit "  ") e ++ .rune '\x7d' :: rest)
            = .rune ',' :: (newline [] (lit "  ") d ++ (quote false k2 ++ (lit ": " ++
              (render false [] (lit "  ") d v2 ++
              (renderMembers false [] (lit "  ") d ms ++
                (newline [] (lit "  ") e ++ .rune '\x7d' :: rest)))))) := by
          rw [renderMembers]
          simp
        rw [hE, sanitizeMembers]
        apply parseMembers_more n k _ _ rest (sanitizeValue v) (sanitizeMembers ((k2, v2) :: ms))
          (ihV v d _ hsv hw.1 (endsNumber_comma _))
        rw [parseMembers_newline]
        exact ihM k2 v2 ms d e rest hsm hw.2

theorem digitVal_digitChar (n : Nat) (h : n < 10) : digitVal (.rune (digitChar n)) = some n := by
  interval_cases n <;> decide

theorem isNumberChar_digitChar (n : Nat) : isNumberChar (.rune (digitChar n)) = true := by
  unfold digitChar
  split <;> decide

theorem digitChar_ne_minus (n : Nat) : GoChar.rune (digitChar n) ≠ .rune '-' := by
  unfold digitChar
  split <;> decide

theorem parseDigits_append (a : GoString) (c : GoChar) :
    ∀ acc, parseDigits acc (a ++ [c]) =
      match parseDigits acc a with
      | none => none
      | some x =>
        match digitVal c with
        | none => none
        | some d => some (x * 10 + d) := by
  induction a with
  | nil =>
    intro acc
    simp only [List.nil_append, parseDigits]
  | cons b a ih =>
    intro acc
    simp only [List.cons_append, parseDigits]
    cases digitVal b with
    | none => rfl
    | some d => exact ih _

theorem parseDigits_natDigits (fuel : Nat) :
    ∀ n, n < fuel → parseDigits 0 (natDigits fuel n) = some n := by
  induction fuel with
  | zero => intro n h; omega
  | succ fuel ih =>
    intro n h
    rw [natDigits]
    by_cases h10 : n < 10
    · simp [h10, parseDigits, digitVal_digitChar n h10]
    · rw [if_neg h10, parseDigits_append, ih (n / 10) (by omega),
        digitVal_digitChar (n % 10) (by omega)]
      simp only [Option.some.injEq]
      omega

theorem natDigits_ne_nil (fuel n : Nat) : natDigits (fuel + 1) n ≠ [] := by
  rw [natDigits]
  split <;> simp

theorem natDigits_number (fuel : Nat) :
    ∀ n, ∀ c ∈ natDigits fuel n, isNumberChar c = true ∧ c ≠ .rune '-' := by
  induction fuel with
  | zero => intro n c hc; simp [natDigits] at hc
  | succ fuel ih =>
    intro n c hc
    rw [natDigits] at hc
    split at hc
    · simp at hc; subst hc; exact ⟨isNumberChar_digitChar n, digitChar_ne_minus n⟩
    · simp only [List.mem_append, List.mem_singleton] at hc
      rcases hc with hc | hc
      · exact ih _ c hc
      · subst hc; exact ⟨isNumberChar_digitChar _, digitChar_ne_minus _⟩

theorem parseNat_natDigits (fuel n : Nat) (h : n < fuel + 1) :
    parseNat (natDigits (fuel + 1) n) = some n := by
  rw [parseNat, if_neg (natDigits_ne_nil fuel n), parseDigits_natDigits _ _ h]

theorem parseInteger_formatInt (i : Int) : parseInteger (formatInt i) = some i := by
  cases i with
  | ofNat n =>
    simp only [formatInt]
    cases hd : natDigits (n + 1) n with
    | nil => exact absurd hd (natDigits_ne_nil n n)
    | cons c cs =>
      have hc : c ≠ .rune '-' := by
        have := natDigits_number (n + 1) n c (by rw [hd]; exact List.mem_cons_self _ _)
        exact this.2
      rw [parseInteger, if_neg hc, ← hd, parseNat_natDigits n n (by omega)]
      rfl
  | negSucc n =>
    simp only [formatInt, parseInteger, if_true]
    rw [parseNat_natDigits (n + 1) (n + 1) (by omega)]
    rfl

theorem parseInt_formatInt (i : Int) (h : InInt64 i) : parseInt (formatInt i) = some i := by
  rw [parseInt, parseInteger_formatInt]
  simp only
  rw [if_pos (show minInt64 ≤ i ∧ i ≤ maxInt64 from h)]

theorem formatInt_number (i : Int) :
    formatInt i ≠ [] ∧ ∀ c ∈ formatInt i, isNumberChar c = true := by
  cases i with
  | ofNat n =>
    exact ⟨natDigits_ne_nil n n, fun c hc => (natDigits_number _ _ c hc).1⟩
  | negSucc n =>
    refine ⟨by simp [formatInt], ?_⟩
    intro c hc
    simp only [formatInt, List.mem_cons] at hc
    rcases hc with hc | hc
    · subst hc; decide
    · exact (natDigits_number _ _ c hc).1

theorem sampleFloat_lawful : Float64.Lawful SampleFloat := by
  intro x text h
  cases x with
  | NaN => cases h
  | ofInt i =>
    have ht : formatInt i = text := by
      have : (some (formatInt i) : Option GoString) = some text := h
      exact Option.some.inj this
    subst ht
    refine ⟨(formatInt_number i).1, (formatInt_number i).2, ?_⟩
    show (match parseInteger (formatInt i) with
      | none => none
      | some i => some (SampleFloat.ofInt i)) = some (SampleFloat.ofInt i)
    rw [parseInteger_formatInt]

theorem newline_length (d : Nat) : 1 ≤ (newline [] (lit "  ") d).length := by
  obtain ⟨t, ht⟩ := newline_head d
  rw [ht]
  simp

/-- The size of a well-formed value is at most the length of its text. -/
theorem size_le_length_aux (n : Nat) :
    (∀ v d, size v ≤ n → WellFormed v → size v ≤ (render false [] (lit "  ") d v).length)
    ∧ (∀ xs d, sizeItems xs ≤ n → WellFormedItems xs →
        sizeItems xs ≤ (renderItems false [] (lit "  ") d xs).length)
    ∧ (∀ ms d, sizeMembers ms ≤ n → WellFormedMembers ms →
        sizeMembers ms ≤ (renderMembers false [] (lit "  ") d ms).length) := by
  induction n with
  | zero =>
    refine ⟨?_, ?_, ?_⟩
    · intro v d hs
      have := size_pos v
      omega
    · intro xs d hs _
      omega
    · intro ms d hs _
      omega
  | succ n ih =>
    obtain ⟨ihV, ihI, ihM⟩ := ih
    refine ⟨?_, ?_, ?_⟩
    · intro v d hs hw
      cases v with
      | null => simp [size, render, lit]
      | bool b => cases b <;> simp [size, render, lit]
      | number text =>
        have : text.length ≠ 0 := fun h => hw.1 (List.length_eq_zero.mp h)
        simp only [size, render]
        omega
      | string str => simp [size, render, quote]
      | array xs =>
        cases xs with
        | nil => simp [size, render, lit, sizeItems]
        | cons x xs =>
          have hw' : WellFormedItems (x :: xs) := hw
          simp only [size, sizeItems] at hs ⊢
          have h1 := ihV x (d + 1) (by omega) hw'.1
          have h2 := ihI xs (d + 1) (by omega) hw'.2
          rw [render]
          simp only [List.length_cons, List.length_append, List.length_nil]
          omega
      | object ms =>
        cases ms with
        | nil => simp [size, render, sizeMembers]
        | cons m ms =>
          obtain ⟨k, v⟩ := m
          have hw' : WellFormedMembers ((k, v) :: ms) := hw
          simp only [size, sizeMembers] at hs ⊢
          have h1 := ihV v (d + 1) (by omega) hw'.1
          have h2 := ihM ms (d + 1) (by omega) hw'.2
          rw [render]
          simp only [List.length_cons, List.length_append, List.length_nil]
          omega
    · intro xs d hs hw
      cases xs with
      | nil => simp [sizeItems]
      | cons x xs =>
        simp only [sizeItems] at hs ⊢
        have h1 := ihV x d (by omega) hw.1
        have h2 := ihI xs d (by omega) hw.2
        rw [renderItems]
        simp only [List.length_cons, List.length_append]
        omega
    · intro ms d hs hw
      cases ms with
      | nil => simp [sizeMembers]
      | cons m ms =>
        obtain ⟨k, v⟩ := m
        simp only [sizeMembers] at hs ⊢
        have h1 := ihV v d (by omega) hw.1
        have h2 := ihM ms d (by omega) hw.2
        rw [renderMembers]
        simp only [List.length_cons, List.length_append]
        omega

/-- The parser reads what the encoder of `saveInfo` writes for a well-formed
value as the value with its strings sanitized. -/
theorem parse_render (v : JSON) (hw : WellFormed v) :
    parse (render false [] (lit "  ") 0 v ++ [.rune '\n']) = some (sanitizeValue v) := by
  have hlen := (size_le_length_aux (size v)).1 v 0 (le_refl _) hw
  have hend : EndsNumber [GoChar.rune '\n'] := by
    intro c hc
    simp at hc
    subst hc
    decide
  have := (parse_render_aux ((render false [] (lit "  ") 0 v ++ [GoChar.rune '\n']).length + 1)).1
    v 0 [GoChar.rune '\n'] (by simp only [List.length_append]; omega) hw hend
  rw [parse, this]

theorem andThen_some {α β : Type} (a : α) (f : α → Option β) :
    andThen (some a) f = f a := rfl

theorem member_append (a b : List (GoString × JSON)) (key : GoString) :
    member (a ++ b) key = (member b key).or (member a key) := by
  induction a with
  | nil => simp [member]
  | cons m a ih =>
    obtain ⟨k, v⟩ := m
    rw [List.cons_append, member, ih, member]
    cases member b key <;> simp

theorem member_single (k : GoString) (v : JSON) (key : GoString) :
    member [(k, v)] key = if k = key then some v else none := by
  simp [member]

theorem member_field (k : String) (s key : GoString) :
    member (field k s) key = if lit k = key then some (.string s) else none :=
  member_single _ _ _

theorem member_fieldInt (k : String) (i : Int) (key : GoString) :
    member (fieldInt k i) key = if lit k = key then some (.number (formatInt i)) else none :=
  member_single _ _ _

theorem member_fieldBool (k : String) (b : Bool) (key : GoString) :
    member (fieldBool k b) key = if lit k = key then some (.bool b) else none :=
  member_single _ _ _

theorem member_fieldOmitEmpty (k : String) (s key : GoString) :
    member (fieldOmitEmpty k s) key
      = if s = [] then none else if lit k = key then some (.string s) else none := by
  unfold fieldOmitEmpty
  split
  · rfl
  · exact member_single _ _ _

theorem getString_present (ms : List (GoString × JSON)) (key : String) (s : GoString)
    (h : member ms (lit key) = some (.string s)) : getString ms key = some s := by
  simp [getString, h]

theorem getString_omitEmpty (ms : List (GoString × JSON)) (key : String) (s : GoString)
    (h : member ms (lit key) = if s = [] then none else some (.string s)) :
    getString ms key = some s := by
  by_cases hs : s = []
  · simp [getString, h, hs]
  · simp [getString, h, hs]

theorem getInt_present (ms : List (GoString × JSON)) (key : String) (i : Int) (hi : InInt64 i)
    (h : member ms (lit key) = some (.number (formatInt i))) : getInt ms key = some i := by
  simp [getInt, h, parseInt_formatInt i hi]

theorem getBool_present (ms : List (GoString × JSON)) (key : String) (b : Bool)
    (h : member ms (lit key) = some (.bool b)) : getBool ms key = some b := by
  simp [getBool, h]

theorem validUTF8_lit (k : String) : ValidUTF8 (lit k) := by
  intro c hc
  simp only [lit, List.mem_map] at hc
  obtain ⟨r, _, hr⟩ := hc
  exact ⟨r, hr.symm⟩

theorem sanitize_lit (k : String) : sanitize (lit k) = lit k := by
  unfold lit
  induction k.data with
  | nil => rfl
  | cons c cs ih => simp [sanitize, ih]

theorem sanitize_eq_nil (s : GoString) : sanitize s = [] ↔ s = [] := by
  cases s with
  | nil => simp [sanitize]
  | cons c cs => cases c <;> simp [sanitize]

theorem sanitize_valid (s : GoString) (h : ValidUTF8 s) : sanitize s = s := by
  induction s with
  | nil => rfl
  | cons c cs ih =>
    obtain ⟨r, rfl⟩ := h c (List.mem_cons_self _ _)
    rw [sanitize, ih (fun x hx => h x (List.mem_cons_of_mem _ hx))]

theorem sanitize_list_valid (l : List GoString) (h : ∀ s ∈ l, ValidUTF8 s) :
    l.map sanitize = l := by
  induction l with
  | nil => rfl
  | cons s l ih =>
    rw [List.map_cons, sanitize_valid s (h s (List.mem_cons_self _ _)),
      ih (fun x hx => h x (List.mem_cons_of_mem _ hx))]

theorem sanitizeMembers_append (a b : List (GoString × JSON)) :
    sanitizeMembers (a ++ b) = sanitizeMembers a ++ sanitizeMembers b := by
  induction a with
  | nil => rfl
  | cons m a ih =>
    obtain ⟨k, v⟩ := m
    rw [List.cons_append, sanitizeMembers, ih, sanitizeMembers, List.cons_append]

theorem sanitizeMembers_single (k : String) (v : JSON) :
    sanitizeMembers [(lit k, v)] = [(lit k, sanitizeValue v)] := by
  rw [sanitizeMembers, sanitizeMembers, sanitize_lit]

theorem sanitizeMembers_field (k : String) (s : GoString) :
    sanitizeMembers (field k s) = field k (sanitize s) := by
  rw [field, sanitizeMembers_single, sanitizeValue, field]

theorem sanitizeMembers_fieldOmitEmpty (k : String) (s : GoString) :
    sanitizeMembers (fieldOmitEmpty k s) = fieldOmitEmpty k (sanitize s) := by
  unfold fieldOmitEmpty
  by_cases h : s = []
  · rw [if_pos h, if_pos ((sanitize_eq_nil s).2 h), sanitizeMembers]
  · rw [if_neg h, if_neg (fun h2 => h ((sanitize_eq_nil s).1 h2)), sanitizeMembers_single,
      sanitizeValue]

theorem sanitizeMembers_fieldInt (k : String) (i : Int) :
    sanitizeMembers (fieldInt k i) = fieldInt k i := by
  rw [fieldInt, sanitizeMembers_single, sanitizeValue]

theorem sanitizeMembers_fieldBool (k : String) (b : Bool) :
    sanitizeMembers (fieldBool k b) = fieldBool k b := by
  rw [fieldBool, sanitizeMembers_single, sanitizeValue]

theorem sanitizeItems_strings (l : List GoString) :
    sanitizeItems (l.map .string) = (l.map sanitize).map .string := by
  induction l with
  | nil => rfl
  | cons x l ih => rw [List.map_cons, sanitizeItems, sanitizeValue, ih]; rfl

theorem sanitizeValue_strings (l : Option (List GoString)) :
    sanitizeValue (strings l) = strings (l.map fun x => x.map sanitize) := by
  cases l with
  | none => rw [strings, sanitizeValue]; rfl
  | some x => rw [strings, sanitizeValue, sanitizeItems_strings]; rfl

theorem sanitizeMembers_fieldStringsOmitEmpty (k : String) (l : Option (List GoString)) :
    sanitizeMembers (fieldStringsOmitEmpty k l)
      = fieldStringsOmitEmpty k (sanitizeOmitEmpty l) := by
  cases l with
  | none => rfl
  | some x =>
    cases x with
    | nil => rfl
    | cons y ys =>
      rw [fieldStringsOmitEmpty, sanitizeMembers_single, sanitizeValue, sanitizeItems_strings]
      rfl

theorem sanitizeOmitEmpty_ne (l : Option (List GoString)) : sanitizeOmitEmpty l ≠ some [] := by
  cases l with
  | none => simp [sanitizeOmitEmpty]
  | some x => cases x <;> simp [sanitizeOmitEmpty]

theorem sanitizeOmitEmpty_valid (l : Option (List GoString)) (hl : l ≠ some [])
    (h : ∀ x, l = some x → ∀ s ∈ x, ValidUTF8 s) : sanitizeOmitEmpty l = l := by
  cases l with
  | none => rfl
  | some x =>
    cases x with
    | nil => exact absurd rfl hl
    | cons y ys =>
      rw [sanitizeOmitEmpty, sanitize_list_valid _ (h _ rfl)]

theorem wf_append (a b : List (GoString × JSON)) (ha : WellFormedMembers a)
    (hb : WellFormedMembers b) : WellFormedMembers (a ++ b) := by
  induction a with
  | nil => exact hb
  | cons m a ih =>
    obtain ⟨k, v⟩ := m
    exact ⟨ha.1, ih ha.2⟩

theorem wf_single (k : String) (v : JSON) (hv : WellFormed v) :
    WellFormedMembers [(lit k, v)] :=
  ⟨hv, trivial⟩

theorem wf_field (k : String) (s : GoString) : WellFormedMembers (field k s) :=
  wf_single k _ trivial

theorem wf_fieldOmitEmpty (k : String) (s : GoString) :
    WellFormedMembers (fieldOmitEmpty k s) := by
  unfold fieldOmitEmpty
  split
  · trivial
  · exact wf_single k _ trivial

theorem wf_fieldInt (k : String) (i : Int) : WellFormedMembers (fieldInt k i) :=
  wf_single k _ (formatInt_number i)

theorem wf_fieldBool (k : String) (b : Bool) : WellFormedMembers (fieldBool k b) :=
  wf_single k _ trivial

theorem wf_stringItems (l : List GoString) : WellFormedItems (l.map .string) := by
  induction l with
  | nil => trivial
  | cons s l ih => exact ⟨trivial, ih⟩

theorem wf_strings (l : Option (List GoString)) : WellFormed (strings l) := by
  cases l with
  | none => trivial
  | some x => exact wf_stringItems x

theorem wf_fieldStringsOmitEmpty (k : String) (l : Option (List GoString)) :
    WellFormedMembers (fieldStringsOmitEmpty k l) := by
  cases l with
  | none => trivial
  | some x =>
    cases x with
    | nil => trivial
    | cons y ys => exact wf_single k _ (wf_stringItems (y :: ys))

theorem member_fieldStringsOmitEmpty (k : String) (l : Option (List GoString))
    (key : GoString) :
    member (fieldStringsOmitEmpty k l) key
      = if l = none ∨ l = some [] then none
        else if lit k = key then some (strings l) else none := by
  cases l with
  | none => simp [fieldStringsOmitEmpty, member]
  | some x =>
    cases x with
    | nil => simp [fieldStringsOmitEmpty, member]
    | cons y ys => simp [fieldStringsOmitEmpty, member, strings]

theorem stringItems_map (l : List GoString) : stringItems (l.map .string) = some l := by
  induction l with
  | nil => rfl
  | cons s l ih => simp [stringItems, ih, andThen_some]

theorem getStrings_present (ms : List (GoString × JSON)) (key : String)
    (l : Option (List GoString)) (h : member ms (lit key) = some (strings l)) :
    getStrings ms key = some l := by
  cases l with
  | none => simp [getStrings, h, strings]
  | some x => simp [getStrings, h, strings, stringItems_map]

theorem getStrings_omitEmpty (ms : List (GoString × JSON)) (key : String)
    (l : Option (List GoString)) (hl : l ≠ some [])
    (h : member ms (lit key) = if l = none ∨ l = some [] then none else some (strings l)) :
    getStrings ms key = some l := by
  cases l with
  | none => simp [getStrings, h]
  | some x =>
    have : ¬ ((some x : Option (List GoString)) = none ∨ some x = some []) := by
      simp only [reduceCtorEq, false_or]
      exact hl
    rw [if_neg this] at h
    simp [getStrings, h, strings, stringItems_map]

theorem getFloat_present {F : Type} [Float64 F] (hF : Float64.Lawful F)
    (ms : List (GoString × JSON)) (key : String) (x : F) (text : GoString)
    (hx : Float64.format x = some text)
    (h : member ms (lit key) = some (.number text)) : getFloat ms key = some x := by
  simp [getFloat, h, (hF x text hx).2.2]

theorem getStruct_present {α : Type} (zero : α) (decode : List (GoString × JSON) → Option α)
    (ms : List (GoString × JSON)) (key : String) (fields : List (GoString × JSON)) (x : α)
    (hx : decode fields = some x)
    (h : member ms (lit key) = some (.object fields)) :
    getStruct zero decode ms key = some x := by
  simp [getStruct, h, hx]

end json

/-! ## Properties of the `float64` conversions -/

namespace strconv

open json

theorem divRoundEven_eq (n den m : Nat) (hden : 0 < den)
    (hlo : 2 * (m * den) ≤ 2 * n + den) (hhi : 2 * n ≤ 2 * (m * den) + den)
    (hodd : m % 2 = 1 → 2 * (m * den) < 2 * n + den ∧ 2 * n < 2 * (m * den) + den) :
    divRoundEven n den = m := by
  by_cases hc : m * den ≤ n
  · have hq : n / den = m := by
      apply Nat.div_eq_of_lt_le hc
      rw [Nat.succ_mul]
      omega
    have hr : n % den = n - m * den := by
      have := Nat.div_add_mod n den
      rw [hq, Nat.mul_comm] at this
      omega
    unfold divRoundEven
    rw [hq, hr]
    by_cases h1 : 2 * (n - m * den) < den
    · rw [if_pos h1]
    · rw [if_neg h1]
      have h2 : ¬ den < 2 * (n - m * den) := by omega
      rw [if_neg h2]
      by_cases h3 : m % 2 = 0
      · rw [if_pos h3]
      · have := hodd (by omega)
        omega
  · obtain ⟨k, rfl⟩ : ∃ k, m = k + 1 := by
      cases m with
      | zero => simp at hc
      | succ k => exact ⟨k, rfl⟩
    have hk : (k + 1) * den = k * den + den := by ring
    rw [hk] at hc hlo hhi hodd
    have hq : n / den = k := by
      apply Nat.div_eq_of_lt_le
      · omega
      · show n < (k + 1) * den
        omega
    have hr : n % den = n - k * den := by
      have := Nat.div_add_mod n den
      rw [hq, Nat.mul_comm] at this
      omega
    unfold divRoundEven
    rw [hq, hr]
    by_cases h1 : 2 * (n - k * den) < den
    · omega
    · rw [if_neg h1]
      by_cases h2 : den < 2 * (n - k * den)
      · rw [if_pos h2]
      · rw [if_neg h2]
        by_cases h3 : k % 2 = 0
        · have := hodd (by omega)
          omega
        · rw [if_neg h3]

theorem leadingBit_spec : ∀ (fuel t : Nat), t ≤ fuel → t ≠ 0 →
    2 ^ leadingBit fuel t ≤ t ∧ t < 2 ^ (leadingBit fuel t + 1) := by
  intro fuel
  induction fuel with
  | zero => intro t h h0; omega
  | succ fuel ih =>
    intro t h h0
    rw [leadingBit]
    by_cases h2 : t < 2
    · rw [if_pos h2]
      simp only [Nat.pow_zero, Nat.zero_add, Nat.pow_one]
      omega
    · rw [if_neg h2]
      obtain ⟨h3, h4⟩ := ih (t / 2) (by omega) (by omega)
      rw [Nat.pow_succ, Nat.pow_succ]
      omega

theorem leadingBit_eq (t k : Nat) (h1 : 2 ^ k ≤ t) (h2 : t < 2 ^ (k + 1)) :
    leadingBit t t = k := by
  have h0 : t ≠ 0 := by
    have : 0 < 2 ^ k := Nat.pow_pos (by decide)
    omega
  obtain ⟨h3, h4⟩ := leadingBit_spec t t (Nat.le_refl _) h0
  have e1 := Nat.log_eq_of_pow_le_of_lt_pow h1 h2
  have e2 := Nat.log_eq_of_pow_le_of_lt_pow h3 h4
  omega

theorem round_eq (neg : Bool) (n d e m : Nat)
    (he : (if n / d < 2 ^ 52 then 0 else leadingBit (n / d) (n / d) - 52) = e)
    (hm : divRoundEven n (d * 2 ^ e) = m) (hm2 : m < 2 ^ 53) (he2 : e < 2046) :
    roundEven neg n d = some (pack neg m e) := by
  unfold roundEven pack
  simp only [he, hm, if_neg (Nat.ne_of_lt hm2)]
  by_cases h : m < 2 ^ 52
  · simp only [if_pos h]
  · simp only [if_neg h, if_neg (Nat.not_le.mpr he2)]

theorem round_carry (neg : Bool) (n d e : Nat)
    (he : (if n / d < 2 ^ 52 then 0 else leadingBit (n / d) (n / d) - 52) = e)
    (hm : divRoundEven n (d * 2 ^ e) = 2 ^ 53) (he2 : e + 1 < 2046) :
    roundEven neg n d = some (pack neg (2 ^ 52) (e + 1)) := by
  unfold roundEven pack
  simp only [he, hm, if_true, Nat.lt_irrefl, if_false, if_neg (Nat.not_le.mpr he2)]

theorem binade_eq (n d k : Nat) (hd : 0 < d) (h1 : 2 ^ 52 * (d * 2 ^ k) ≤ n)
    (h2 : n < 2 ^ 53 * (d * 2 ^ k)) :
    (if n / d < 2 ^ 52 then 0 else leadingBit (n / d) (n / d) - 52) = k := by
  have hlo : 2 ^ (52 + k) ≤ n / d := by
    rw [Nat.le_div_iff_mul_le hd, Nat.pow_add]
    calc 2 ^ 52 * 2 ^ k * d = 2 ^ 52 * (d * 2 ^ k) := by ring
      _ ≤ n := h1
  have hhi : n / d < 2 ^ (52 + k + 1) := by
    rw [Nat.div_lt_iff_lt_mul hd]
    calc n < 2 ^ 53 * (d * 2 ^ k) := h2
      _ = 2 ^ (52 + k + 1) * d := by
        rw [show 52 + k + 1 = 53 + k by omega, Nat.pow_add]; ring
  have h52 : 2 ^ 52 ≤ 2 ^ (52 + k) := Nat.pow_le_pow_right (by decide) (by omega)
  rw [if_neg (by omega), leadingBit_eq _ _ hlo hhi]
  omega

theorem round_core (neg : Bool) (n d m E : Nat) (hd : 0 < d) (hE : E ≤ 2045)
    (hm : m < 2 ^ 53) (hnorm : m < 2 ^ 52 → E = 0)
    (hup : 2 * n ≤ 2 * (m * (d * 2 ^ E)) + d * 2 ^ E)
    (hlow : if m = 2 ^ 52 ∧ E ≠ 0 then 4 * (m * (d * 2 ^ E)) ≤ 4 * n + d * 2 ^ E
      else 2 * (m * (d * 2 ^ E)) ≤ 2 * n + d * 2 ^ E)
    (hodd : m % 2 = 1 → 2 * (m * (d * 2 ^ E)) < 2 * n + d * 2 ^ E
      ∧ 2 * n < 2 * (m * (d * 2 ^ E)) + d * 2 ^ E) :
    roundEven neg n d = some (pack neg m E) := by
  have hU : 0 < d * 2 ^ E := Nat.mul_pos hd (Nat.pow_pos (by decide))
  generalize hUdef : d * 2 ^ E = U at hup hlow hodd hU
  have hA1 : m * U + U ≤ 2 ^ 53 * U := by
    have : (m + 1) * U ≤ 2 ^ 53 * U := Nat.mul_le_mul_right U hm
    calc m * U + U = (m + 1) * U := by ring
      _ ≤ _ := this
  by_cases hsub : m < 2 ^ 52
  · -- subnormal or zero
    have hE0 := hnorm hsub
    subst hE0
    have hUd : U = d := by rw [← hUdef]; simp
    subst hUd
    have hA2 : m * U + U ≤ 2 ^ 52 * U := by
      have : (m + 1) * U ≤ 2 ^ 52 * U := Nat.mul_le_mul_right U hsub
      calc m * U + U = (m + 1) * U := by ring
        _ ≤ _ := this
    have hne : ¬ (m = 2 ^ 52 ∧ 0 ≠ 0) := by simp
    rw [if_neg hne] at hlow
    have hbin : (if n / U < 2 ^ 52 then 0 else leadingBit (n / U) (n / U) - 52) = 0 := by
      rw [if_pos]
      rw [Nat.div_lt_iff_lt_mul hd]
      omega
    apply round_eq neg n U 0 m hbin _ hm (by omega)
    rw [hUdef]
    exact divRoundEven_eq n U m hU hlow hup hodd
  · have hA3 : 2 ^ 52 * U ≤ m * U := Nat.mul_le_mul_right U (Nat.le_of_not_lt hsub)
    by_cases hb : 2 ^ 52 * U ≤ n
    · -- the binade of x
      have hbin := binade_eq n d E hd (by rw [hUdef]; exact hb) (by rw [hUdef]; omega)
      apply round_eq neg n d E m hbin _ hm (by omega)
      rw [hUdef]
      apply divRoundEven_eq n U m hU _ hup hodd
      split at hlow <;> omega
    · -- below the power of two
      have hm52 : m = 2 ^ 52 := by
        by_contra hne
        rw [if_neg (fun h => hne h.1)] at hlow
        have : (2 ^ 52 + 1) * U ≤ m * U := Nat.mul_le_mul_right U (by omega)
        have h2 : (2 ^ 52 + 1) * U = 2 ^ 52 * U + U := by ring
        omega
      subst hm52
      cases E with
      | zero =>
        have hUd : U = d := by rw [← hUdef]; simp
        subst hUd
        have hne : ¬ (2 ^ 52 = 2 ^ 52 ∧ 0 ≠ 0) := by simp
        rw [if_neg hne] at hlow
        have hbin : (if n / U < 2 ^ 52 then 0 else leadingBit (n / U) (n / U) - 52) = 0 := by
          rw [if_pos]
          rw [Nat.div_lt_iff_lt_mul hd]
          omega
        apply round_eq neg n U 0 (2 ^ 52) hbin _ hm (by omega)
        rw [hUdef]
        exact divRoundEven_eq n U (2 ^ 52) hU hlow hup hodd
      | succ E' =>
        have hsp : (2 ^ 52 = 2 ^ 52 ∧ E' + 1 ≠ 0) := ⟨rfl, by omega⟩
        rw [if_pos hsp] at hlow
        have hU' : 0 < d * 2 ^ E' := Nat.mul_pos hd (Nat.pow_pos (by decide))
        have hUU : U = 2 * (d * 2 ^ E') := by rw [← hUdef, Nat.pow_succ]; ring
        generalize hVdef : d * 2 ^ E' = V at hU' hUU
        subst hUU
        have e1 : 2 ^ 52 * (2 * V) = 2 ^ 53 * V := by ring
        have e2 : 2 ^ 53 * (2 * V) = 2 ^ 54 * V := by ring
        rw [e1] at hlow hb hup hA3
        have hbin := binade_eq n d E' hd (by rw [hVdef]; omega) (by rw [hVdef]; omega)
        have hdiv : divRoundEven n (d * 2 ^ E') = 2 ^ 53 := by
          rw [hVdef]
          apply divRoundEven_eq n V (2 ^ 53) hU' (by omega) (by omega)
          intro h
          exact absurd h (by decide)
        exact round_carry neg n d E' hbin hdiv (by omega)

theorem mantissa_lt (x : Binary64) : x.mantissa < 2 ^ 53 := by
  have := x.fraction.isLt
  unfold Binary64.mantissa
  split <;> omega

theorem shift_le (x : Binary64) (hx : x.exponent.val ≠ 2047) : x.shift ≤ 2045 := by
  have := x.exponent.isLt
  unfold Binary64.shift
  omega

theorem shift_of_subnormal (x : Binary64) (h : x.mantissa < 2 ^ 52) : x.shift = 0 := by
  unfold Binary64.mantissa at h
  unfold Binary64.shift
  split at h
  · omega
  · omega

theorem pack_eq (x : Binary64) (hx : x.exponent.val ≠ 2047) :
    pack x.sign x.mantissa x.shift = x := by
  obtain ⟨s, ⟨ex, hex⟩, ⟨f, hf⟩⟩ := x
  simp only [Binary64.mantissa, Binary64.shift, pack] at hx ⊢
  by_cases h0 : ex = 0
  · subst h0
    simp only [if_true, if_pos hf, Nat.mod_eq_of_lt hf]
    rfl
  · have h1 : ¬ (2 ^ 52 + f < 2 ^ 52) := by omega
    have h2 : (ex - 1 + 1) % 2048 = ex := by omega
    have h3 : (2 ^ 52 + f - 2 ^ 52) % 2 ^ 52 = f := by
      rw [Nat.add_sub_cancel_left, Nat.mod_eq_of_lt hf]
    simp only [if_neg h0, if_neg h1, h2, h3]

theorem round_of_inInterval (x : Binary64) (n d : Nat) (hd : 0 < d)
    (hx : x.exponent.val ≠ 2047) (h : inInterval x n d = true) :
    roundEven x.sign n d = some x := by
  unfold inInterval at h
  simp only [Bool.and_eq_true] at h
  obtain ⟨hu, hl⟩ := h
  have key := round_core x.sign n d x.mantissa x.shift hd (shift_le x hx) (mantissa_lt x)
    (shift_of_subnormal x)
  rw [pack_eq x hx] at key
  apply key
  · split at hu
    · exact of_decide_eq_true hu
    · exact Nat.le_of_lt (of_decide_eq_true hu)
  · by_cases hs : x.mantissa = 2 ^ 52 ∧ x.shift ≠ 0
    · rw [if_pos hs] at hl ⊢
      exact of_decide_eq_true hl
    · rw [if_neg hs] at hl ⊢
      split at hl
      · exact of_decide_eq_true hl
      · exact Nat.le_of_lt (of_decide_eq_true hl)
  · intro hodd
    have hne : ¬ (x.mantissa % 2 = 0) := by omega
    have hs : ¬ (x.mantissa = 2 ^ 52 ∧ x.shift ≠ 0) := by
      intro h
      rw [h.1] at hodd
      exact absurd hodd (by decide)
    rw [if_neg hne] at hu
    rw [if_neg hs, if_neg hne] at hl
    exact ⟨of_decide_eq_true hl, of_decide_eq_true hu⟩

theorem toUnits_pos (c : Nat) (k : Int) : 0 < (toUnits c k).2 := by
  cases k with
  | ofNat j => exact Nat.one_pos
  | negSucc j => exact Nat.pow_pos (by decide)

theorem toUnits_fst_zero (k : Int) : (toUnits 0 k).1 = 0 := by
  cases k with
  | ofNat j => simp only [toUnits, Nat.zero_mul]
  | negSucc j => simp only [toUnits, Nat.zero_mul]

theorem shortest_inInterval : ∀ (fuel n : Nat) (x : Binary64) (p : Int) (r : Nat × Int),
    shortest fuel n x p = some r →
      inInterval x (toUnits r.1 r.2).1 (toUnits r.1 r.2).2 = true := by
  intro fuel
  induction fuel with
  | zero => intro n x p r h; simp [shortest] at h
  | succ fuel ih =>
    intro n x p r h
    rw [shortest] at h
    split at h
    · rename_i hboth
      simp only [Bool.and_eq_true] at hboth
      split at h
      · cases h; exact hboth.1
      · split at h
        · cases h; exact hboth.2
        · split at h
          · cases h; exact hboth.1
          · cases h; exact hboth.2
    · split at h
      · rename_i hd
        cases h; exact hd
      · split at h
        · rename_i hu
          cases h; exact hu
        · exact ih _ _ _ _ h

theorem inInterval_of_eq (x : Binary64) (n d : Nat) (hd : 0 < d)
    (h : n = x.mantissa * (d * 2 ^ x.shift)) : inInterval x n d = true := by
  have hU : 0 < d * 2 ^ x.shift := Nat.mul_pos hd (Nat.pow_pos (by decide))
  unfold inInterval
  simp only [Bool.and_eq_true]
  rw [← h]
  refine ⟨?_, ?_⟩
  · split
    · simp
    · simp only [decide_eq_true_eq]
      omega
  · split
    · simp
    · split
      · simp
      · simp only [decide_eq_true_eq]
        omega

theorem toUnits_neg (c j : Nat) (hj : 0 < j) :
    toUnits c (-(j : Int)) = (c * 2 ^ 1074, 10 ^ j) := by
  cases j with
  | zero => omega
  | succ j => rfl

theorem exactDecimal_inInterval (x : Binary64) :
    inInterval x (toUnits (exactDecimal x).1 (exactDecimal x).2).1 (toUnits (exactDecimal x).1 (exactDecimal x).2).2
      = true := by
  apply inInterval_of_eq _ _ _ (toUnits_pos _ _)
  unfold exactDecimal
  by_cases h : 1074 ≤ x.shift
  · rw [if_pos h]
    show x.mantissa * 2 ^ (x.shift - 1074) * 10 ^ 0 * 2 ^ 1074 = x.mantissa * (1 * 2 ^ x.shift)
    have : 2 ^ x.shift = 2 ^ (x.shift - 1074) * 2 ^ 1074 := by
      rw [← Nat.pow_add, Nat.sub_add_cancel h]
    rw [this]
    ring
  · rw [if_neg h]
    simp only
    rw [toUnits_neg _ _ (by omega)]
    simp only
    have h10 : (10 : Nat) ^ (1074 - x.shift) = 5 ^ (1074 - x.shift) * 2 ^ (1074 - x.shift) := by
      rw [← Nat.mul_pow]
    have h2 : (2 : Nat) ^ 1074 = 2 ^ (1074 - x.shift) * 2 ^ x.shift := by
      rw [← Nat.pow_add, Nat.sub_add_cancel (by omega)]
    rw [h10, h2]
    ring

theorem shortestDecimal_inInterval (x : Binary64) :
    inInterval x (toUnits (shortestDecimal x).1 (shortestDecimal x).2).1
      (toUnits (shortestDecimal x).1 (shortestDecimal x).2).2 = true := by
  unfold shortestDecimal
  by_cases h0 : x.mantissa = 0
  · rw [if_pos h0]
    apply inInterval_of_eq _ _ _ (toUnits_pos _ _)
    rw [h0, Nat.zero_mul]
    exact toUnits_fst_zero 0
  · rw [if_neg h0]
    cases hs : shortest 17 1 x (decimalPoint x.units (2 ^ 1074)) with
    | none => exact exactDecimal_inInterval x
    | some r => exact shortest_inInterval _ _ _ _ _ hs

theorem round_shortestDecimal (x : Binary64) (hx : x.exponent.val ≠ 2047) :
    roundEven x.sign (toUnits (shortestDecimal x).1 (shortestDecimal x).2).1
      (toUnits (shortestDecimal x).1 (shortestDecimal x).2).2 = some x :=
  round_of_inInterval x _ _ (toUnits_pos _ _) hx (shortestDecimal_inInterval x)

theorem isDigit_digitChar (n : Nat) : isDigit (.rune (digitChar n)) = true := by
  unfold digitChar
  split <;> decide

theorem natDigits_isDigit (fuel : Nat) :
    ∀ n, ∀ c ∈ natDigits fuel n, isDigit c = true := by
  induction fuel with
  | zero => intro n c hc; simp [natDigits] at hc
  | succ fuel ih =>
    intro n c hc
    rw [natDigits] at hc
    split at hc
    · simp at hc; subst hc; exact isDigit_digitChar n
    · simp only [List.mem_append, List.mem_singleton] at hc
      rcases hc with hc | hc
      · exact ih _ c hc
      · subst hc; exact isDigit_digitChar _

theorem digitsOf_isDigit (n : Nat) : ∀ c ∈ digitsOf n, isDigit c = true :=
  natDigits_isDigit _ _

theorem digitsOf_ne_nil (n : Nat) : digitsOf n ≠ [] := natDigits_ne_nil n n

theorem parseDigits_digitsOf (n : Nat) : parseDigits 0 (digitsOf n) = some n :=
  parseDigits_natDigits _ _ (Nat.lt_succ_self n)

theorem zeros_isDigit (j : Nat) : ∀ c ∈ zeros j, isDigit c = true := by
  intro c hc
  rw [zeros, List.mem_replicate] at hc
  rw [hc.2]
  decide

theorem isDigit_isNumberChar (c : GoChar) (h : isDigit c = true) : isNumberChar c = true := by
  cases c with
  | invalid b => simp [isDigit, digitVal] at h
  | rune r =>
    simp only [isDigit, digitVal] at h
    split at h
    · rename_i hr
      simp only [isNumberChar, decide_eq_true_eq]
      exact Or.inl hr
    · simp at h

theorem takeWhile_digits (a rest : GoString) (ha : ∀ c ∈ a, isDigit c = true)
    (hr : ∀ c, rest.head? = some c → isDigit c = false) :
    (a ++ rest).takeWhile isDigit = a ∧ (a ++ rest).dropWhile isDigit = rest := by
  induction a with
  | nil =>
    cases rest with
    | nil => simp
    | cons c cs =>
      have := hr c rfl
      simp [List.takeWhile, List.dropWhile, this]
  | cons c cs ih =>
    have hc := ha c (List.mem_cons_self _ _)
    have := ih (fun x hx => ha x (List.mem_cons_of_mem _ hx))
    simp [List.takeWhile, List.dropWhile, hc, this]

theorem parseDigits_app (a b : GoString) :
    ∀ acc, parseDigits acc (a ++ b) =
      match parseDigits acc a with
      | none => none
      | some x => parseDigits x b := by
  induction a with
  | nil => intro acc; rfl
  | cons c a ih =>
    intro acc
    simp only [List.cons_append, parseDigits]
    cases digitVal c with
    | none => rfl
    | some d => exact ih _

theorem parseDigits_zeros (j : Nat) : ∀ acc, parseDigits acc (zeros j) = some (acc * 10 ^ j) := by
  induction j with
  | zero => intro acc; simp [zeros, parseDigits]
  | succ j ih =>
    intro acc
    have hz : zeros (j + 1) = .rune '0' :: zeros j := rfl
    have hd : digitVal (.rune '0') = some 0 := by decide
    rw [hz, parseDigits, hd]
    simp only
    rw [ih, Nat.pow_succ]
    congr 1
    ring

theorem parseDigits_zero_cons (s : GoString) :
    parseDigits 0 (.rune '0' :: s) = parseDigits 0 s := by
  have hd : digitVal (.rune '0') = some 0 := by decide
  rw [parseDigits, hd]

theorem parseDigits_leading (j : Nat) (s : GoString) :
    parseDigits 0 (zeros j ++ s) = parseDigits 0 s := by
  rw [parseDigits_app, parseDigits_zeros]
  simp

theorem parseExponent_text (e : Int) :
    parseExponent (.rune 'e' :: exponentText e) = some e := by
  cases e with
  | ofNat n =>
    have h1 : parseNat (digitsOf n) = some n := parseNat_natDigits n n (Nat.lt_succ_self n)
    have h2 : parseNat (.rune '0' :: digitsOf n) = some n := by
      rw [parseNat, if_neg (by simp), parseDigits_zero_cons, parseDigits_digitsOf]
    have h3 : parseNat (if n < 10 then .rune '0' :: digitsOf n else digitsOf n) = some n := by
      split
      · exact h2
      · exact h1
    simp only [exponentText, parseExponent, true_or, if_true, reduceCtorEq, if_false,
      GoChar.rune.injEq, Char.reduceEq, h3]
    rfl
  | negSucc n =>
    have h1 : parseNat (digitsOf (n + 1)) = some (n + 1) :=
      parseNat_natDigits (n + 1) (n + 1) (Nat.lt_succ_self _)
    simp only [exponentText, parseExponent, true_or, if_true, h1]
    rfl

theorem parseExponent_nil : parseExponent [] = some 0 := rfl

theorem exponent_head (ex : GoString) (hex : ex = [] ∨ ∃ t, ex = .rune 'e' :: t) :
    ∀ c, ex.head? = some c → isDigit c = false := by
  intro c hc
  rcases hex with rfl | ⟨t, rfl⟩
  · simp at hc
  · simp at hc
    subst hc
    decide

theorem parseDecimal_nodot (ip ex : GoString) (D : Nat) (E : Int)
    (hip : ∀ c ∈ ip, isDigit c = true) (hne : ip ≠ [])
    (hex : ex = [] ∨ ∃ t, ex = .rune 'e' :: t)
    (hD : parseDigits 0 ip = some D) (hE : parseExponent ex = some E) :
    parseDecimal (ip ++ ex) = some (D, E) := by
  obtain ⟨h1, h2⟩ := takeWhile_digits ip ex hip (exponent_head ex hex)
  unfold parseDecimal
  simp only [h1, h2]
  rcases hex with rfl | ⟨t, rfl⟩
  · simp [hne, hD, hE]
  · simp [hne, hD, hE]

theorem parseDecimal_dot (ip fp ex : GoString) (D : Nat) (E : Int)
    (hip : ∀ c ∈ ip, isDigit c = true) (hfp : ∀ c ∈ fp, isDigit c = true)
    (hne : ip ≠ [])
    (hex : ex = [] ∨ ∃ t, ex = .rune 'e' :: t)
    (hD : parseDigits 0 (ip ++ fp) = some D) (hE : parseExponent ex = some E) :
    parseDecimal (ip ++ .rune '.' :: (fp ++ ex)) = some (D, E - (fp.length : Int)) := by
  obtain ⟨h1, h2⟩ := takeWhile_digits ip (.rune '.' :: (fp ++ ex)) hip (by
    intro c hc
    simp at hc
    subst hc
    decide)
  obtain ⟨h3, h4⟩ := takeWhile_digits fp ex hfp (exponent_head ex hex)
  unfold parseDecimal
  simp only [h1, h2, if_true, h3, h4, hD, hE]
  simp [hne]

theorem toUnits_scaled (c j : Nat) : toUnits (c * 10 ^ j) 0 = toUnits c (Int.ofNat j) := by
  show ((c * 10 ^ j) * 10 ^ 0 * 2 ^ 1074, 1) = (c * 10 ^ j * 2 ^ 1074, 1)
  rw [Nat.pow_zero, Nat.mul_one]

theorem parseDecimal_formatF (c : Nat) (k : Int) :
    ∃ c' k', parseDecimal (formatF c k) = some (c', k') ∧ toUnits c' k' = toUnits c k := by
  cases k with
  | ofNat j =>
    refine ⟨c * 10 ^ j, 0, ?_, toUnits_scaled c j⟩
    have := parseDecimal_nodot (digitsOf c ++ zeros j) [] (c * 10 ^ j) 0
      (by
        intro x hx
        rw [List.mem_append] at hx
        rcases hx with hx | hx
        · exact digitsOf_isDigit c x hx
        · exact zeros_isDigit j x hx)
      (by simp [digitsOf_ne_nil])
      (Or.inl rfl)
      (by rw [parseDigits_app, parseDigits_digitsOf]; exact parseDigits_zeros j c)
      parseExponent_nil
    rw [List.append_nil] at this
    exact this
  | negSucc j =>
    refine ⟨c, Int.negSucc j, ?_, rfl⟩
    unfold formatF
    simp only
    have hne := digitsOf_ne_nil c
    have hlen : 0 < (digitsOf c).length := List.length_pos.mpr hne
    by_cases h : j + 1 < (digitsOf c).length
    · rw [if_pos h]
      have := parseDecimal_dot ((digitsOf c).take ((digitsOf c).length - (j + 1)))
        ((digitsOf c).drop ((digitsOf c).length - (j + 1))) [] c 0
        (fun x hx => digitsOf_isDigit c x (List.mem_of_mem_take hx))
        (fun x hx => digitsOf_isDigit c x (List.mem_of_mem_drop hx))
        (by
          intro h0
          have := congrArg List.length h0
          simp only [List.length_take, List.length_nil] at this
          omega)
        (Or.inl rfl)
        (by rw [List.take_append_drop]; exact parseDigits_digitsOf c)
        parseExponent_nil
      rw [List.append_nil] at this
      rw [this]
      congr 2
      rw [List.length_drop, Int.negSucc_eq]
      omega
    · rw [if_neg h]
      have := parseDecimal_dot [.rune '0'] (zeros (j + 1 - (digitsOf c).length) ++ digitsOf c)
        [] c 0
        (by intro x hx; simp at hx; subst hx; decide)
        (by
          intro x hx
          rw [List.mem_append] at hx
          rcases hx with hx | hx
          · exact zeros_isDigit _ x hx
          · exact digitsOf_isDigit c x hx)
        (by simp)
        (Or.inl rfl)
        (by
          show parseDigits 0 (.rune '0' :: (zeros (j + 1 - (digitsOf c).length) ++ digitsOf c)) = _
          rw [parseDigits_zero_cons, parseDigits_leading, parseDigits_digitsOf])
        parseExponent_nil
      rw [List.append_nil] at this
      have e : [GoChar.rune '0'] ++ GoChar.rune '.' :: (zeros (j + 1 - (digitsOf c).length) ++ digitsOf c)
          = GoChar.rune '0' :: GoChar.rune '.' :: (zeros (j + 1 - (digitsOf c).length) ++ digitsOf c) := rfl
      rw [e] at this
      rw [this]
      congr 2
      rw [List.length_append, zeros, List.length_replicate, Int.negSucc_eq]
      omega

theorem parseDecimal_formatE (c : Nat) (k : Int) :
    parseDecimal (formatE c k) = some (c, k) := by
  unfold formatE
  have hdig := digitsOf_isDigit c
  have hval := parseDigits_digitsOf c
  cases hds : digitsOf c with
  | nil => exact absurd hds (digitsOf_ne_nil c)
  | cons d ds =>
    rw [hds] at hdig hval
    simp only
    by_cases h : ds = []
    · subst h
      have := parseDecimal_nodot [d] (.rune 'e' :: exponentText (k + ((([] : GoString).length : Nat) : Int)))
        c (k + ((([] : GoString).length : Nat) : Int)) hdig (by simp) (Or.inr ⟨_, rfl⟩) hval
        (parseExponent_text _)
      simp only [if_true, List.nil_append]
      rw [show d :: GoChar.rune 'e' :: exponentText (k + ((([] : GoString).length : Nat) : Int))
        = [d] ++ GoChar.rune 'e' :: exponentText (k + ((([] : GoString).length : Nat) : Int)) from rfl,
        this]
      simp
    · rw [if_neg h]
      have := parseDecimal_dot [d] ds (.rune 'e' :: exponentText (k + (ds.length : Int)))
        c (k + (ds.length : Int))
        (fun x hx => hdig x (by simp at hx; subst hx; exact List.mem_cons_self _ _))
        (fun x hx => hdig x (List.mem_cons_of_mem _ hx))
        (by simp) (Or.inr ⟨_, rfl⟩) hval (parseExponent_text _)
      rw [show d :: ((GoChar.rune '.' :: ds) ++ GoChar.rune 'e' :: exponentText (k + (ds.length : Int)))
        = [d] ++ GoChar.rune '.' :: (ds ++ GoChar.rune 'e' :: exponentText (k + (ds.length : Int))) from rfl,
        this]
      simp

theorem formatF_head (c : Nat) (k : Int) :
    ∃ d rest, formatF c k = d :: rest ∧ isDigit d = true := by
  have hdig := digitsOf_isDigit c
  cases hds : digitsOf c with
  | nil => exact absurd hds (digitsOf_ne_nil c)
  | cons d ds =>
    rw [hds] at hdig
    have hd := hdig d (List.mem_cons_self _ _)
    cases k with
    | ofNat j => exact ⟨d, ds ++ zeros j, by simp [formatF, hds], hd⟩
    | negSucc j =>
      unfold formatF
      simp only [hds]
      by_cases h : j + 1 < (d :: ds).length
      · rw [if_pos h]
        obtain ⟨a, ha⟩ : ∃ a, (d :: ds).length - (j + 1) = a + 1 :=
          ⟨(d :: ds).length - (j + 1) - 1, by omega⟩
        rw [ha]
        exact ⟨d, _, rfl, hd⟩
      · rw [if_neg h]
        exact ⟨_, _, rfl, by decide⟩

theorem formatE_head (c : Nat) (k : Int) :
    ∃ d rest, formatE c k = d :: rest ∧ isDigit d = true := by
  have hdig := digitsOf_isDigit c
  unfold formatE
  cases hds : digitsOf c with
  | nil => exact absurd hds (digitsOf_ne_nil c)
  | cons d ds =>
    rw [hds] at hdig
    exact ⟨d, _, rfl, hdig d (List.mem_cons_self _ _)⟩

theorem ParseFloat_signed (neg : Bool) (body : GoString) (c : Nat) (k : Int)
    (hb : ∃ d rest, body = d :: rest ∧ isDigit d = true)
    (hp : parseDecimal body = some (c, k)) :
    ParseFloat (if neg = true then .rune '-' :: body else body)
      = roundEven neg (toUnits c k).1 (toUnits c k).2 := by
  obtain ⟨d, rest, rfl, hd⟩ := hb
  cases neg with
  | true => simp [ParseFloat, hp]
  | false =>
    have h1 : d ≠ .rune '-' := by
      intro h; subst h; exact absurd hd (by decide)
    have h2 : d ≠ .rune '+' := by
      intro h; subst h; exact absurd hd (by decide)
    simp [ParseFloat, hp, h1, h2]

theorem ParseFloat_encodeFloat (x : Binary64) (text : GoString)
    (h : encodeFloat x = some text) : ParseFloat text = some x := by
  unfold encodeFloat at h
  by_cases hx : x.exponent.val = 2047
  · rw [if_pos hx] at h
    cases h
  · rw [if_neg hx] at h
    simp only [Option.some.injEq] at h
    subst h
    by_cases hm : x.magnitude ≠ 0 ∧ (x.magnitude < bits1em6 ∨ bits1e21 ≤ x.magnitude)
    · simp only [if_pos hm]
      rw [ParseFloat_signed x.sign _ _ _ (formatE_head _ _) (parseDecimal_formatE _ _)]
      exact round_shortestDecimal x hx
    · simp only [if_neg hm]
      obtain ⟨c', k', hp, hu⟩ :=
        parseDecimal_formatF (shortestDecimal x).1 (shortestDecimal x).2
      rw [ParseFloat_signed x.sign _ _ _ (formatF_head _ _) hp, hu]
      exact round_shortestDecimal x hx

theorem digitsOf_number (n : Nat) : ∀ c ∈ digitsOf n, isNumberChar c = true :=
  fun c hc => isDigit_isNumberChar c (digitsOf_isDigit n c hc)

theorem zeros_number (j : Nat) : ∀ c ∈ zeros j, isNumberChar c = true :=
  fun c hc => isDigit_isNumberChar c (zeros_isDigit j c hc)

theorem formatF_number (c : Nat) (k : Int) : ∀ x ∈ formatF c k, isNumberChar x = true := by
  intro x hx
  cases k with
  | ofNat j =>
    simp only [formatF, List.mem_append] at hx
    rcases hx with hx | hx
    · exact digitsOf_number c x hx
    · exact zeros_number j x hx
  | negSucc j =>
    unfold formatF at hx
    simp only at hx
    split at hx
    · simp only [List.mem_append, List.mem_cons] at hx
      rcases hx with hx | hx | hx
      · exact digitsOf_number c x (List.mem_of_mem_take hx)
      · subst hx; decide
      · exact digitsOf_number c x (List.mem_of_mem_drop hx)
    · simp only [List.mem_append, List.mem_cons] at hx
      rcases hx with hx | hx | hx | hx
      · subst hx; decide
      · subst hx; decide
      · exact zeros_number _ x hx
      · exact digitsOf_number c x hx

theorem exponentText_number (e : Int) : ∀ x ∈ exponentText e, isNumberChar x = true := by
  intro x hx
  cases e with
  | ofNat n =>
    simp only [exponentText, List.mem_cons] at hx
    rcases hx with hx | hx
    · subst hx; decide
    · split at hx
      · simp only [List.mem_cons] at hx
        rcases hx with hx | hx
        · subst hx; decide
        · exact digitsOf_number n x hx
      · exact digitsOf_number n x hx
  | negSucc n =>
    simp only [exponentText, List.mem_cons] at hx
    rcases hx with hx | hx
    · subst hx; decide
    · exact digitsOf_number _ x hx

theorem formatE_number (c : Nat) (k : Int) : ∀ x ∈ formatE c k, isNumberChar x = true := by
  intro x hx
  have hdig := digitsOf_number c
  unfold formatE at hx
  cases hds : digitsOf c with
  | nil => exact absurd hds (digitsOf_ne_nil c)
  | cons d ds =>
    rw [hds] at hdig hx
    simp only [List.mem_cons, List.mem_append] at hx
    rcases hx with hx | hx | hx | hx
    · subst hx; exact hdig _ (List.mem_cons_self _ _)
    · split at hx
      · simp at hx
      · simp only [List.mem_cons] at hx
        rcases hx with hx | hx
        · subst hx; decide
        · exact hdig x (List.mem_cons_of_mem _ hx)
    · subst hx; decide
    · exact exponentText_number _ x hx

theorem encodeFloat_number (x : Binary64) (text : GoString) (h : encodeFloat x = some text) :
    text ≠ [] ∧ ∀ c ∈ text, isNumberChar c = true := by
  unfold encodeFloat at h
  by_cases hx : x.exponent.val = 2047
  · rw [if_pos hx] at h
    cases h
  · rw [if_neg hx] at h
    simp only [Option.some.injEq] at h
    subst h
    have hbody : ∀ body : GoString, (∃ d rest, body = d :: rest ∧ isDigit d = true) →
        (∀ c ∈ body, isNumberChar c = true) →
        (if x.sign = true then GoChar.rune '-' :: body else body) ≠ []
          ∧ ∀ c ∈ (if x.sign = true then GoChar.rune '-' :: body else body),
              isNumberChar c = true := by
      intro body hb hn
      obtain ⟨d, rest, rfl, _⟩ := hb
      split
      · refine ⟨by simp, ?_⟩
        intro c hc
        rw [List.mem_cons] at hc
        rcases hc with hc | hc
        · subst hc; decide
        · exact hn c hc
      · exact ⟨by simp, hn⟩
    by_cases hm : x.magnitude ≠ 0 ∧ (x.magnitude < bits1em6 ∨ bits1e21 ≤ x.magnitude)
    · simp only [if_pos hm]
      exact hbody _ (formatE_head _ _) (formatE_number _ _)
    · simp only [if_neg hm]
      exact hbody _ (formatF_head _ _) (formatF_number _ _)

/-- The decoder reads the literal the encoder writes for a finite `float64` as
that value. -/
theorem binary64_lawful : Float64.Lawful Binary64 :=
  fun x text h =>
    ⟨(encodeFloat_number x text h).1, (encodeFloat_number x text h).2,
      ParseFloat_encodeFloat x text h⟩

end strconv

/-! ## Properties of report persistence -/

namespace report

open json

theorem member_cons (k : GoString) (v : JSON) (ms : List (GoString × JSON)) (key : GoString) :
    member ((k, v) :: ms) key = (member ms key).or (if k = key then some v else none) := by
  rw [member]
  cases member ms key <;> simp

theorem member_nil (key : GoString) : member [] key = none := rfl

theorem wf_members_command (p : Command) : WellFormedMembers p.members :=
  wf_append _ _ (wf_append _ _ (wf_field _ _) (wf_field _ _)) (wf_fieldOmitEmpty _ _)

theorem sanitize_members_command (p : Command) :
    sanitizeMembers p.members = p.readBack.members := by
  simp only [Command.members, Command.readBack, sanitizeMembers_append, sanitizeMembers_field,
    sanitizeMembers_fieldOmitEmpty]

theorem decode_members_command (p : Command) (rest : List (GoString × JSON))
    (hrest : member rest (lit "type") = none ∧ member rest (lit "state") = none
      ∧ member rest (lit "error") = none) :
    Command.decode (p.members ++ rest) = some { p with reportLocation := [] } := by
  have h1 : getString (p.members ++ rest) "type" = some p.Type_ :=
    getString_present _ _ _ (by
      simp +decide [Command.members, member_append, member_field, member_fieldOmitEmpty, hrest])
  have h2 : getString (p.members ++ rest) "state" = some p.State :=
    getString_present _ _ _ (by
      simp +decide [Command.members, member_append, member_field, member_fieldOmitEmpty, hrest])
  have h3 : getString (p.members ++ rest) "error" = some p.Error :=
    getString_omitEmpty _ _ _ (by
      simp +decide [Command.members, member_append, member_field, member_fieldOmitEmpty, hrest])
  simp [Command.decode, h1, h2, h3, andThen_some]

theorem wf_members_systemMetadata (p : SystemMetadata) : WellFormedMembers p.members :=
  wf_append _ _ (wf_append _ _ (wf_field _ _) (wf_field _ _)) (wf_field _ _)

theorem sanitize_members_systemMetadata (p : SystemMetadata) :
    sanitizeMembers p.members = p.readBack.members := by
  simp only [SystemMetadata.members, SystemMetadata.readBack, sanitizeMembers_append,
    sanitizeMembers_field]

theorem decode_members_systemMetadata (p : SystemMetadata) :
    SystemMetadata.decode p.members = some p := by
  have h1 : getString p.members "type" = some p.Type_ :=
    getString_present _ _ _ (by
      simp +decide [SystemMetadata.members, member_append, member_field])
  have h2 : getString p.members "release" = some p.Release :=
    getString_present _ _ _ (by
      simp +decide [SystemMetadata.members, member_append, member_field])
  have h3 : getString p.members "os" = some p.OS :=
    getString_present _ _ _ (by
      simp +decide [SystemMetadata.members, member_append, member_field])
  simp [SystemMetadata.decode, h1, h2, h3, andThen_some]

theorem wf_members_imageMetadata (p : ImageMetadata) : WellFormedMembers p.members :=
  (wf_append _ _ (wf_append _ _ (wf_append _ _ (wf_append _ _ (wf_append _ _ (wf_append _ _ (wf_append _ _ (wf_append _ _ (wf_append _ _ (wf_append _ _ (wf_field _ _) (wf_field _ _)) (wf_fieldInt _ _)) (wf_field _ _)) (wf_field _ _)) (wf_single _ _ (wf_strings _))) (wf_fieldOmitEmpty _ _)) (wf_field _ _)) (wf_field _ _)) (wf_fieldOmitEmpty _ _)) (wf_fieldStringsOmitEmpty _ _))

theorem sanitize_members_imageMetadata (p : ImageMetadata) :
    sanitizeMembers p.members = p.readBack.members := by
  simp only [ImageMetadata.members, ImageMetadata.readBack, sanitizeMembers_append,
    sanitizeMembers_field, sanitizeMembers_fieldInt, sanitizeMembers_fieldOmitEmpty,
    sanitizeMembers_fieldStringsOmitEmpty, sanitizeMembers_single, sanitizeValue_strings]

theorem decode_members_imageMetadata (p : ImageMetadata) (hv : p.Valid)
    (hp : p.ExposedPorts ≠ some []) :
    ImageMetadata.decode p.members = some p := by
  generalize hms : p.members = ms
  have h0 : getString ms "id" = some p.ID :=
    getString_present _ _ _ (by
      rw [← hms]
      simp +decide [ImageMetadata.members, member_append, member_field, member_fieldInt,
        member_fieldBool, member_fieldOmitEmpty, member_cons, member_nil,
        member_fieldStringsOmitEmpty, report.Command.members])
  have h1 : getString ms "name" = some p.Name :=
    getString_present _ _ _ (by
      rw [← hms]
      simp +decide [ImageMetadata.members, member_append, member_field, member_fieldInt,
        member_fieldBool, member_fieldOmitEmpty, member_cons, member_nil,
        member_fieldStringsOmitEmpty, report.Command.members])
  have h2 : getInt ms "size" = some p.Size :=
    getInt_present _ _ _ hv (by
      rw [← hms]
      simp +decide [ImageMetadata.members, member_append, member_field, member_fieldInt,
        member_fieldBool, member_fieldOmitEmpty, member_cons, member_nil,
        member_fieldStringsOmitEmpty, report.Command.members])
  have h3 : getString ms "size_human" = some p.SizeHuman :=
    getString_present _ _ _ (by
      rw [← hms]
      simp +decide [ImageMetadata.members, member_append, member_field, member_fieldInt,
        member_fieldBool, member_fieldOmitEmpty, member_cons, member_nil,
        member_fieldStringsOmitEmpty, report.Command.members])
  have h4 : getString ms "create_time" = some p.CreateTime :=
    getString_present _ _ _ (by
      rw [← hms]
      simp +decide [ImageMetadata.members, member_append, member_field, member_fieldInt,
        member_fieldBool, member_fieldOmitEmpty, member_cons, member_nil,
        member_fieldStringsOmitEmpty, report.Command.members])
  have h5 : getStrings ms "all_names" = some p.AllNames :=
    getStrings_present _ _ _ (by
      rw [← hms]
      simp +decide [ImageMetadata.members, member_append, member_field, member_fieldInt,
        member_fieldBool, member_fieldOmitEmpty, member_cons, member_nil,
        member_fieldStringsOmitEmpty, report.Command.members])
  have h6 : getString ms "Author" = some p.Author :=
    getString_omitEmpty _ _ _ (by
      rw [← hms]
      simp +decide [ImageMetadata.members, member_append, member_field, member_fieldInt,
        member_fieldBool, member_fieldOmitEmpty, member_cons, member_nil,
        member_fieldStringsOmitEmpty, report.Command.members])
  have h7 : getString ms "docker_version" = some p.DockerVersion :=
    getString_present _ _ _ (by
      rw [← hms]
      simp +decide [ImageMetadata.members, member_append, member_field, member_fieldInt,
        member_fieldBool, member_fieldOmitEmpty, member_cons, member_nil,
        member_fieldStringsOmitEmpty, report.Command.members])
  have h8 : getString ms "architecture" = some p.Architecture :=
    getString_present _ _ _ (by
      rw [← hms]
      simp +decide [ImageMetadata.members, member_append, member_field, member_fieldInt,
        member_fieldBool, member_fieldOmitEmpty, member_cons, member_nil,
        member_fieldStringsOmitEmpty, report.Command.members])
  have h9 : getString ms "user" = some p.User :=
    getString_omitEmpty _ _ _ (by
      rw [← hms]
      simp +decide [ImageMetadata.members, member_append, member_field, member_fieldInt,
        member_fieldBool, member_fieldOmitEmpty, member_cons, member_nil,
        member_fieldStringsOmitEmpty, report.Command.members])
  have h10 : getStrings ms "exposed_ports" = some p.ExposedPorts :=
    getStrings_omitEmpty _ _ _ hp (by
      rw [← hms]
      simp +decide [ImageMetadata.members, member_append, member_field, member_fieldInt,
        member_fieldBool, member_fieldOmitEmpty, member_cons, member_nil,
        member_fieldStringsOmitEmpty, report.Command.members])
  simp [ImageMetadata.decode, h0, h1, h2, h3, h4, h5, h6, h7, h8, h9, h10, andThen_some]

theorem pointerItems_elements {α : Type} [Marshaler α] [Unmarshaler α] :
    ∀ (l : List (Option α)), (∀ a, some a ∈ l → CodecAgrees a) →
      ∀ (js : List JSON), elements l = .ok js →
        WellFormedItems js ∧ pointerItems (sanitizeItems js) = some l := by
  intro l
  induction l with
  | nil =>
    intro _ js h
    simp only [elements, Except.ok.injEq] at h
    subst h
    exact ⟨trivial, rfl⟩
  | cons x l ih =>
    intro hA js h
    rw [elements] at h
    cases hp : pointer x with
    | error e => simp [hp] at h
    | ok j =>
      rw [hp] at h
      cases he : elements l with
      | error e => simp [he] at h
      | ok js' =>
        rw [he] at h
        simp only [Except.ok.injEq] at h
        subst h
        obtain ⟨hw, hd⟩ := ih (fun a ha => hA a (List.mem_cons_of_mem _ ha)) js' he
        cases x with
        | none =>
          simp only [pointer, Except.ok.injEq] at hp
          subst hp
          exact ⟨⟨trivial, hw⟩, by simp [sanitizeItems, sanitizeValue, pointerItems, hd, andThen_some]⟩
        | some a =>
          obtain ⟨h1, h2, h3⟩ := hA a (List.mem_cons_self _ _) j hp
          refine ⟨⟨h1, hw⟩, ?_⟩
          rw [sanitizeItems]
          cases j with
          | null => exact absurd rfl h2
          | bool b => simp only [sanitizeValue] at h3 ⊢; simp [pointerItems, hd, h3, andThen_some]
          | number t => simp only [sanitizeValue] at h3 ⊢; simp [pointerItems, hd, h3, andThen_some]
          | string t => simp only [sanitizeValue] at h3 ⊢; simp [pointerItems, hd, h3, andThen_some]
          | array t => simp only [sanitizeValue] at h3 ⊢; simp [pointerItems, hd, h3, andThen_some]
          | object t => simp only [sanitizeValue] at h3 ⊢; simp [pointerItems, hd, h3, andThen_some]

theorem getPointers_present {α : Type} [Marshaler α] [Unmarshaler α]
    (ms : List (GoString × JSON)) (key : String) (l : Option (List (Option α))) (j : JSON)
    (hA : ∀ x, l = some x → ∀ a, some a ∈ x → CodecAgrees a)
    (hj : pointers l = .ok j) (h : member ms (lit key) = some (sanitizeValue j)) :
    WellFormed j ∧ getPointers ms key = some l := by
  cases l with
  | none =>
    simp only [pointers, Except.ok.injEq] at hj
    subst hj
    rw [sanitizeValue] at h
    exact ⟨trivial, by simp [getPointers, h]⟩
  | some x =>
    rw [pointers] at hj
    cases he : elements x with
    | error e => simp [he] at hj
    | ok js =>
      rw [he] at hj
      simp only [Except.ok.injEq] at hj
      subst hj
      rw [sanitizeValue] at h
      obtain ⟨hw, hd⟩ := pointerItems_elements x (hA x rfl) js he
      exact ⟨hw, by simp [getPointers, h, hd]⟩

theorem wf_members_profileCommand {F : Type} (p : ProfileCommand F)
    (mb : List (GoString × JSON)) (hmb : WellFormedMembers mb) :
    WellFormedMembers (p.members mb) :=
  wf_append _ _ (wf_members_command _)
    (wf_append _ _ (wf_append _ _ (wf_append _ _ (wf_append _ _ (wf_append _ _ (wf_append _ _ (wf_append _ _ (wf_append _ _ (wf_append _ _ (wf_append _ _ (wf_append _ _ (wf_field _ _) (wf_fieldInt _ _)) (wf_field _ _)) (wf_fieldInt _ _)) (wf_field _ _)) (wf_field _ _)) (wf_fieldBool _ _)) hmb) (wf_field _ _)) (wf_field _ _)) (wf_field _ _)) (wf_field _ _))

theorem sanitize_members_profileCommand {F : Type} (p : ProfileCommand F) (mb : List (GoString × JSON)) :
    sanitizeMembers (p.members mb) = p.readBack.members (sanitizeMembers mb) := by
  simp only [ProfileCommand.members, ProfileCommand.readBack, sanitizeMembers_append, sanitizeMembers_field,
    sanitizeMembers_fieldInt, sanitizeMembers_fieldBool, sanitize_members_command]

theorem decode_members_profileCommand {F : Type} [Float64 F] (hF : Float64.Lawful F)
    (p : ProfileCommand F) (hv : p.Valid) (text : GoString)
    (ht : Float64.format p.MinifiedBy = some text) :
    ProfileCommand.decode (p.members [(lit "minified_by", .number text)])
      = some { p with Command := { p.Command with reportLocation := [] } } := by
  generalize hms : p.members [(lit "minified_by", .number text)] = ms
  have hc : report.Command.decode ms = some { p.Command with reportLocation := [] } := by
    rw [← hms]
    exact decode_members_command p.Command _ (by
      simp +decide [member_append, member_field, member_fieldInt, member_fieldBool,
        member_fieldOmitEmpty, member_cons, member_nil, report.Command.members])
  have h0 : getString ms "original_image" = some p.OriginalImage :=
    getString_present _ _ _ (by
      rw [← hms]
      simp +decide [ProfileCommand.members, member_append, member_field, member_fieldInt,
        member_fieldBool, member_fieldOmitEmpty, member_cons, member_nil,
        member_fieldStringsOmitEmpty, report.Command.members])
  have h1 : getInt ms "original_image_size" = some p.OriginalImageSize :=
    getInt_present _ _ _ hv.1 (by
      rw [← hms]
      simp +decide [ProfileCommand.members, member_append, member_field, member_fieldInt,
        member_fieldBool, member_fieldOmitEmpty, member_cons, member_nil,
        member_fieldStringsOmitEmpty, report.Command.members])
  have h2 : getString ms "original_image_size_human" = some p.OriginalImageSizeHuman :=
    getString_present _ _ _ (by
      rw [← hms]
      simp +decide [ProfileCommand.members, member_append, member_field, member_fieldInt,
        member_fieldBool, member_fieldOmitEmpty, member_cons, member_nil,
        member_fieldStringsOmitEmpty, report.Command.members])
  have h3 : getInt ms "minified_image_size" = some p.MinifiedImageSize :=
    getInt_present _ _ _ hv.2 (by
      rw [← hms]
      simp +decide [ProfileCommand.members, member_append, member_field, member_fieldInt,
        member_fieldBool, member_fieldOmitEmpty, member_cons, member_nil,
        member_fieldStringsOmitEmpty, report.Command.members])
  have h4 : getString ms "minified_image_size_human" = some p.MinifiedImageSizeHuman :=
    getString_present _ _ _ (by
      rw [← hms]
      simp +decide [ProfileCommand.members, member_append, member_field, member_fieldInt,
        member_fieldBool, member_fieldOmitEmpty, member_cons, member_nil,
        member_fieldStringsOmitEmpty, report.Command.members])
  have h5 : getString ms "minified_image" = some p.MinifiedImage :=
    getString_present _ _ _ (by
      rw [← hms]
      simp +decide [ProfileCommand.members, member_append, member_field, member_fieldInt,
        member_fieldBool, member_fieldOmitEmpty, member_cons, member_nil,
        member_fieldStringsOmitEmpty, report.Command.members])
  have h6 : getBool ms "minified_image_has_data" = some p.MinifiedImageHasData :=
    getBool_present _ _ _ (by
      rw [← hms]
      simp +decide [ProfileCommand.members, member_append, member_field, member_fieldInt,
        member_fieldBool, member_fieldOmitEmpty, member_cons, member_nil,
        member_fieldStringsOmitEmpty, report.Command.members])
  have h7 : getFloat ms "minified_by" = some p.MinifiedBy :=
    getFloat_present hF _ _ _ text ht (by
      rw [← hms]
      simp +decide [ProfileCommand.members, member_append, member_field, member_fieldInt,
        member_fieldBool, member_fieldOmitEmpty, member_cons, member_nil,
        member_fieldStringsOmitEmpty, report.Command.members])
  have h8 : getString ms "artifact_location" = some p.ArtifactLocation :=
    getString_present _ _ _ (by
      rw [← hms]
      simp +decide [ProfileCommand.members, member_append, member_field, member_fieldInt,
        member_fieldBool, member_fieldOmitEmpty, member_cons, member_nil,
        member_fieldStringsOmitEmpty, report.Command.members])
  have h9 : getString ms "container_report_name" = some p.ContainerReportName :=
    getString_present _ _ _ (by
      rw [← hms]
      simp +decide [ProfileCommand.members, member_append, member_field, member_fieldInt,
        member_fieldBool, member_fieldOmitEmpty, member_cons, member_nil,
        member_fieldStringsOmitEmpty, report.Command.members])
  have h10 : getString ms "seccomp_profile_name" = some p.SeccompProfileName :=
    getString_present _ _ _ (by
      rw [← hms]
      simp +decide [ProfileCommand.members, member_append, member_field, member_fieldInt,
        member_fieldBool, member_fieldOmitEmpty, member_cons, member_nil,
        member_fieldStringsOmitEmpty, report.Command.members])
  have h11 : getString ms "apparmor_profile_name" = some p.AppArmorProfileName :=
    getString_present _ _ _ (by
      rw [← hms]
      simp +decide [ProfileCommand.members, member_append, member_field, member_fieldInt,
        member_fieldBool, member_fieldOmitEmpty, member_cons, member_nil,
        member_fieldStringsOmitEmpty, report.Command.members])
  simp [ProfileCommand.decode, hc, h0, h1, h2, h3, h4, h5, h6, h7, h8, h9, h10, h11, andThen_some]

theorem wf_members_infoCommand {F : Type} (p : InfoCommand F)
    (mb : List (GoString × JSON)) (hmb : WellFormedMembers mb) :
    WellFormedMembers (p.members mb) :=
  wf_append _ _ (wf_members_command _)
    (wf_append _ _ (wf_append _ _ (wf_append _ _ (wf_append _ _ (wf_append _ _ (wf_append _ _ (wf_append _ _ (wf_append _ _ (wf_append _ _ (wf_append _ _ (wf_append _ _ (wf_field _ _) (wf_fieldInt _ _)) (wf_field _ _)) (wf_fieldInt _ _)) (wf_field _ _)) (wf_field _ _)) (wf_fieldBool _ _)) hmb) (wf_field _ _)) (wf_field _ _)) (wf_field _ _)) (wf_field _ _))

theorem sanitize_members_infoCommand {F : Type} (p : InfoCommand F) (mb : List (GoString × JSON)) :
    sanitizeMembers (p.members mb) = p.readBack.members (sanitizeMembers mb) := by
  simp only [InfoCommand.members, InfoCommand.readBack, sanitizeMembers_append, sanitizeMembers_field,
    sanitizeMembers_fieldInt, sanitizeMembers_fieldBool, sanitize_members_command]

theorem decode_members_infoCommand {F : Type} [Float64 F] (hF : Float64.Lawful F)
    (p : InfoCommand F) (hv : p.Valid) (text : GoString)
    (ht : Float64.format p.MinifiedBy = some text) :
    InfoCommand.decode (p.members [(lit "minified_by", .number text)])
      = some { p with Command := { p.Command with reportLocation := [] } } := by
  generalize hms : p.members [(lit "minified_by", .number text)] = ms
  have hc : report.Command.decode ms = some { p.Command with reportLocation := [] } := by
    rw [← hms]
    exact decode_members_command p.Command _ (by
      simp +decide [member_append, member_field, member_fieldInt, member_fieldBool,
        member_fieldOmitEmpty, member_cons, member_nil, report.Command.members])
  have h0 : getString ms "original_image" = some p.OriginalImage :=
    getString_present _ _ _ (by
      rw [← hms]
      simp +decide [InfoCommand.members, member_append, member_field, member_fieldInt,
        member_fieldBool, member_fieldOmitEmpty, member_cons, member_nil,
        member_fieldStringsOmitEmpty, report.Command.members])
  have h1 : getInt ms "original_image_size" = some p.OriginalImageSize :=
    getInt_present _ _ _ hv.1 (by
      rw [← hms]
      simp +decide [InfoCommand.members, member_append, member_field, member_fieldInt,
        member_fieldBool, member_fieldOmitEmpty, member_cons, member_nil,
        member_fieldStringsOmitEmpty, report.Command.members])
  have h2 : getString ms "original_image_size_human" = some p.OriginalImageSizeHuman :=
    getString_present _ _ _ (by
      rw [← hms]
      simp +decide [InfoCommand.members, member_append, member_field, member_fieldInt,
        member_fieldBool, member_fieldOmitEmpty, member_cons, member_nil,
        member_fieldStringsOmitEmpty, report.Command.members])
  have h3 : getInt ms "minified_image_size" = some p.MinifiedImageSize :=
    getInt_present _ _ _ hv.2 (by
      rw [← hms]
      simp +decide [InfoCommand.members, member_append, member_field, member_fieldInt,
        member_fieldBool, member_fieldOmitEmpty, member_cons, member_nil,
        member_fieldStringsOmitEmpty, report.Command.members])
  have h4 : getString ms "minified_image_size_human" = some p.MinifiedImageSizeHuman :=
    getString_present _ _ _ (by
      rw [← hms]
      simp +decide [InfoCommand.members, member_append, member_field, member_fieldInt,
        member_fieldBool, member_fieldOmitEmpty, member_cons, member_nil,
        member_fieldStringsOmitEmpty, report.Command.members])
  have h5 : getString ms "minified_image" = some p.MinifiedImage :=
    getString_present _ _ _ (by
      rw [← hms]
      simp +decide [InfoCommand.members, member_append, member_field, member_fieldInt,
        member_fieldBool, member_fieldOmitEmpty, member_cons, member_nil,
        member_fieldStringsOmitEmpty, report.Command.members])
  have h6 : getBool ms "minified_image_has_data" = some p.MinifiedImageHasData :=
    getBool_present _ _ _ (by
      rw [← hms]
      simp +decide [InfoCommand.members, member_append, member_field, member_fieldInt,
        member_fieldBool, member_fieldOmitEmpty, member_cons, member_nil,
        member_fieldStringsOmitEmpty, report.Command.members])
  have h7 : getFloat ms "minified_by" = some p.MinifiedBy :=
    getFloat_present hF _ _ _ text ht (by
      rw [← hms]
      simp +decide [InfoCommand.members, member_append, member_field, member_fieldInt,
        member_fieldBool, member_fieldOmitEmpty, member_cons, member_nil,
        member_fieldStringsOmitEmpty, report.Command.members])
  have h8 : getString ms "artifact_location" = some p.ArtifactLocation :=
    getString_present _ _ _ (by
      rw [← hms]
      simp +decide [InfoCommand.members, member_append, member_field, member_fieldInt,
        member_fieldBool, member_fieldOmitEmpty, member_cons, member_nil,
        member_fieldStringsOmitEmpty, report.Command.members])
  have h9 : getString ms "container_report_name" = some p.ContainerReportName :=
    getString_present _ _ _ (by
      rw [← hms]
      simp +decide [InfoCommand.members, member_append, member_field, member_fieldInt,
        member_fieldBool, member_fieldOmitEmpty, member_cons, member_nil,
        member_fieldStringsOmitEmpty, report.Command.members])
  have h10 : getString ms "seccomp_profile_name" = some p.SeccompProfileName :=
    getString_present _ _ _ (by
      rw [← hms]
      simp +decide [InfoCommand.members, member_append, member_field, member_fieldInt,
        member_fieldBool, member_fieldOmitEmpty, member_cons, member_nil,
        member_fieldStringsOmitEmpty, report.Command.members])
  have h11 : getString ms "apparmor_profile_name" = some p.AppArmorProfileName :=
    getString_present _ _ _ (by
      rw [← hms]
      simp +decide [InfoCommand.members, member_append, member_field, member_fieldInt,
        member_fieldBool, member_fieldOmitEmpty, member_cons, member_nil,
        member_fieldStringsOmitEmpty, report.Command.members])
  simp [InfoCommand.decode, hc, h0, h1, h2, h3, h4, h5, h6, h7, h8, h9, h10, h11, andThen_some]

theorem wf_members_buildCommand {F ImageInfo : Type} (p : BuildCommand F ImageInfo)
    (mb : List (GoString × JSON)) (hmb : WellFormedMembers mb) (imageStack : JSON)
    (hstack : WellFormed imageStack) :
    WellFormedMembers (p.members mb imageStack) :=
  wf_append _ _ (wf_members_command _)
    (wf_append _ _ (wf_append _ _ (wf_append _ _ (wf_append _ _ (wf_append _ _ (wf_append _ _ (wf_append _ _ (wf_append _ _ (wf_append _ _ (wf_append _ _ (wf_append _ _ (wf_append _ _ (wf_field _ _) (wf_single _ _ (wf_members_systemMetadata _))) (wf_single _ _ (wf_members_imageMetadata _))) (wf_fieldInt _ _)) (wf_field _ _)) (wf_field _ _)) (wf_fieldBool _ _)) hmb) (wf_field _ _)) (wf_field _ _)) (wf_field _ _)) (wf_field _ _)) (wf_single _ _ hstack))

theorem sanitize_members_buildCommand {F ImageInfo : Type} (p : BuildCommand F ImageInfo)
    (mb : List (GoString × JSON)) (imageStack : JSON) :
    sanitizeMembers (p.members mb imageStack)
      = p.readBack.members (sanitizeMembers mb) (sanitizeValue imageStack) := by
  have h1 : sanitizeValue (.object p.System.members) = .object p.System.readBack.members := by
    rw [sanitizeValue, sanitize_members_systemMetadata]
  have h2 : sanitizeValue (.object p.SourceImage.members)
      = .object p.SourceImage.readBack.members := by
    rw [sanitizeValue, sanitize_members_imageMetadata]
  simp only [BuildCommand.members, BuildCommand.readBack, sanitizeMembers_append,
    sanitizeMembers_field, sanitizeMembers_fieldInt, sanitizeMembers_fieldBool,
    sanitize_members_command, sanitizeMembers_single, h1, h2]

theorem decode_members_buildCommand {F ImageInfo : Type} [Float64 F] [Marshaler ImageInfo]
    [Unmarshaler ImageInfo] (hF : Float64.Lawful F)
    (p : BuildCommand F ImageInfo) (hv : p.Valid) (hp : p.SourceImage.ExposedPorts ≠ some [])
    (text : GoString)
    (ht : Float64.format p.MinifiedBy = some text) (imageStack : JSON)
    (hstack : pointers p.ImageStack = .ok imageStack) :
    BuildCommand.decode
        (p.members [(lit "minified_by", .number text)] (sanitizeValue imageStack))
      = some { p with Command := { p.Command with reportLocation := [] } } := by
  generalize hms : p.members [(lit "minified_by", .number text)] (sanitizeValue imageStack) = ms
  have hc : report.Command.decode ms = some { p.Command with reportLocation := [] } := by
    rw [← hms]
    exact decode_members_command p.Command _ (by
      simp +decide [member_append, member_field, member_fieldInt, member_fieldBool,
        member_fieldOmitEmpty, member_cons, member_nil, report.Command.members])
  have h0 : getString ms "image_reference" = some p.ImageReference :=
    getString_present _ _ _ (by
      rw [← hms]
      simp +decide [BuildCommand.members, member_append, member_field, member_fieldInt,
        member_fieldBool, member_fieldOmitEmpty, member_cons, member_nil,
        member_fieldStringsOmitEmpty, report.Command.members])
  have h1 : getStruct SystemMetadata.zero SystemMetadata.decode ms "system" = some p.System :=
    getStruct_present _ _ _ _ _ _ (decode_members_systemMetadata p.System) (by
      rw [← hms]
      simp +decide [BuildCommand.members, member_append, member_field, member_fieldInt,
        member_fieldBool, member_fieldOmitEmpty, member_cons, member_nil,
        member_fieldStringsOmitEmpty, report.Command.members])
  have h2 : getStruct ImageMetadata.zero ImageMetadata.decode ms "source_image"
      = some p.SourceImage :=
    getStruct_present _ _ _ _ _ _ (decode_members_imageMetadata p.SourceImage hv.1 hp) (by
      rw [← hms]
      simp +decide [BuildCommand.members, member_append, member_field, member_fieldInt,
        member_fieldBool, member_fieldOmitEmpty, member_cons, member_nil,
        member_fieldStringsOmitEmpty, report.Command.members])
  have h3 : getInt ms "minified_image_size" = some p.MinifiedImageSize :=
    getInt_present _ _ _ hv.2.1 (by
      rw [← hms]
      simp +decide [BuildCommand.members, member_append, member_field, member_fieldInt,
        member_fieldBool, member_fieldOmitEmpty, member_cons, member_nil,
        member_fieldStringsOmitEmpty, report.Command.members])
  have h4 : getString ms "minified_image_size_human" = some p.MinifiedImageSizeHuman :=
    getString_present _ _ _ (by
      rw [← hms]
      simp +decide [BuildCommand.members, member_append, member_field, member_fieldInt,
        member_fieldBool, member_fieldOmitEmpty, member_cons, member_nil,
        member_fieldStringsOmitEmpty, report.Command.members])
  have h5 : getString ms "minified_image" = some p.MinifiedImage :=
    getString_present _ _ _ (by
      rw [← hms]
      simp +decide [BuildCommand.members, member_append, member_field, member_fieldInt,
        member_fieldBool, member_fieldOmitEmpty, member_cons, member_nil,
        member_fieldStringsOmitEmpty, report.Command.members])
  have h6 : getBool ms "minified_image_has_data" = some p.MinifiedImageHasData :=
    getBool_present _ _ _ (by
      rw [← hms]
      simp +decide [BuildCommand.members, member_append, member_field, member_fieldInt,
        member_fieldBool, member_fieldOmitEmpty, member_cons, member_nil,
        member_fieldStringsOmitEmpty, report.Command.members])
  have h7 : getFloat ms "minified_by" = some p.MinifiedBy :=
    getFloat_present hF _ _ _ text ht (by
      rw [← hms]
      simp +decide [BuildCommand.members, member_append, member_field, member_fieldInt,
        member_fieldBool, member_fieldOmitEmpty, member_cons, member_nil,
        member_fieldStringsOmitEmpty, report.Command.members])
  have h8 : getString ms "artifact_location" = some p.ArtifactLocation :=
    getString_present _ _ _ (by
      rw [← hms]
      simp +decide [BuildCommand.members, member_append, member_field, member_fieldInt,
        member_fieldBool, member_fieldOmitEmpty, member_cons, member_nil,
        member_fieldStringsOmitEmpty, report.Command.members])
  have h9 : getString ms "container_report_name" = some p.ContainerReportName :=
    getString_present _ _ _ (by
      rw [← hms]
      simp +decide [BuildCommand.members, member_append, member_field, member_fieldInt,
        member_fieldBool, member_fieldOmitEmpty, member_cons, member_nil,
        member_fieldStringsOmitEmpty, report.Command.members])
  have h10 : getString ms "seccomp_profile_name" = some p.SeccompProfileName :=
    getString_present _ _ _ (by
      rw [← hms]
      simp +decide [BuildCommand.members, member_append, member_field, member_fieldInt,
        member_fieldBool, member_fieldOmitEmpty, member_cons, member_nil,
        member_fieldStringsOmitEmpty, report.Command.members])
  have h11 : getString ms "apparmor_profile_name" = some p.AppArmorProfileName :=
    getString_present _ _ _ (by
      rw [← hms]
      simp +decide [BuildCommand.members, member_append, member_field, member_fieldInt,
        member_fieldBool, member_fieldOmitEmpty, member_cons, member_nil,
        member_fieldStringsOmitEmpty, report.Command.members])
  have h12 : getPointers ms "image_stack" = some p.ImageStack :=
    (getPointers_present _ _ _ _ hv.2.2 hstack (by
      rw [← hms]
      simp +decide [BuildCommand.members, member_append, member_field, member_fieldInt,
        member_fieldBool, member_fieldOmitEmpty, member_cons, member_nil,
        member_fieldStringsOmitEmpty, report.Command.members])).2
  simp [BuildCommand.decode, hc, h0, h1, h2, h3, h4, h5, h6, h7, h8, h9, h10, h11, h12, andThen_some]

theorem decode_of_marshal {α : Type} [Marshaler α] [Unmarshaler α] (x : α) (j : JSON)
    (hj : Marshaler.MarshalJSON x = .ok j) (hw : WellFormed j) (data : GoString)
    (h : Encode false (lit "") (lit "  ") x = .ok data) :
    (json.Decode data : Option α) = Unmarshaler.UnmarshalJSON (sanitizeValue j) := by
  unfold Encode at h
  rw [hj] at h
  simp only [Except.ok.injEq] at h
  subst h
  unfold json.Decode
  have : lit "" = [] := rfl
  rw [this, parse_render j hw]

theorem roundtrip_command (p : Command) (data : GoString)
    (h : Encode false (lit "") (lit "  ") p = .ok data) :
    (json.Decode data : Option Command) = some p.readBack := by
  rw [decode_of_marshal p (.object p.members) rfl (wf_members_command p) data h]
  have := decode_members_command p.readBack [] ⟨rfl, rfl, rfl⟩
  rw [List.append_nil] at this
  rw [sanitizeValue, sanitize_members_command]
  exact this

theorem fieldFloat_ok {F : Type} [Float64 F] (hF : Float64.Lawful F) (key : String) (x : F)
    (mb : List (GoString × JSON)) (h : fieldFloat key x = .ok mb) :
    ∃ text, Float64.format x = some text ∧ mb = [(lit key, .number text)]
      ∧ WellFormedMembers mb := by
  unfold fieldFloat at h
  cases hf : Float64.format x with
  | none => simp [hf] at h
  | some text =>
    rw [hf] at h
    simp only [Except.ok.injEq] at h
    subst h
    exact ⟨text, rfl, rfl, wf_single key _ ⟨(hF x text hf).1, (hF x text hf).2.1⟩⟩

theorem roundtrip_profileCommand {F : Type} [Float64 F] (hF : Float64.Lawful F)
    (p : ProfileCommand F) (hv : p.Valid) (data : GoString)
    (h : Encode false (lit "") (lit "  ") p = .ok data) :
    (json.Decode data : Option (ProfileCommand F)) = some p.readBack := by
  have hdef : (Marshaler.MarshalJSON p : Except MarshalError JSON)
      = (match fieldFloat "minified_by" p.MinifiedBy with
        | .error e => .error e
        | .ok minifiedBy => .ok (.object (p.members minifiedBy))) := rfl
  cases hm : fieldFloat "minified_by" p.MinifiedBy with
  | error e =>
    rw [hm] at hdef
    simp [Encode, hdef] at h
  | ok mb =>
    rw [hm] at hdef
    obtain ⟨text, ht, rfl, hwf⟩ := fieldFloat_ok hF _ _ _ hm
    rw [decode_of_marshal p _ hdef (wf_members_profileCommand p _ hwf) data h, sanitizeValue,
      sanitize_members_profileCommand, sanitizeMembers_single, sanitizeValue]
    exact decode_members_profileCommand hF p.readBack hv text ht

theorem roundtrip_infoCommand {F : Type} [Float64 F] (hF : Float64.Lawful F)
    (p : InfoCommand F) (hv : p.Valid) (data : GoString)
    (h : Encode false (lit "") (lit "  ") p = .ok data) :
    (json.Decode data : Option (InfoCommand F)) = some p.readBack := by
  have hdef : (Marshaler.MarshalJSON p : Except MarshalError JSON)
      = (match fieldFloat "minified_by" p.MinifiedBy with
        | .error e => .error e
        | .ok minifiedBy => .ok (.object (p.members minifiedBy))) := rfl
  cases hm : fieldFloat "minified_by" p.MinifiedBy with
  | error e =>
    rw [hm] at hdef
    simp [Encode, hdef] at h
  | ok mb =>
    rw [hm] at hdef
    obtain ⟨text, ht, rfl, hwf⟩ := fieldFloat_ok hF _ _ _ hm
    rw [decode_of_marshal p _ hdef (wf_members_infoCommand p _ hwf) data h, sanitizeValue,
      sanitize_members_infoCommand, sanitizeMembers_single, sanitizeValue]
    exact decode_members_infoCommand hF p.readBack hv text ht

theorem roundtrip_buildCommand {F ImageInfo : Type} [Float64 F] [Marshaler ImageInfo]
    [Unmarshaler ImageInfo] (hF : Float64.Lawful F)
    (p : BuildCommand F ImageInfo) (hv : p.Valid) (data : GoString)
    (h : Encode false (lit "") (lit "  ") p = .ok data) :
    (json.Decode data : Option (BuildCommand F ImageInfo)) = some p.readBack := by
  have hdef : (Marshaler.MarshalJSON p : Except MarshalError JSON)
      = (match fieldFloat "minified_by" p.MinifiedBy with
        | .error e => .error e
        | .ok minifiedBy =>
          match pointers p.ImageStack with
          | .error e => .error e
          | .ok imageStack => .ok (.object (p.members minifiedBy imageStack))) := rfl
  cases hm : fieldFloat "minified_by" p.MinifiedBy with
  | error e =>
    rw [hm] at hdef
    simp [Encode, hdef] at h
  | ok mb =>
    rw [hm] at hdef
    obtain ⟨text, ht, rfl, hwf⟩ := fieldFloat_ok hF _ _ _ hm
    cases hs : pointers p.ImageStack with
    | error e =>
      rw [hs] at hdef
      simp [Encode, hdef] at h
    | ok imageStack =>
      rw [hs] at hdef
      have hws : WellFormed imageStack :=
        (getPointers_present [(lit "image_stack", sanitizeValue imageStack)] "image_stack" _ _
          hv.2.2 hs (by simp [member])).1
      rw [decode_of_marshal p _ hdef (wf_members_buildCommand p _ hwf _ hws) data h,
        sanitizeValue, sanitize_members_buildCommand, sanitizeMembers_single, sanitizeValue]
      exact decode_members_buildCommand hF p.readBack hv (sanitizeOmitEmpty_ne _) text ht
        imageStack hs

theorem readBack_command (p : Command) (h : p.Plain) :
    p.readBack = { p with reportLocation := [] } := by
  obtain ⟨h1, h2, h3⟩ := h
  simp only [Command.readBack, sanitize_valid _ h1, sanitize_valid _ h2, sanitize_valid _ h3]

theorem readBack_systemMetadata (p : SystemMetadata) (h : p.Plain) : p.readBack = p := by
  obtain ⟨h1, h2, h3⟩ := h
  simp only [SystemMetadata.readBack, sanitize_valid _ h1, sanitize_valid _ h2,
    sanitize_valid _ h3]

theorem readBack_imageMetadata (p : ImageMetadata) (h : p.Plain) : p.readBack = p := by
  obtain ⟨h1, h2, h3, h4, h5, h6, h7, h8, h9, h10, h11⟩ := h
  have hA : (p.AllNames.map fun l => l.map sanitize) = p.AllNames := by
    cases hl : p.AllNames with
    | none => rfl
    | some l => rw [Option.map_some', sanitize_list_valid l (h5 l hl)]
  simp only [ImageMetadata.readBack, sanitize_valid _ h1, sanitize_valid _ h2,
    sanitize_valid _ h3, sanitize_valid _ h4, sanitize_valid _ h6, sanitize_valid _ h7,
    sanitize_valid _ h8, sanitize_valid _ h9, hA, sanitizeOmitEmpty_valid _ h11 h10]

theorem readBack_buildCommand {F ImageInfo : Type} (p : BuildCommand F ImageInfo)
    (h : p.Plain) :
    p.readBack = { p with Command := { p.Command with reportLocation := [] } } := by
  obtain ⟨h1, h2, h3, h4, h5, h6, h7, h8, h9, h10⟩ := h
  simp only [BuildCommand.readBack, readBack_command _ h1, readBack_systemMetadata _ h3,
    readBack_imageMetadata _ h4, sanitize_valid _ h2, sanitize_valid _ h5, sanitize_valid _ h6,
    sanitize_valid _ h7, sanitize_valid _ h8, sanitize_valid _ h9, sanitize_valid _ h10]

theorem readBack_profileCommand {F : Type} (p : ProfileCommand F) (h : p.Plain) :
    p.readBack = { p with Command := { p.Command with reportLocation := [] } } := by
  obtain ⟨h1, h2, h3, h4, h5, h6, h7, h8, h9⟩ := h
  simp only [ProfileCommand.readBack, readBack_command _ h1, sanitize_valid _ h2,
    sanitize_valid _ h3, sanitize_valid _ h4, sanitize_valid _ h5, sanitize_valid _ h6,
    sanitize_valid _ h7, sanitize_valid _ h8, sanitize_valid _ h9]

theorem readBack_infoCommand {F : Type} (p : InfoCommand F) (h : p.Plain) :
    p.readBack = { p with Command := { p.Command with reportLocation := [] } } := by
  obtain ⟨h1, h2, h3, h4, h5, h6, h7, h8, h9⟩ := h
  simp only [InfoCommand.readBack, readBack_command _ h1, sanitize_valid _ h2,
    sanitize_valid _ h3, sanitize_valid _ h4, sanitize_valid _ h5, sanitize_valid _ h6,
    sanitize_valid _ h7, sanitize_valid _ h8, sanitize_valid _ h9]

theorem quoteBody_append (a b : GoString) :
    quoteBody false (a ++ b) = quoteBody false a ++ quoteBody false b := by
  induction a with
  | nil => rfl
  | cons c a ih => simp [quoteBody, ih]

section
variable {F ImageInfo : Type} [Float64 F] [Marshaler ImageInfo]

theorem saveInfo_empty {α : Type} [Marshaler α] (p : Command) (info : α) (w : World)
    (h : p.reportLocation = []) : saveInfo p info w = (.returned, p, w) := by
  simp [saveInfo, h]

theorem saveInfo_no_leaf {α : Type} [Marshaler α] (p : Command) (info : α) (w : World)
    (h : p.reportLocation ≠ []) (hb : filepath.Base p.reportLocation = lit ".") :
    saveInfo p info w = (.returned, p,
      w.Printf (lit "no build command report location: " ++ p.reportLocation ++ lit "\n")) := by
  simp [saveInfo, h, hb]

theorem ensureDir_calls (d : GoString) (w : World) (c : os.Call)
    (hc : c ∈ (ensureDir d w).2.calls) : c ∈ w.calls ∨ os.notWrite c := by
  unfold ensureDir at hc
  by_cases hd : d = lit "."
  · simp [hd] at hc; exact Or.inl hc
  · simp only [ne_eq, hd, not_false_eq_true, if_true, World.Stat, World.MkdirAll] at hc
    split at hc
    · simp only [List.mem_append, List.mem_singleton] at hc
      rcases hc with ((hc | hc) | hc) | hc
      · exact Or.inl hc
      · subst hc; exact Or.inr trivial
      · subst hc; exact Or.inr trivial
      · subst hc; exact Or.inr trivial
    · simp only [List.mem_append, List.mem_singleton] at hc
      rcases hc with hc | hc
      · exact Or.inl hc
      · subst hc; exact Or.inr trivial

theorem saveInfo_calls {α : Type} [Marshaler α] (p : Command) (info : α) (w : World) (c : os.Call)
    (hc : c ∈ (saveInfo p info w).2.2.calls) :
    c ∈ w.calls ∨ os.notWrite c ∨
      ∃ data, Encode false (lit "") (lit "  ") info = .ok data
        ∧ c = .writeFile p.reportLocation data 0o644 := by
  unfold saveInfo at hc
  by_cases hl : p.reportLocation = []
  · simp [hl] at hc; exact Or.inl hc
  · by_cases hb : filepath.Base p.reportLocation = lit "."
    · simp [hl, hb, World.Printf] at hc; exact Or.inl hc
    · simp only [ne_eq, hl, not_false_eq_true, if_true, hb, if_false] at hc
      have he := ensureDir_calls (filepath.Dir p.reportLocation) w c
      cases hE : ensureDir (filepath.Dir p.reportLocation) w with
      | mk e w1 =>
        rw [hE] at hc he
        cases e with
        | terminated =>
          simp only at hc
          rcases he hc with h | h
          · exact Or.inl h
          · exact Or.inr (Or.inl h)
        | returned =>
          simp only at hc
          cases hJ : Encode false (lit "") (lit "  ") info with
          | error e =>
            rw [hJ] at hc
            simp only at hc
            rcases he hc with h | h
            · exact Or.inl h
            · exact Or.inr (Or.inl h)
          | ok data =>
            rw [hJ] at hc
            simp only [World.WriteFile, List.mem_append, List.mem_singleton] at hc
            rcases hc with hc | hc
            · rcases he hc with h | h
              · exact Or.inl h
              · exact Or.inr (Or.inl h)
            · exact Or.inr (Or.inr ⟨data, rfl, hc⟩)
theorem serialize_withLocation (r : Report F ImageInfo) (loc : GoString) :
    (r.withLocation loc).serialize = r.serialize := by
  cases r <;> rfl

theorem report_save_calls (r : Report F ImageInfo) (w : World) (c : os.Call)
    (hc : c ∈ (r.Save w).2.2.calls) :
    c ∈ w.calls ∨ os.notWrite c ∨
      ∃ data, r.serialize = .ok data ∧ c = .writeFile r.base.reportLocation data 0o644 := by
  cases r with
  | command p => exact saveInfo_calls p p w c hc
  | build p => exact saveInfo_calls p.Command p w c hc
  | profile p => exact saveInfo_calls p.Command p w c hc
  | info p => exact saveInfo_calls p.Command p w c hc

/-- C4: for a report record whose report location is the empty string, `Save` is a
no-op: it returns (the run is not terminated), the record is as before, and the
state of the run is as before: no file-system call was made (no stat, no
directory creation, no write), the file system is unchanged and nothing was
written to standard output. -/
theorem save_empty_location (r : Report F ImageInfo) (w : World)
    (h : r.base.reportLocation = []) :
    r.Save w = (.returned, r, w) := by
  cases r with
  | command p => simp [Report.Save, Command.Save, saveInfo_empty p p w h]
  | build p => simp [Report.Save, BuildCommand.Save, saveInfo_empty p.Command p w h]
  | profile p => simp [Report.Save, ProfileCommand.Save, saveInfo_empty p.Command p w h]
  | info p => simp [Report.Save, InfoCommand.Save, saveInfo_empty p.Command p w h]

theorem save_empty_location_witness :
    (Report.build (NewBuildCommand [] : BuildCommand SampleFloat Empty)).Save
        { fs := { cwd := [], entries := [] }, calls := [], stdout := [] }
      = (.returned, Report.build (NewBuildCommand []),
          { fs := { cwd := [], entries := [] }, calls := [], stdout := [] }) :=
  save_empty_location _ _ rfl

/-- C5 (amended): for a report record whose report location is non-empty and whose
file-name component (`filepath.Base`) is ".", `Save` returns without
terminating the run; it writes exactly one message to standard output,
"no build command report location: " followed by the path and a line break;
the record is as before, no file-system call is made and the file system is
unchanged.  The message has one line break more than the path: it is exactly
one line if and only if the path has no line break. -/
theorem save_no_leaf_name (r : Report F ImageInfo) (w : World)
    (h : r.base.reportLocation ≠ []) (hb : filepath.Base r.base.reportLocation = lit ".") :
    r.Save w = (.returned, r,
      { fs := w.fs, calls := w.calls,
        stdout := w.stdout ++
          [lit "no build command report location: " ++ r.base.reportLocation ++ lit "\n"] })
      ∧ (lit "no build command report location: " ++ r.base.reportLocation ++ lit "\n").count
            (GoChar.rune '\n') = 1 + r.base.reportLocation.count (GoChar.rune '\n')
      ∧ ((lit "no build command report location: " ++ r.base.reportLocation ++ lit "\n").count
            (GoChar.rune '\n') = 1 ↔ GoChar.rune '\n' ∉ r.base.reportLocation) := by
  have h1 : (lit "no build command report location: ").count (GoChar.rune '\n') = 0 := by
    decide
  have h2 : (lit "\n").count (GoChar.rune '\n') = 1 := by decide
  have hc : (lit "no build command report location: " ++ r.base.reportLocation ++ lit "\n").count
      (GoChar.rune '\n') = 1 + r.base.reportLocation.count (GoChar.rune '\n') := by
    rw [List.count_append, List.count_append, h1, h2]
    omega
  refine ⟨?_, hc, ?_⟩
  · cases r with
    | command p =>
      simp [Report.Save, Command.Save, saveInfo_no_leaf p p w h hb, World.Printf, Report.base]
    | build p =>
      simp [Report.Save, BuildCommand.Save, saveInfo_no_leaf p.Command p w h hb, World.Printf,
        Report.base]
    | profile p =>
      simp [Report.Save, ProfileCommand.Save, saveInfo_no_leaf p.Command p w h hb,
        World.Printf, Report.base]
    | info p =>
      simp [Report.Save, InfoCommand.Save, saveInfo_no_leaf p.Command p w h hb, World.Printf,
        Report.base]
  · rw [hc, ← List.count_eq_zero]
    omega

theorem save_no_leaf_name_witness :
    (Report.profile (NewProfileCommand (lit "reports/.") : ProfileCommand SampleFloat)
        : Report SampleFloat Empty).Save
        { fs := { cwd := [], entries := [] }, calls := [], stdout := [] }
      = (.returned, Report.profile (NewProfileCommand (lit "reports/.")),
          { fs := { cwd := [], entries := [] }, calls := [],
            stdout := [lit "no build command report location: reports/.\n"] })
      ∧ (lit "no build command report location: reports/.\n").count (GoChar.rune '\n') = 1 :=
  have hw := save_no_leaf_name
    (Report.profile (NewProfileCommand (lit "reports/.") : ProfileCommand SampleFloat)
        : Report SampleFloat Empty)
    { fs := { cwd := [], entries := [] }, calls := [], stdout := [] } (by decide) (by decide)
  ⟨hw.1, hw.2.2.2 (by decide)⟩

/-- C5 (as stated, refuted): the report location "a\nb/." is non-empty and its
file-name component is "."; `Save` returns, makes no file-system call and
leaves the file system unchanged, but the diagnostic it writes,
"no build command report location: a\nb/.\n", has two line breaks: it is two
lines ("no build command report location: a" and "b/."), not one. -/
theorem save_no_leaf_name_two_lines :
    lineBreakReport.base.reportLocation = lit "a\nb/."
      ∧ lineBreakReport.base.reportLocation ≠ []
      ∧ filepath.Base lineBreakReport.base.reportLocation = lit "."
      ∧ lineBreakReport.Save sampleWorld
          = (.returned, lineBreakReport,
              { fs := sampleWorld.fs, calls := [],
                stdout := [lit "no build command report location: a\nb/.\n"] })
      ∧ (lit "no build command report location: a\nb/.\n").count (GoChar.rune '\n') = 2
      ∧ (lit "no build command report location: a\nb/.\n").splitOn (GoChar.rune '\n')
          = [lit "no build command report location: a", lit "b/.", []] := by
  decide

theorem ensureDir_creates (d : GoString) (w : World) (hd : d ≠ lit ".")
    (hmissing : os.IsNotExist (os.Stat w.fs d) = true)
    (hcreate : (os.MkdirAll w.fs d).2 = none) :
    ensureDir d w = (.returned,
      { fs := (os.MkdirAll w.fs d).1,
        calls := w.calls ++ [.stat d] ++ [.mkdirAll d 0o777] ++ [.stat d],
        stdout := w.stdout }) := by
  have hs := (os.MkdirAll_spec w.fs d hcreate).2
  simp [ensureDir, hd, World.Stat, World.MkdirAll, hmissing, hs, FailOn, Except.toOption]

theorem saveInfo_after_mkdir {α : Type} [Marshaler α] (p : Command) (info : α) (w : World)
    (hloc : p.reportLocation ≠ [])
    (hbase : filepath.Base p.reportLocation ≠ lit ".")
    (hdir : filepath.Dir p.reportLocation ≠ lit ".")
    (hmissing : os.IsNotExist (os.Stat w.fs (filepath.Dir p.reportLocation)) = true)
    (hcreate : (os.MkdirAll w.fs (filepath.Dir p.reportLocation)).2 = none) :
    saveInfo p info w =
      match Encode false (lit "") (lit "  ") info with
      | .error _ => (.terminated, p,
          { fs := (os.MkdirAll w.fs (filepath.Dir p.reportLocation)).1,
            calls := w.calls ++ [.stat (filepath.Dir p.reportLocation)]
              ++ [.mkdirAll (filepath.Dir p.reportLocation) 0o777]
              ++ [.stat (filepath.Dir p.reportLocation)],
            stdout := w.stdout })
      | .ok data =>
        (FailOn (os.WriteFile (os.MkdirAll w.fs (filepath.Dir p.reportLocation)).1
                  p.reportLocation data).2.isSome, p,
          { fs := (os.WriteFile (os.MkdirAll w.fs (filepath.Dir p.reportLocation)).1
                    p.reportLocation data).1,
            calls := w.calls ++ [.stat (filepath.Dir p.reportLocation)]
              ++ [.mkdirAll (filepath.Dir p.reportLocation) 0o777]
              ++ [.stat (filepath.Dir p.reportLocation)]
              ++ [.writeFile p.reportLocation data 0o644],
            stdout := w.stdout }) := by
  cases hE : Encode false (lit "") (lit "  ") info with
  | error e =>
    simp [saveInfo, hloc, hbase, ensureDir_creates _ w hdir hmissing hcreate, hE, FailOn]
  | ok data =>
    simp [saveInfo, hloc, hbase, ensureDir_creates _ w hdir hmissing hcreate, hE,
      World.WriteFile]

theorem report_save_after_mkdir (r : Report F ImageInfo) (w : World)
    (hloc : r.base.reportLocation ≠ [])
    (hbase : filepath.Base r.base.reportLocation ≠ lit ".")
    (hdir : filepath.Dir r.base.reportLocation ≠ lit ".")
    (hmissing : os.IsNotExist (os.Stat w.fs (filepath.Dir r.base.reportLocation)) = true)
    (hcreate : (os.MkdirAll w.fs (filepath.Dir r.base.reportLocation)).2 = none) :
    r.Save w =
      match r.serialize with
      | .error _ => (.terminated, r,
          { fs := (os.MkdirAll w.fs (filepath.Dir r.base.reportLocation)).1,
            calls := w.calls ++ [.stat (filepath.Dir r.base.reportLocation)]
              ++ [.mkdirAll (filepath.Dir r.base.reportLocation) 0o777]
              ++ [.stat (filepath.Dir r.base.reportLocation)],
            stdout := w.stdout })
      | .ok data =>
        (FailOn (os.WriteFile (os.MkdirAll w.fs (filepath.Dir r.base.reportLocation)).1
                  r.base.reportLocation data).2.isSome, r,
          { fs := (os.WriteFile (os.MkdirAll w.fs (filepath.Dir r.base.reportLocation)).1
                    r.base.reportLocation data).1,
            calls := w.calls ++ [.stat (filepath.Dir r.base.reportLocation)]
              ++ [.mkdirAll (filepath.Dir r.base.reportLocation) 0o777]
              ++ [.stat (filepath.Dir r.base.reportLocation)]
              ++ [.writeFile r.base.reportLocation data 0o644],
            stdout := w.stdout }) := by
  cases r with
  | command p =>
    have h := saveInfo_after_mkdir p p w hloc hbase hdir hmissing hcreate
    simp only [Report.Save, Command.Save, Report.base, Report.serialize, h]
    cases Encode false (lit "") (lit "  ") p <;> rfl
  | build p =>
    have h := saveInfo_after_mkdir p.Command p w hloc hbase hdir hmissing hcreate
    simp only [Report.Save, BuildCommand.Save, Report.base, Report.serialize, h]
    cases Encode false (lit "") (lit "  ") p <;> rfl
  | profile p =>
    have h := saveInfo_after_mkdir p.Command p w hloc hbase hdir hmissing hcreate
    simp only [Report.Save, ProfileCommand.Save, Report.base, Report.serialize, h]
    cases Encode false (lit "") (lit "  ") p <;> rfl
  | info p =>
    have h := saveInfo_after_mkdir p.Command p w hloc hbase hdir hmissing hcreate
    simp only [Report.Save, InfoCommand.Save, Report.base, Report.serialize, h]
    cases Encode false (lit "") (lit "  ") p <;> rfl

/-- C1 (amended): for a report record whose report location is non-empty, has a
file-name component other than ".", and whose directory component is not "."
and does not exist but can be created: after `Save` the directory component
and every ancestor directory of it exist, and

* if serialization succeeds and the write of the file succeeds, `Save`
  returns with the record unchanged, the file at the report location holding
  exactly the JSON serialization of the record (of the variant, when it is
  one), and nothing written to standard output;
* if serialization fails or the write fails, the run is terminated. -/
theorem save_creates_and_writes (r : Report F ImageInfo) (w : World)
    (hloc : r.base.reportLocation ≠ [])
    (hbase : filepath.Base r.base.reportLocation ≠ lit ".")
    (hdir : filepath.Dir r.base.reportLocation ≠ lit ".")
    (hmissing : os.IsNotExist (os.Stat w.fs (filepath.Dir r.base.reportLocation)) = true)
    (hcreate : (os.MkdirAll w.fs (filepath.Dir r.base.reportLocation)).2 = none) :
    (os.Stat (r.Save w).2.2.fs (filepath.Dir r.base.reportLocation) = .ok ⟨true⟩
        ∧ ∀ d rest, filepath.Dir r.base.reportLocation = d ++ filepath.Separator :: rest →
            d ≠ [] → os.Stat (r.Save w).2.2.fs d = .ok ⟨true⟩)
      ∧ (∀ data, r.serialize = .ok data →
        (os.WriteFile (os.MkdirAll w.fs (filepath.Dir r.base.reportLocation)).1
          r.base.reportLocation data).2 = none →
        (r.Save w).1 = .returned
        ∧ (r.Save w).2.1 = r
        ∧ os.ReadFile (r.Save w).2.2.fs r.base.reportLocation = .ok data
        ∧ (r.Save w).2.2.stdout = w.stdout)
      ∧ ((∀ data, r.serialize = .ok data →
            (os.WriteFile (os.MkdirAll w.fs (filepath.Dir r.base.reportLocation)).1
              r.base.reportLocation data).2 ≠ none) →
          (r.Save w).1 = .terminated) := by
  have hS := report_save_after_mkdir r w hloc hbase hdir hmissing hcreate
  have hM := os.MkdirAll_spec w.fs _ hcreate
  have hdirOk : os.Stat (r.Save w).2.2.fs (filepath.Dir r.base.reportLocation)
      = .ok ⟨true⟩ := by
    rw [hS]
    cases hE : r.serialize with
    | error e => exact hM.2
    | ok data => exact os.Stat_mono (os.WriteFile_extends _ _ _) _ hM.2
  refine ⟨⟨hdirOk, ?_⟩, ?_, ?_⟩
  · intro d rest hd hne
    have h2 : os.Stat (r.Save w).2.2.fs (d ++ filepath.Separator :: rest) = .ok ⟨true⟩ := by
      rw [← hd]; exact hdirOk
    exact os.Stat_ancestor _ d rest _ hne h2
  · intro data hdata hwrite
    rw [hdata] at hS
    simp only [hwrite, Option.isSome_none, FailOn, Bool.false_eq_true, if_false] at hS
    have hW := os.WriteFile_spec _ _ _ hwrite
    rw [hS]
    exact ⟨rfl, rfl, hW.2, rfl⟩
  · intro hfail
    cases hE : r.serialize with
    | error e => rw [hE] at hS; rw [hS]
    | ok data =>
      rw [hE] at hS
      have := hfail data hE
      rw [hS]
      cases hw : (os.WriteFile (os.MkdirAll w.fs (filepath.Dir r.base.reportLocation)).1
              r.base.reportLocation data).2 with
      | none => exact absurd hw this
      | some e => simp [FailOn, hw]

set_option maxRecDepth 100000 in
theorem save_creates_and_writes_witness :
    (sampleInfoReport.Save sampleWorld).1 = .returned
      ∧ os.ReadFile (sampleInfoReport.Save sampleWorld).2.2.fs (lit "out/reports/info.json")
          = .ok sampleInfoJSON
      ∧ os.Stat (sampleInfoReport.Save sampleWorld).2.2.fs (lit "out/reports") = .ok ⟨true⟩
      ∧ os.Stat (sampleInfoReport.Save sampleWorld).2.2.fs (lit "out") = .ok ⟨true⟩ :=
  have h := save_creates_and_writes sampleInfoReport sampleWorld
    (by decide) (by decide) (by decide) (by decide) (by decide)
  have hw := h.2.1 sampleInfoJSON (by decide) (by decide)
  ⟨hw.1, hw.2.2.1, h.1.1, h.1.2 (lit "out") (lit "reports") (by decide) (by decide)⟩

set_option maxRecDepth 100000 in
/-- C1 (as stated, refuted): the report location "a/b/" is non-empty, its file-name
component is "b", its directory component "a/b" does not exist and is created
without error, and the record serializes; yet `Save` terminates the run, and
the report location then names a directory, not a file holding the JSON. -/
theorem save_trailing_separator_terminates :
    trailingSeparatorReport.base.reportLocation = lit "a/b/"
      ∧ filepath.Base (lit "a/b/") = lit "b"
      ∧ filepath.Dir (lit "a/b/") = lit "a/b"
      ∧ os.IsNotExist (os.Stat sampleWorld.fs (lit "a/b")) = true
      ∧ (os.MkdirAll sampleWorld.fs (lit "a/b")).2 = none
      ∧ trailingSeparatorReport.serialize = .ok trailingSeparatorJSON
      ∧ (trailingSeparatorReport.Save sampleWorld).1 = .terminated
      ∧ os.Stat (trailingSeparatorReport.Save sampleWorld).2.2.fs (lit "a/b/") = .ok ⟨true⟩
      ∧ os.ReadFile (trailingSeparatorReport.Save sampleWorld).2.2.fs (lit "a/b/")
          = .error .EISDIR := by
  decide

end

section
variable {F ImageInfo : Type} [Float64 F] [Marshaler ImageInfo] [Unmarshaler ImageInfo]

omit [Unmarshaler ImageInfo] in
theorem serialize_eq_render (r : Report F ImageInfo) (data : GoString)
    (h : r.serialize = .ok data) :
    ∃ j, r.MarshalJSON = .ok j
      ∧ data = render false (lit "") (lit "  ") 0 j ++ [.rune '\n'] := by
  have key : ∀ {α : Type} [Marshaler α] (x : α),
      Encode false (lit "") (lit "  ") x = .ok data →
      ∃ j, Marshaler.MarshalJSON x = .ok j
        ∧ data = render false (lit "") (lit "  ") 0 j ++ [.rune '\n'] := by
    intro α _ x hx
    unfold Encode at hx
    cases hm : (Marshaler.MarshalJSON x : Except MarshalError JSON) with
    | error e => simp [hm] at hx
    | ok j =>
      rw [hm] at hx
      exact ⟨j, rfl, (Except.ok.inj hx).symm⟩
  cases r with
  | command p => exact key p h
  | build p => exact key p h
  | profile p => exact key p h
  | info p => exact key p h

theorem sampleImageInfo_agrees (x : SampleImageInfo) : CodecAgrees x := by
  intro j h
  have hj : j = .object (fieldBool "is_top_image" x.IsTopImage) := by
    have : (Except.ok (JSON.object (fieldBool "is_top_image" x.IsTopImage))
        : Except MarshalError JSON) = .ok j := h
    exact (Except.ok.inj this).symm
  subst hj
  refine ⟨wf_fieldBool "is_top_image" x.IsTopImage, by simp, ?_⟩
  have hb := getBool_present (fieldBool "is_top_image" x.IsTopImage) "is_top_image"
    x.IsTopImage ((member_fieldBool _ _ _).trans (if_pos rfl))
  rw [sanitizeValue, sanitizeMembers_fieldBool]
  show unmarshalStruct _ _ (JSON.object (fieldBool "is_top_image" x.IsTopImage)) = some x
  simp only [unmarshalStruct, hb, andThen_some]

theorem sampleBuildReport_valid : sampleBuildReport.Valid :=
  ⟨(by decide : InInt64 132000000), (by decide : InInt64 6200000),
    fun _ _ a _ => sampleImageInfo_agrees a⟩

theorem sampleBuildReport_plain : sampleBuildReport.Plain := by
  refine ⟨⟨validUTF8_lit _, validUTF8_lit _, validUTF8_lit ""⟩, validUTF8_lit _,
    ⟨validUTF8_lit _, validUTF8_lit _, validUTF8_lit _⟩,
    ⟨validUTF8_lit _, validUTF8_lit _, validUTF8_lit _, validUTF8_lit _, ?_,
      validUTF8_lit "", validUTF8_lit _, validUTF8_lit _, validUTF8_lit "", ?_, by decide⟩,
    validUTF8_lit _, validUTF8_lit _, validUTF8_lit _, validUTF8_lit _,
    validUTF8_lit _, validUTF8_lit _⟩
  · intro l hl s hs
    cases hl
    simp only [List.mem_cons, List.mem_singleton, List.not_mem_nil, or_false] at hs
    rcases hs with hs | hs <;> subst hs <;> exact validUTF8_lit _
  · intro l hl s hs
    cases hl
    simp only [List.mem_singleton] at hs
    subst hs
    exact validUTF8_lit _

end

end report

end DockerSlim
